import Mathlib

/-!
# SNFS polynomial selection (`factor/nfs/snfs.c`)

A shallow embedding of the integer part of `snfs.c`: the form recognizers
`find_brent_form` and `find_hcunn_form`, the validator `check_poly` and the
synthesizer `gen_brent_poly`, followed by theorems about them.

Conventions of the embedding.

* `mpz_t` values are `Int`.  `mpz_mod` is `Int.emod` (non-negative result),
  `mpz_tdiv_qr` is `Int.tdiv` / `Int.tmod`.
* C `int` values are `Int`; every `int` operation that can leave the 32-bit
  range is passed through `wrap32` (two's complement).  C `/` and `%` on `int`
  are `Int.tdiv` and `Int.tmod`.
* `unsigned long` is 64 bits wide (LP64); `toULong` is the conversion to it.
* The floating-point fields of `snfs_t` (`difficulty`, `sdifficulty`, `anorm`,
  `rnorm`) and `skew` are written but never read by the integer code paths and
  are left out of the record; `approx_norms` only writes those fields.
-/

namespace Snfs

/-! ## Machine integers -/

/-- Two's-complement reduction of an integer to the range of a 32-bit `int`:
`(x + 2^31) mod 2^32 - 2^31`. -/
def wrap32 (x : Int) : Int := (x + 2147483648) % 4294967296 - 2147483648

/-- Conversion of an integer value to `unsigned long` (64 bits): `x mod 2^64`. -/
def toULong (x : Int) : Int := x % 18446744073709551616

/-- Conversion of an integer value to a 32-bit `unsigned int`: `x mod 2^32`. -/
def toUInt32 (x : Int) : Int := x % 4294967296

/-- Integer power, computed on the absolute value; equal to `b ^ e`
(see `ipow_eq_pow`). -/
def ipow (b : Int) (e : Nat) : Int :=
  if b < 0 ∧ e % 2 = 1 then -((b.natAbs ^ e : Nat) : Int) else ((b.natAbs ^ e : Nat) : Int)

/-- The C library `abs` on `int`: the absolute value, reduced to 32 bits
(so that `abs(INT_MIN)` is `INT_MIN`, as on two's-complement machines). -/
def c_abs (x : Int) : Int := wrap32 (if x < 0 then -x else x)

/-- Conversion of a `double` holding the integer value `x` to `int`: the value
itself when it fits, and `INT_MIN` (the x86 "integer indefinite") otherwise. -/
def doubleToInt (x : Int) : Int :=
  if -2147483648 ≤ x ∧ x < 2147483648 then x else -2147483648

/-! ## Data model -/

/-- Modelled from the spec: the constant `MAX_POLY_DEGREE` of the polynomial
header, which is not part of this file ("implicit degree d ≤ MAX_DEGREE
(7 suffices here)"). -/
def MAX_POLY_DEGREE : Nat := 7

/-- The `form_type` tag of a descriptor. -/
inductive snfs_form_e where
  | SNFS_NONE
  | SNFS_BRENT
  | SNFS_H_CUNNINGHAM
  | SNFS_XYYXF
  deriving DecidableEq, Repr

/-- Which side carries the special-q. -/
inductive special_q_e where
  | RATIONAL_SPQ
  | ALGEBRAIC_SPQ
  deriving DecidableEq, Repr

open snfs_form_e special_q_e

/-- Reading entry `i` of a coefficient array. -/
def getC (a : List Int) (i : Nat) : Int := a.getD i 0

/-- Writing entry `i` of a coefficient array. -/
def setC (a : List Int) (i : Nat) (v : Int) : List Int := a.set i v

/-- An all-zero coefficient array of `MAX_POLY_DEGREE + 1` entries. -/
def zeroCoeffs : List Int := List.replicate (MAX_POLY_DEGREE + 1) 0

/-- One polynomial with big-integer coefficients (`mpz_poly_t`). -/
structure mpz_poly_t where
  degree : Int
  coeff : List Int
  deriving DecidableEq, Repr

/-- The polynomial pair with its common root (`mpz_polys_t`). -/
structure mpz_polys_t where
  rat : mpz_poly_t
  alg : mpz_poly_t
  m : Int
  side : special_q_e
  deriving DecidableEq, Repr

/-- The candidate record (`snfs_t`), integer fields only. -/
structure snfs_t where
  n : Int
  base1 : Int
  base2 : Int
  exp1 : Int
  exp2 : Int
  coeff1 : Int
  coeff2 : Int
  form_type : snfs_form_e
  poly : mpz_polys_t
  c : List Int
  valid : Int
  rank : Int
  deriving DecidableEq, Repr

/-- The effect of `mpz_polys_init`: zero polynomials, zero root. -/
def mpz_polys_init : mpz_polys_t :=
  { rat := { degree := 0, coeff := zeroCoeffs },
    alg := { degree := 0, coeff := zeroCoeffs },
    m := 0,
    side := RATIONAL_SPQ }

/-- The record produced by `snfs_init`: everything zero, `form_type = SNFS_NONE`,
a fresh polynomial pair with `side = RATIONAL_SPQ`. -/
def snfs_init : snfs_t :=
  { n := 0, base1 := 0, base2 := 0, exp1 := 0, exp2 := 0, coeff1 := 0, coeff2 := 0,
    form_type := SNFS_NONE,
    poly := { mpz_polys_init with side := RATIONAL_SPQ },
    c := zeroCoeffs, valid := 0, rank := 0 }

/-- Copy entries `0..degree` of `src` into `dst` (the loops of `snfs_copy_poly`). -/
def copyCoeffs (degree : Int) (src dst : List Int) : List Int :=
  (List.range (degree + 1).toNat).foldl (fun acc i => setC acc i (getC src i)) dst

/-- The function `snfs_copy_poly(src, dest)`: copies the form and the polynomial
pair, and leaves `c`, `valid` and `rank` of `dest` alone. -/
def snfs_copy_poly (src dest : snfs_t) : snfs_t :=
  { dest with
    n := src.n, base1 := src.base1, base2 := src.base2,
    exp1 := src.exp1, exp2 := src.exp2,
    coeff1 := src.coeff1, coeff2 := src.coeff2,
    form_type := src.form_type,
    poly :=
      { rat := { degree := src.poly.rat.degree,
                 coeff := copyCoeffs src.poly.rat.degree src.poly.rat.coeff dest.poly.rat.coeff },
        alg := { degree := src.poly.alg.degree,
                 coeff := copyCoeffs src.poly.alg.degree src.poly.alg.coeff dest.poly.alg.coeff },
        m := src.poly.m,
        side := src.poly.side } }

/-! ## The validator `check_poly` -/

/-- One round of the Horner loop of `check_poly`:
multiply `t` by `m`, subtract or add `abs(c[i])` according to the sign of
`c[i]`, reduce modulo `n`. -/
def hornerStep (m n t ci : Int) : Int :=
  let t1 := t * m
  let t2 := if ci < 0 then t1 - toULong (c_abs ci) else t1 + toULong (c_abs ci)
  t2 % n

/-- The indices `degree, degree-1, ..., 0` visited by the loops of `check_poly`. -/
def degreeDown (degree : Int) : List Nat := (List.range (degree + 1).toNat).reverse

/-- The residue `t` left by the Horner loop of `check_poly`. -/
def hornerResidue (p : snfs_t) : Int :=
  (degreeDown p.poly.alg.degree).foldl
    (fun t i => hornerStep p.poly.m p.n t (getC p.c i)) 0

/-- The residue `rat[1]*m + rat[0] mod n` computed by `check_poly`. -/
def ratResidue (p : snfs_t) : Int :=
  (getC p.poly.rat.coeff 1 * p.poly.m + getC p.poly.rat.coeff 0) % p.n

/-- The function `check_poly`. -/
def check_poly (p : snfs_t) : snfs_t :=
  let p1 : snfs_t := { p with valid := 1 }
  let p2 : snfs_t :=
    if hornerResidue p ≠ 0 then { p1 with valid := 0 }
    else
      { p1 with
        poly := { p1.poly with
          alg := { p1.poly.alg with
            coeff := (degreeDown p.poly.alg.degree).foldl
              (fun acc i => setC acc i (getC p.c i)) p.poly.alg.coeff } } }
  if ratResidue p ≠ 0 then { p2 with valid := 0 } else p2

/-- The algebraic value of the spec, `Σ_{i ≤ deg} c[i] · m^i`. -/
def algValue (c : List Int) (deg : Int) (m : Int) : Int :=
  ∑ i in Finset.range (deg + 1).toNat, getC c i * m ^ i

/-- The rational value of the spec, `rat[1] · m + rat[0]`. -/
def ratValue (rat : List Int) (m : Int) : Int := getC rat 1 * m + getC rat 0

/-! ## GMP primitives -/

/-- The function `mpz_sizeinbase(x, 2)`: the number of bits of `|x|`, and `1` for zero. -/
def mpz_sizeinbase2 (x : Int) : Nat := if x = 0 then 1 else x.natAbs.log2 + 1

/-- The test `mpz_sizeinbase(x, 2) <= k` for `k ≥ 1`, in the form `|x| < 2^k`
(see `mpz_sizeinbase2_le_iff`). -/
def bitsAtMost (x : Int) (k : Nat) : Bool := decide (x.natAbs < 2 ^ k)

/-- The function `mpz_get_ui`: the low 64 bits of `|x|`. -/
def mpz_get_ui (x : Int) : Int := toULong (x.natAbs : Int)

/-- The function `mpz_pow_ui(rop, base, e)` with the exponent converted to `unsigned long`. -/
def mpz_pow_ui (base e : Int) : Int := ipow base (toULong e).toNat

/-- Bisection for the integer root: keeps `lo ^ k ≤ a < hi ^ k`. -/
def rootSearch (a k : Nat) : Nat → Nat → Nat → Nat
  | 0, lo, _ => lo
  | fuel + 1, lo, hi =>
    if hi ≤ lo + 1 then lo
    else
      let mid := (lo + hi) / 2
      if mid ^ k ≤ a then rootSearch a k fuel mid hi else rootSearch a k fuel lo mid

/-- The truncated `k`-th root of a natural number (`k ≥ 1`). -/
def natRoot (a k : Nat) : Nat := rootSearch a k (a + 1) 0 (a + 1)

/-- The function `mpz_root(rop, a, k)`: the truncated integer part of the `k`-th root.
(For negative `a` and even `k` GMP raises an error; the recognizers only reach that
with `N ≤ 0`.) -/
def mpz_root (a : Int) (k : Nat) : Int :=
  if a < 0 then -((natRoot a.natAbs k : Nat) : Int) else ((natRoot a.natAbs k : Nat) : Int)

/-- The function `mpz_sqrt`: the truncated square root. -/
def mpz_sqrt (a : Int) : Int := ((natRoot a.natAbs 2 : Nat) : Int)

/-- Extended Euclid on `(r0, s0), (r1, s1)`; returns the last non-zero remainder and
its cofactor. -/
def invertAux : Nat → Int → Int → Int → Int → Int × Int
  | 0, r0, s0, _, _ => (r0, s0)
  | fuel + 1, r0, s0, r1, s1 =>
    if r1 = 0 then (r0, s0)
    else invertAux fuel r1 s1 (r0 % r1) (s0 - (r0 / r1) * s1)

/-- The function `mpz_invert(rop, op1, op2)`, return value ignored as at every call site:
the new value of `rop`.  When the inverse exists it is the inverse in `[0, |op2|)`;
when it does not, `rop` keeps its old value (the GMP manual leaves it unspecified,
the library returns before writing). -/
def mpz_invert (rop op1 op2 : Int) : Int :=
  let md : Int := (op2.natAbs : Int)
  let gs := invertAux (op2.natAbs + 1) md 0 (op1 % md) 1
  if gs.1 = 1 then gs.2 % md else rop

/-- The function `mpz_probab_prime_p(m, 10)` as a truth value, by trial division
(the test is exact on the word-sized values it receives here). -/
def mpz_probab_prime_p (m : Int) : Bool :=
  decide (2 ≤ m.natAbs) &&
    (List.range (natRoot m.natAbs 2 + 1)).all (fun d => decide (d < 2) || decide (m.natAbs % d ≠ 0))

/-! ## Form recognizers -/

/-- Modelled from the spec: the sign tag `POSITIVE` of the utility header ("sign = +",
stored as `+c2`). -/
def POSITIVE : Int := 0

/-- Modelled from the spec: the sign tag `NEGATIVE` of the utility header ("sign = −",
stored as `−c2`). -/
def NEGATIVE : Int := 1

/-- The offset `inc = 1 << 30` of `find_brent_form`. -/
def brentOffset : Int := 1073741824

/-- The bases skipped by the grid scan of `find_brent_form`. -/
def skipBase (i : Int) : Bool :=
  decide (i = 4) || decide (i = 9) || decide (i = 16) || decide (i = 25) || decide (i = 36) ||
  decide (i = 49) || decide (i = 64) || decide (i = 81) || decide (i = 8) || decide (i = 27) ||
  decide (i = 32)

/-- The values of the C expression `1000 / log((double)i) + 1` converted to `int`
(natural logarithm), tabulated for `i = 2, ..., 99`. -/
def expLimitTable : List Int :=
  [1443, 911, 722, 622, 559, 514, 481, 456, 435, 418, 403, 390, 379, 370,
   361, 353, 346, 340, 334, 329, 324, 319, 315, 311, 307, 304, 301, 297,
   295, 292, 289, 286, 284, 282, 280, 277, 275, 273, 272, 270, 268, 266,
   265, 263, 262, 260, 259, 257, 256, 255, 254, 252, 251, 250, 249, 248,
   247, 246, 245, 244, 243, 242, 241, 240, 239, 238, 237, 237, 236, 235,
   234, 234, 233, 232, 231, 231, 230, 229, 229, 228, 227, 227, 226, 226,
   225, 224, 224, 223, 223, 222, 222, 221, 221, 220, 220, 219, 219, 218]

/-- The exponent limit `maxb` / `kmax` for base `i` (`2 ≤ i ≤ 99`). -/
def expLimit (i : Int) : Int := expLimitTable.getD (i - 2).toNat 0

/-- A hit of the grid scan: leading coefficient, base, exponent, signed constant. -/
structure brent_hit where
  coeff1 : Int
  base1 : Int
  exp1 : Int
  coeff2 : Int
  deriving DecidableEq, Repr

/-- The magnitude `c2` decoded from the residue `r` (a value below `2^32`): with
`int c2 = mpz_get_ui(r)`, it is `c2 - inc` when `c2 > inc` (compared as unsigned),
and `inc - c2` otherwise, the unsigned result stored back in the `int`. -/
def brentC2 (r : Int) : Int :=
  let c2_0 := wrap32 (mpz_get_ui r)
  if toUInt32 c2_0 > brentOffset then wrap32 (toUInt32 (toUInt32 c2_0 - brentOffset))
  else wrap32 (toUInt32 (brentOffset - toUInt32 c2_0))

/-- The sign tag decoded from the residue `r`. -/
def brentSign (r : Int) : Int :=
  let c2_0 := wrap32 (mpz_get_ui r)
  if toUInt32 c2_0 > brentOffset then POSITIVE else NEGATIVE

/-- The number divided by `p` to get the leading coefficient: `n - c2` for the
positive sign, `n + c2` for the negative one (`c2` passed as `unsigned long`). -/
def brentShifted (n r : Int) : Int :=
  if brentSign r = POSITIVE then n - toULong (brentC2 r) else n + toULong (brentC2 r)

/-- The body of the inner loop of the grid scan at base `i`, exponent `j`, with
`p = i^j`: `none` when the body ends in `continue` (or the size test fails). -/
def brentTest (n i j p : Int) : Option brent_hit :=
  let r := (n + brentOffset) % p
  if bitsAtMost r 32 then
    let a := (brentShifted n r).tdiv p
    let r2 := (brentShifted n r).tmod p
    if r2 ≠ 0 then none
    else if ¬ bitsAtMost a 31 then none
    else
      let c1 := wrap32 (mpz_get_ui a)
      if c1.tmod i = 0 then none
      else some { coeff1 := c1, base1 := i, exp1 := j,
                  coeff2 := if brentSign r ≠ 0 then wrap32 (-(brentC2 r)) else brentC2 r }
  else none

/-- The inner loop `for (j = ...; j < maxb; j++)` of the grid scan, with `cnt`
iterations left, current exponent `j` and `p = i^(j-1)`. -/
def brentExpLoop (n i : Int) : Nat → Int → Int → Option brent_hit
  | 0, _, _ => none
  | cnt + 1, j, p =>
    let p1 := p * i
    match brentTest n i j p1 with
    | some h => some h
    | none => brentExpLoop n i cnt (j + 1) p1

/-- The outer loop `for (i = ...; i < maxa; i++)` of the grid scan, with `cnt`
iterations left and current base `i`. -/
def brentBaseLoop (n : Int) : Nat → Int → Option brent_hit
  | 0, _ => none
  | cnt + 1, i =>
    if skipBase i then brentBaseLoop n cnt (i + 1)
    else
      match brentExpLoop n i (expLimit i - 32).toNat 32 (mpz_pow_ui i 31) with
      | some h => some h
      | none => brentBaseLoop n cnt (i + 1)

/-- The grid scan of `find_brent_form`: bases `2 ≤ i < 100`. -/
def brentGridScan (n : Int) : Option brent_hit := brentBaseLoop n 98 2

/-- A hit of the tail scan: base, exponent and the stored `coeff1`. -/
structure tail_hit where
  base1 : Int
  exp1 : Int
  coeff1 : Int
  deriving DecidableEq, Repr

/-- The body of the tail loop at exponent `i`: the `-1` case, then the `+1` case. -/
def tailTest (n : Int) (i : Nat) : Option tail_hit :=
  let a := n + 1
  let b := mpz_root a i
  let p := mpz_pow_ui b i
  if p = a ∧ bitsAtMost b 31 then
    some { base1 := wrap32 (mpz_get_ui b), exp1 := i, coeff1 := -1 }
  else
    let a := n - 1
    let b := mpz_root a i
    let p := mpz_pow_ui b i
    if p = a ∧ bitsAtMost b 31 then
      some { base1 := wrap32 (mpz_get_ui b), exp1 := i, coeff1 := 1 }
    else none

/-- The tail loop `for (i = maxb; i > 1; i--)`: `cnt` iterations left, the current
exponent being `cnt + 1`. -/
def brentTailLoop (n : Int) : Nat → Option tail_hit
  | 0 => none
  | cnt + 1 =>
    match tailTest n (cnt + 2) with
    | some h => some h
    | none => brentTailLoop n cnt

/-- The tail scan of `find_brent_form`; `maxb` holds the limit of the last base, 99. -/
def brentTailScan (n : Int) : Option tail_hit := brentTailLoop n ((expLimit 99).toNat - 1)

/-- The function `find_brent_form` on input `N` and descriptor `form`. -/
def find_brent_form (N : Int) (form : snfs_t) : snfs_t :=
  match brentGridScan N with
  | some h =>
    { form with form_type := SNFS_BRENT, coeff1 := h.coeff1, base1 := h.base1, base2 := 1,
                exp1 := h.exp1, coeff2 := h.coeff2, n := N }
  | none =>
    match brentTailScan N with
    | some t =>
      { form with form_type := SNFS_BRENT, base1 := t.base1, exp1 := t.exp1,
                  coeff1 := t.coeff1, n := N }
    | none => form

/-- Modelled from the spec: the routine `spGCD` of the arithmetic library, which is
not part of this file ("gcd(i, j) = 1"). -/
def spGCD (x y : Int) : Int := (Int.gcd x y : Int)

/-- A hit of the homogeneous scan: the two bases, the exponent and the stored sign. -/
structure hcunn_hit where
  base1 : Int
  base2 : Int
  exp1 : Int
  coeff1 : Int
  deriving DecidableEq, Repr

/-- The two tests of the innermost loop of `find_hcunn_form` on `pa = i^k`, `pb = j^k`:
the `+` test first, then the `-` test; the value is the `coeff1` stored on a hit. -/
def hcunnTest (n pa pb : Int) : Option Int :=
  if (pa + pb) % n = 0 then some 1
  else if (pa - pb) % n = 0 then some (-1)
  else none

/-- The loop `for (k = ...; k < kmax; k++)` of `find_hcunn_form`, with `cnt` iterations
left, current exponent `k`, `pa = i^(k-1)` and `pb = j^(k-1)`. -/
def hcunnExpLoop (n i j : Int) : Nat → Int → Int → Int → Option hcunn_hit
  | 0, _, _, _ => none
  | cnt + 1, k, pa, pb =>
    let pa1 := pa * i
    let pb1 := pb * j
    match hcunnTest n pa1 pb1 with
    | some s => some { base1 := i, base2 := j, exp1 := k, coeff1 := s }
    | none => hcunnExpLoop n i j cnt (k + 1) pa1 pb1

/-- The work done for one coprime pair `(i, j)`: `pa = i^19`, `pb = j^19`,
`kmax = 1000 / log(i) + 1`, then the loop over `20 ≤ k < kmax`. -/
def hcunnPair (n i j : Int) : Option hcunn_hit :=
  hcunnExpLoop n i j (expLimit i - 20).toNat 20 (mpz_pow_ui i 19) (mpz_pow_ui j 19)

/-- The loop `for (j = ...; j < i; j++)` of `find_hcunn_form`, with `cnt` iterations
left and current second base `j`. -/
def hcunnInnerLoop (n i : Int) : Nat → Int → Option hcunn_hit
  | 0, _ => none
  | cnt + 1, j =>
    if spGCD i j ≠ 1 then hcunnInnerLoop n i cnt (j + 1)
    else
      match hcunnPair n i j with
      | some h => some h
      | none => hcunnInnerLoop n i cnt (j + 1)

/-- The loop `for (i = ...; i < maxa; i++)` of `find_hcunn_form`, with `cnt` iterations
left and current first base `i`. -/
def hcunnOuterLoop (n : Int) : Nat → Int → Option hcunn_hit
  | 0, _ => none
  | cnt + 1, i =>
    match hcunnInnerLoop n i (i - 2).toNat 2 with
    | some h => some h
    | none => hcunnOuterLoop n cnt (i + 1)

/-- The scan of `find_hcunn_form`: first bases `3 ≤ i < maxa = 13`. -/
def hcunnScan (n : Int) : Option hcunn_hit := hcunnOuterLoop n 10 3

/-- The function `find_hcunn_form` on input `N` and descriptor `form`. -/
def find_hcunn_form (N : Int) (form : snfs_t) : snfs_t :=
  match hcunnScan N with
  | some h =>
    { form with form_type := SNFS_H_CUNNINGHAM, base1 := h.base1, base2 := h.base2,
                exp1 := h.exp1, coeff1 := h.coeff1, n := N }
  | none => form

/-! ## The synthesizer `gen_brent_poly` -/

/-- Modelled from the spec: the table `spSOEprimes` of the sieve module, which is not
part of this file ("precomputed sequence of primes ≥ 2, at least up to 1000"); the
last entry is the first prime above 1000. -/
def spSOEprimes : List Int :=
  [2, 3, 5, 7, 11, 13, 17, 19, 23, 29, 31, 37, 41, 43, 47, 53,
   59, 61, 67, 71, 73, 79, 83, 89, 97, 101, 103, 107, 109, 113, 127, 131,
   137, 139, 149, 151, 157, 163, 167, 173, 179, 181, 191, 193, 197, 199, 211, 223,
   227, 229, 233, 239, 241, 251, 257, 263, 269, 271, 277, 281, 283, 293, 307, 311,
   313, 317, 331, 337, 347, 349, 353, 359, 367, 373, 379, 383, 389, 397, 401, 409,
   419, 421, 431, 433, 439, 443, 449, 457, 461, 463, 467, 479, 487, 491, 499, 503,
   509, 521, 523, 541, 547, 557, 563, 569, 571, 577, 587, 593, 599, 601, 607, 613,
   617, 619, 631, 641, 643, 647, 653, 659, 661, 673, 677, 683, 691, 701, 709, 719,
   727, 733, 739, 743, 751, 757, 761, 769, 773, 787, 797, 809, 811, 821, 823, 827,
   829, 839, 853, 857, 859, 863, 877, 881, 883, 887, 907, 911, 919, 929, 937, 941,
   947, 953, 967, 971, 977, 983, 991, 997, 1009]

/-- The value of `pow((double)b, x) * y` converted to `int`, for integers `b`, `x`, `y`.
For `x ≥ 0` the product is the integer `b^x * y`, which a `double` holds exactly
whenever it fits an `int`.  A negative `x` (it needs `exp1 < 0`, which no recognizer
produces) gives a fraction; its exact quotient is truncated here. -/
def powMulToInt (b x y : Int) : Int :=
  if 0 ≤ x then doubleToInt (ipow b x.toNat * y)
  else if b = 0 then -2147483648
  else doubleToInt (y.tdiv (ipow b (-x).toNat))

/-- The value of `(int)pow((double)b, x)`. -/
def powToInt (b x : Int) : Int := powMulToInt b x 1

/-- Write the two coefficients of the linear polynomial. -/
def setRat (cand : snfs_t) (rat1 rat0 : Int) : snfs_t :=
  { cand with poly := { cand.poly with rat := { cand.poly.rat with
      coeff := setC (setC cand.poly.rat.coeff 1 rat1) 0 rat0 } } }

/-- Write the common root `poly->m`. -/
def setM (cand : snfs_t) (m : Int) : snfs_t :=
  { cand with poly := { cand.poly with m := m } }

/-- Write `poly->alg.degree`. -/
def setAlgDegree (cand : snfs_t) (d : Int) : snfs_t :=
  { cand with poly := { cand.poly with alg := { cand.poly.alg with degree := d } } }

/-- The rational polynomial and root of the halved-degree branches (15, 21, 11, 13).
On entry `cand.poly.m` is `base1^k` and `m` is the local big integer `m`. -/
def halvedRat (poly cand : snfs_t) (k m : Int) : snfs_t :=
  if poly.form_type = SNFS_H_CUNNINGHAM then
    let rat1 := mpz_pow_ui (wrap32 (poly.base2 * poly.base1)) k
    let n1 := mpz_pow_ui (toULong poly.base2) (2 * k)
    let rat0 := cand.poly.m * cand.poly.m + n1
    let n2 := mpz_sqrt n1
    let n3 := mpz_invert n2 n2 poly.n
    let pm := (cand.poly.m * n3) % poly.n
    setM (setRat cand (-rat1) rat0) pm
  else
    let rat1 := -cand.poly.m
    let rat0 := cand.poly.m * cand.poly.m + 1
    let m1 := mpz_invert m cand.poly.m cand.n
    setM (setRat cand rat1 rat0) (cand.poly.m + m1)

/-- The rational polynomial and root of the straight branches (6, 6/3, 5, 7).
On entry `cand.poly.m` is `base1^k`, `n` is the local big integer. -/
def straightRat (poly cand : snfs_t) (k n : Int) : snfs_t :=
  if poly.form_type = SNFS_H_CUNNINGHAM then
    let rat1 := mpz_pow_ui poly.base2 k
    let rat0 := cand.poly.m
    let n1 := mpz_invert n rat1 poly.n
    let pm := (cand.poly.m * n1) % poly.n
    setM (setRat cand (-rat1) rat0) pm
  else
    setRat cand (-1) cand.poly.m

/-- The body shared by the eight reduction branches: a fresh record, the copied form,
the degree, the small coefficients (`(index, value)` pairs in program order),
`m = base1^k`, the rational side, and the validation. -/
def reductionCandidate (poly : snfs_t) (deg k : Int) (coeffs : List (Nat × Int))
    (halved : Bool) : snfs_t :=
  let polys := snfs_copy_poly poly snfs_init
  let polys := setAlgDegree polys deg
  let polys := { polys with c := coeffs.foldl (fun c iv => setC c iv.1 iv.2) polys.c }
  let m := toULong poly.base1
  let polys := setM polys (mpz_pow_ui m k)
  let polys := if halved then halvedRat poly polys k m else straightRat poly polys k 0
  check_poly polys

/-- The loop factoring the base over the small-prime table: `i` indexes the table,
`bb` is what is left of the base, `f` the factors collected so far. -/
def factorLoop : Nat → Nat → Int → List Int → List Int
  | 0, _, _, f => f
  | fuel + 1, i, bb, f =>
    if bb > 1 ∧ spSOEprimes.getD i 0 < 1000 then
      let q := spSOEprimes.getD i 0
      if bb.tmod q ≠ 0 then factorLoop fuel (i + 1) bb f
      else factorLoop fuel i (bb.tdiv q) (f ++ [q])
    else f

/-- The factors `f[0..numf)` of the base collected by `gen_brent_poly`: none when the
base is prime.  The bound 256 on the number of loop steps exceeds the 169 table
entries plus the at most 31 prime factors of a 32-bit base. -/
def baseFactors (b : Int) : List Int :=
  if ¬ mpz_probab_prime_p (toULong b) then factorLoop 256 0 b [] else []

/-- The state of the no-reduction branch: the candidate array, the number of accepted
candidates, and the local big integer `n`. -/
structure gen_state where
  polys : List snfs_t
  npoly : Nat
  n : Int
  deriving DecidableEq, Repr

/-- Build one candidate of degree `i` in slot `npoly`: copy the form, set `c[i] = cd`,
`c[0] = c0` and the degree, set the rational side from `m` (homogeneous: with
`base2^ratExp`), validate, and keep the slot (`npoly++`) only when valid; an invalid
slot is re-initialised. -/
def emitCandidate (poly : snfs_t) (st : gen_state) (i cd c0 m ratExp : Int) : gen_state :=
  let cand := snfs_copy_poly poly (st.polys.getD st.npoly snfs_init)
  let cand := { cand with c := setC (setC cand.c i.toNat cd) 0 c0 }
  let cand := setAlgDegree cand i
  let n1 := if poly.form_type = SNFS_H_CUNNINGHAM
            then mpz_invert st.n (mpz_pow_ui poly.base2 ratExp) cand.n else st.n
  let cand :=
    if poly.form_type = SNFS_H_CUNNINGHAM then
      setM (setRat cand (-(mpz_pow_ui poly.base2 ratExp)) m) ((m * n1) % cand.n)
    else
      setM (setRat cand (-1) m) m
  let cand := check_poly cand
  if cand.valid ≠ 0 then
    { polys := st.polys.set st.npoly cand, npoly := st.npoly + 1, n := n1 }
  else
    { polys := st.polys.set st.npoly snfs_init, npoly := st.npoly, n := n1 }

/-- One round of the loop over the factors of a composite base: factor `f[j]` is moved
up to the next multiple of the degree `i`, the other factors are moved down. -/
def compositeStep (poly : snfs_t) (f : List Int) (i : Int) (st : gen_state) (j : Nat) :
    gen_state :=
  let e := poly.exp1
  let i1 := wrap32 (i - e.tmod i)
  let c0 := powMulToInt (f.getD j 0) i1 poly.coeff2
  let cd0 := powMulToInt poly.base2 i1 poly.coeff1
  let i2 := e.tmod i
  let cdbb := (List.range f.length).foldl
    (fun (acc : Int × Int) k =>
      if k = j then acc
      else (powMulToInt (f.getD k 0) i2 acc.1, wrap32 (acc.2 * f.getD k 0)))
    (cd0, 1)
  let me1 := (wrap32 (e + i1)).tdiv i
  let m1 := mpz_pow_ui (f.getD j 0) me1
  let me2 := (wrap32 (e - i2)).tdiv i
  let n1 := mpz_pow_ui cdbb.2 me2
  let m := m1 * n1
  emitCandidate poly { st with n := n1 } i cdbb.1 c0 m me1

/-- One round of the loop over the degrees `i = 4, 5, 6`. -/
def degreeStep (poly : snfs_t) (f : List Int) (st : gen_state) (i : Int) : gen_state :=
  let e := poly.exp1
  let b := poly.base1
  let b2 := poly.base2
  if e.tmod i = 0 then
    let me := e.tdiv i
    emitCandidate poly st i poly.coeff1 poly.coeff2 (mpz_pow_ui b me) me
  else
    let inc := wrap32 (i - e.tmod i)
    let me := (wrap32 (e + inc)).tdiv i
    let cd := wrap32 (powToInt b2 inc * poly.coeff1)
    let c0 := wrap32 (powToInt b inc * poly.coeff2)
    let st1 := emitCandidate poly st i cd c0 (mpz_pow_ui b me) me
    let inc := e.tmod i
    let me := (wrap32 (e - inc)).tdiv i
    let cd := wrap32 (powToInt b inc * poly.coeff1)
    let c0 := wrap32 (powToInt b2 inc * poly.coeff2)
    let st2 := emitCandidate poly st1 i cd c0 (mpz_pow_ui b me) me
    if f.length > 1 then
      (List.range f.length).foldl (compositeStep poly f i) st2
    else st2

/-- The no-reduction branch of `gen_brent_poly`: the array and the count. -/
def noReduction (poly : snfs_t) : List snfs_t × Int :=
  let f := baseFactors poly.base1
  let apoly := if f.length > 1 then (f.length + 2) * 3 else 6
  let st0 : gen_state := { polys := List.replicate apoly snfs_init, npoly := 0, n := 0 }
  let st := [4, 5, 6].foldl (degreeStep poly f) st0
  (st.polys, (st.npoly : Int))

/-- The candidate of the branch `exp1 % 15 == 0`. -/
def reduction15 (poly : snfs_t) : snfs_t :=
  reductionCandidate poly 4 (poly.exp1.tdiv 15)
    [(4, 1), (3, poly.coeff2), (2, -4), (1, wrap32 (wrap32 (-poly.coeff2) * 4)), (0, 1)] true

/-- The candidate of the branch `exp1 % 21 == 0`. -/
def reduction21 (poly : snfs_t) : snfs_t :=
  reductionCandidate poly 6 (poly.exp1.tdiv 21)
    [(6, 1), (5, poly.coeff2), (4, -6), (3, wrap32 (wrap32 (-poly.coeff2) * 6)), (2, 8),
     (1, wrap32 (poly.coeff2 * 8)), (0, 1)] true

/-- The candidate of the branch `exp1 % 6 == 0`. -/
def reduction6 (poly : snfs_t) : snfs_t :=
  reductionCandidate poly 4 (poly.exp1.tdiv 6) [(4, 1), (2, -1), (0, 1)] false

/-- The candidate of the branch `exp1 % 6 == 3`. -/
def reduction3 (poly : snfs_t) : snfs_t :=
  reductionCandidate poly 4 ((wrap32 (poly.exp1 - 3)).tdiv 6)
    [(4, wrap32 (poly.base1 * poly.base1)),
     (2, wrap32 (poly.base1 * wrap32 (-poly.coeff2))), (0, 1)] false

/-- The candidate of the branch `exp1 % 5 == 0`. -/
def reduction5 (poly : snfs_t) : snfs_t :=
  reductionCandidate poly 4 (poly.exp1.tdiv 5)
    [(4, 1), (3, wrap32 (-poly.coeff2)), (2, 1), (1, wrap32 (-poly.coeff2)), (0, 1)] false

/-- The candidate of the branch `exp1 % 7 == 0`. -/
def reduction7 (poly : snfs_t) : snfs_t :=
  reductionCandidate poly 6 (poly.exp1.tdiv 7)
    [(6, 1), (5, wrap32 (-poly.coeff2)), (4, 1), (3, wrap32 (-poly.coeff2)), (2, 1),
     (1, wrap32 (-poly.coeff2)), (0, 1)] false

/-- The candidate of the branch `exp1 % 11 == 0`. -/
def reduction11 (poly : snfs_t) : snfs_t :=
  reductionCandidate poly 5 (poly.exp1.tdiv 11)
    [(5, 1), (4, wrap32 (wrap32 (-poly.coeff2) * 1)), (3, -4), (2, wrap32 (poly.coeff2 * 3)),
     (1, 3), (0, wrap32 (-poly.coeff2))] true

/-- The candidate of the branch `exp1 % 13 == 0`. -/
def reduction13 (poly : snfs_t) : snfs_t :=
  reductionCandidate poly 6 (poly.exp1.tdiv 13)
    [(6, 1), (5, wrap32 (-poly.coeff2)), (4, -5), (3, wrap32 (poly.coeff2 * 4)), (2, 6),
     (1, wrap32 (wrap32 (-poly.coeff2) * 3)), (0, -1)] true

/-- The function `gen_brent_poly`: the returned array and the count written to
`*npolys`.  The chain of `if` / `else if` is in program order. -/
def gen_brent_poly (poly : snfs_t) : List snfs_t × Int :=
  if poly.exp1.tmod 15 = 0 ∧ poly.coeff1 = 1 then ([reduction15 poly], 1)
  else if poly.exp1.tmod 21 = 0 ∧ poly.coeff1 = 1 then ([reduction21 poly], 1)
  else if poly.exp1.tmod 6 = 0 ∧ poly.coeff1 = 1 then ([reduction6 poly], 1)
  else if poly.exp1.tmod 6 = 3 ∧ poly.coeff1 = 1 then ([reduction3 poly], 1)
  else if poly.exp1.tmod 5 = 0 ∧ poly.coeff1 = 1 then ([reduction5 poly], 1)
  else if poly.exp1.tmod 7 = 0 ∧ poly.coeff1 = 1 then ([reduction7 poly], 1)
  else if poly.exp1.tmod 11 = 0 ∧ poly.coeff1 = 1 then ([reduction11 poly], 1)
  else if poly.exp1.tmod 13 = 0 ∧ poly.coeff1 = 1 then ([reduction13 poly], 1)
  else noReduction poly

/-! ## Reference descriptors -/

/-- A Brent descriptor `coeff1 * base1^exp1 + coeff2` for `N`, `base2 = 1`, on a
record otherwise as `snfs_init` leaves it. -/
def brentForm (c1 b e c2 N : Int) : snfs_t :=
  { snfs_init with form_type := SNFS_BRENT, coeff1 := c1, base1 := b, base2 := 1,
                   exp1 := e, coeff2 := c2, n := N }

/-- The number `2^256 - 1`. -/
def mersenne256 : Int :=
  115792089237316195423570985008687907853269984665640564039457584007913129639935

/-- The number `3^165 - 1`. -/
def n3_165 : Int :=
  5308930362839928667688049530226627139643793175493798707037516219525092562313842

/-- The number `2^97 + 3^97`. -/
def n2_3_97 : Int := 19088056323407827233880811316144277879758549635

/-- The number `17^25 + 2^25`. -/
def n17_2_25 : Int := 5770627412348402378939603545489

/-- The number `2^36 - 1`. -/
def mersenne36 : Int := 68719476735

/-- The number `2^105 + 1`. -/
def n2_105 : Int := 40564819207303340847894502572033

/-- The descriptor `2^36 - 1` for `N = 2^36 - 1`. -/
def brent36 : snfs_t := brentForm 1 2 36 (-1) mersenne36

/-- The descriptor `2^105 + 1` for `N = 2^105 + 1`. -/
def brent105 : snfs_t := brentForm 1 2 105 1 n2_105

/-- The descriptor `2^256 - 1` for `N = 2^256 - 1`. -/
def brent256 : snfs_t := brentForm 1 2 256 (-1) mersenne256

/-- The descriptor `3^165 - 1` for `N = 3^165 - 1`. -/
def brent165 : snfs_t := brentForm 1 3 165 (-1) n3_165

/-- The number `6^100 - 1`. -/
def n6_100 : Int :=
  653318623500070906096690267158057820537143710472954871543071966369497141477375

/-- The number `10^120 + 1`. -/
def n10_120 : Int :=
  1000000000000000000000000000000000000000000000000000000000000000000000000000000000000000000000000000000000000000000000001

/-- The descriptor `6^100 - 1` for `N = 6^100 - 1`. -/
def brent6_100 : snfs_t := brentForm 1 6 100 (-1) n6_100

/-- The descriptor `10^120 + 1` for `N = 10^120 + 1`. -/
def brent10_120 : snfs_t := brentForm 1 10 120 1 n10_120

/-- The descriptor left by the tail scan for `N = 999`: `coeff1 = -1`, `base1 = 10`,
`exp1 = 3`, and `coeff2 = 0`, `base2 = 0` as `snfs_init` left them. -/
def tail999 : snfs_t :=
  { snfs_init with form_type := SNFS_BRENT, coeff1 := -1, base1 := 10, exp1 := 3, n := 999 }

/-- A small valid candidate: `x^4 - 1` and `-x + 2` with root `m = 2` modulo `15`. -/
def demoCandidate : snfs_t :=
  setM (setRat { snfs_init with n := 15, c := [-1, 0, 0, 0, 1, 0, 0, 0],
                                poly := { mpz_polys_init with
                                  alg := { degree := 4, coeff := zeroCoeffs } } } (-1) 2) 2

/-! ## Vocabulary of the claims -/

/-- The grid of the homogeneous scan as the code walks it: `3 ≤ i < 13`, `2 ≤ j < i`,
`gcd(i, j) = 1`, `20 ≤ k < kmax(i)`. -/
def hcunnGrid (i j k : Nat) : Prop :=
  3 ≤ i ∧ i < 13 ∧ 2 ≤ j ∧ j < i ∧ Nat.gcd i j = 1 ∧ 20 ≤ k ∧ (k : Int) < expLimit i

/-- The order in which the homogeneous scan visits its grid: `i` ascending, then `j`
ascending, then `k` ascending. -/
def scanBefore (i1 j1 k1 i2 j2 k2 : Nat) : Prop :=
  i1 < i2 ∨ (i1 = i2 ∧ (j1 < j2 ∨ (j1 = j2 ∧ k1 < k2)))

/-- What the claims read off a candidate: `valid`, the algebraic degree, the root `m`,
the leading coefficient `c[degree]` and the constant `c[0]`. -/
def candidateSummary (p : snfs_t) : Int × Int × Int × Int × Int :=
  (p.valid, p.poly.alg.degree, p.poly.m, getC p.c p.poly.alg.degree.toNat, getC p.c 0)

/-! ## Ranking and test sieving

The `double` fields of `snfs_t` live in a separate record over an ordered field `α`
that stands for the reals; rounding, infinities and NaN are not modelled.  The library
routines `log10` and `qsort` and the external `test_sieve` are parameters. -/

/-- A candidate with its `double` fields: `core` holds the integer part of `snfs_t`. -/
structure snfs_cand (α : Type) where
  core : snfs_t
  difficulty : α
  sdifficulty : α
  anorm : α
  rnorm : α
  deriving DecidableEq

/-- Write `poly->side`. -/
def setSide (p : snfs_t) (s : special_q_e) : snfs_t :=
  { p with poly := { p.poly with side := s } }

/-- Write `rank`. -/
def setRank (p : snfs_t) (r : Int) : snfs_t := { p with rank := r }

/-- The body of the loop of `snfs_scale_difficulty` for one candidate. -/
def scaleOne {α : Type} [LinearOrderedField α] (log10 : α → α) (p : snfs_cand α) :
    snfs_cand α :=
  let ratio := if p.anorm > p.rnorm then p.anorm / p.rnorm else p.rnorm / p.anorm
  let side := if p.anorm > p.rnorm then ALGEBRAIC_SPQ else RATIONAL_SPQ
  let ratio1 := log10 ratio - 6
  let ratio2 := if ratio1 < 0 then 0 else ratio1
  { p with core := setSide p.core side, sdifficulty := p.difficulty + ratio2 }

/-- The function `snfs_scale_difficulty`: the loop body applied to `polys[0..npoly)`. -/
def snfs_scale_difficulty {α : Type} [LinearOrderedField α] (log10 : α → α)
    (polys : List (snfs_cand α)) (npoly : Int) : List (snfs_cand α) :=
  (polys.take npoly.toNat).map (scaleOne log10) ++ polys.drop npoly.toNat

/-- Conversion of a `double` to `int`: truncation toward zero, `INT_MIN` when the
truncated value does not fit. -/
def truncToInt {α : Type} [LinearOrderedField α] [FloorRing α] (x : α) : Int :=
  doubleToInt (if 0 ≤ x then ⌊x⌋ else ⌈x⌉)

/-- The comparator `qcomp_snfs_sdifficulty`: the difference of the two `sdifficulty`
values, returned as `int`. -/
def qcomp_snfs_sdifficulty {α : Type} [LinearOrderedField α] [FloorRing α]
    (x y : snfs_cand α) : Int :=
  truncToInt (x.sdifficulty - y.sdifficulty)

/-- The comparator as `qsort` sees it on the array `arr`: on positions. -/
def positionCompare {α : Type} [LinearOrderedField α] [FloorRing α]
    (arr : List (snfs_cand α)) (i j : Nat) : Int :=
  match arr.get? i, arr.get? j with
  | some x, some y => qcomp_snfs_sdifficulty x y
  | _, _ => 0

/-- The loop `for (i=0; i<npoly; i++) polys[i].rank = i`, from position `i` on. -/
def assignRanks {α : Type} : Nat → List (snfs_cand α) → List (snfs_cand α)
  | _, [] => []
  | i, p :: ps => { p with core := setRank p.core (i : Int) } :: assignRanks (i + 1) ps

/-- The function `snfs_rank_polys`.  The C library `qsort` is the parameter `qsort`:
a sorting routine learns about the elements only through the comparator, so it is
given the number of elements and the comparator on positions and returns the input
positions in output order. -/
def snfs_rank_polys {α : Type} [LinearOrderedField α] [FloorRing α]
    (qsort : Nat → (Nat → Nat → Int) → List Nat)
    (polys : List (snfs_cand α)) (npoly : Int) : List (snfs_cand α) :=
  let arr := polys.take npoly.toNat
  let order := qsort arr.length (positionCompare arr)
  assignRanks 0 (order.filterMap arr.get?) ++ polys.drop npoly.toNat

/-- Insert position `x` into the sorted list of positions `l`, after every position
that does not compare greater. -/
def insertPosition (cmp : Nat → Nat → Int) (x : Nat) : List Nat → List Nat
  | [] => [x]
  | y :: l => if cmp y x > 0 then x :: y :: l else y :: insertPosition cmp x l

/-- A sorting routine one may pass for `qsort`: stable insertion sort. -/
def insertionQsort (n : Nat) (cmp : Nat → Nat → Int) : List Nat :=
  (List.range n).foldl (fun acc x => insertPosition cmp x acc) []

/-- Modelled from the spec: the constant `NUM_SNFS_POLYS` of the NFS header, which is
not part of this file ("top K (K = 3 by default)"). -/
def NUM_SNFS_POLYS : Int := 3

/-- What `snfs_test_sieve` leaves behind: the index of the candidate it returns a
pointer to, whether `test_sieve` was called, and the candidate array. -/
structure sieve_result (α : Type) where
  best : Int
  consulted : Bool
  polys : List (snfs_cand α)

/-- The function `snfs_test_sieve`.  The external `test_sieve` is the parameter
`test_sieve`: it receives the jobs built from the first `min(NUM_SNFS_POLYS, npoly)`
candidates and their number, and answers an index or a negative value. -/
def snfs_test_sieve {α : Type} [LinearOrder α]
    (test_sieve : List (snfs_cand α) → Int → Int) (threshold : α)
    (polys : List (snfs_cand α)) (npoly : Int) : sieve_result α :=
  if npoly < 2 then { best := 0, consulted := false, polys := polys }
  else
    let top := polys.take (min npoly NUM_SNFS_POLYS).toNat
    let dotest := top.any (fun p => decide (p.sdifficulty > threshold))
    if ¬ dotest then { best := 0, consulted := false, polys := polys }
    else
      let minscore_id := test_sieve top (min NUM_SNFS_POLYS npoly)
      { best := if minscore_id < 0 then 0 else minscore_id, consulted := true, polys := polys }

/-- A candidate that carries only a scaled difficulty. -/
def candOfSd (sd : ℚ) : snfs_cand ℚ :=
  { core := snfs_init, difficulty := sd, sdifficulty := sd, anorm := 1, rnorm := 1 }

/-- Three candidates with `sdifficulty` 10.6, 10.0, 10.3, in that order. -/
def rankInputA : List (snfs_cand ℚ) := [candOfSd (53 / 5), candOfSd 10, candOfSd (103 / 10)]

/-- The same three candidates in the order 10.0, 10.3, 10.6. -/
def rankInputB : List (snfs_cand ℚ) := [candOfSd 10, candOfSd (103 / 10), candOfSd (53 / 5)]

/-- A stand-in for `log10` on the rationals that is exact at `10^8` (value 8) and
is 0 elsewhere. -/
def demoLog10 (x : ℚ) : ℚ := if x = 100000000 then 8 else 0

/-- A candidate of difficulty 198 whose norms differ by a factor `10^8`. -/
def demoUnbalanced : snfs_cand ℚ :=
  { core := snfs_init, difficulty := 198, sdifficulty := 0, anorm := 100000000, rnorm := 1 }

/-- What C14 asks of the array `out` left by `snfs_rank_polys` on the input `inp`:
the `sdifficulty` values are a permutation of the input's and ascending, and
`rank` is the position. -/
def rankedAscending {α : Type} [LinearOrderedField α] (out inp : List (snfs_cand α)) : Prop :=
  (out.map (fun p => p.sdifficulty)).Perm (inp.map (fun p => p.sdifficulty)) ∧
  (out.map (fun p => p.sdifficulty)).Sorted (fun a b => a ≤ b) ∧
  out.map (fun p => p.core.rank) = (List.range out.length).map (fun i => (i : Int))

/-! ## The blocks of the degree loop -/

/-- The block `e % i == 0` of the degree loop: the exact-fit candidate. -/
def exactFit (poly : snfs_t) (st : gen_state) (i : Int) : gen_state :=
  let me := poly.exp1.tdiv i
  emitCandidate poly st i poly.coeff1 poly.coeff2 (mpz_pow_ui poly.base1 me) me

/-- The first block of the branch `e % i != 0`: the exponent is raised to the next
multiple of the degree. -/
def roundUp (poly : snfs_t) (st : gen_state) (i : Int) : gen_state :=
  let inc := wrap32 (i - poly.exp1.tmod i)
  let me := (wrap32 (poly.exp1 + inc)).tdiv i
  let cd := wrap32 (powToInt poly.base2 inc * poly.coeff1)
  let c0 := wrap32 (powToInt poly.base1 inc * poly.coeff2)
  emitCandidate poly st i cd c0 (mpz_pow_ui poly.base1 me) me

/-- The second block of the branch `e % i != 0`: the exponent is lowered to the previous
multiple of the degree. -/
def roundDown (poly : snfs_t) (st : gen_state) (i : Int) : gen_state :=
  let inc := poly.exp1.tmod i
  let me := (wrap32 (poly.exp1 - inc)).tdiv i
  let cd := wrap32 (powToInt poly.base1 inc * poly.coeff1)
  let c0 := wrap32 (powToInt poly.base2 inc * poly.coeff2)
  emitCandidate poly st i cd c0 (mpz_pow_ui poly.base1 me) me

/-- The candidate stored in slot `k` of the array. -/
def slot (st : gen_state) (k : Nat) : snfs_t := st.polys.getD k snfs_init

/-- The descriptor `2^16 + 1` for `N = 65537`. -/
def brent2_16 : snfs_t := brentForm 1 2 16 1 65537

/-- The state at the start of the degree loop for a prime base: six fresh slots. -/
def freshState : gen_state := { polys := List.replicate 6 snfs_init, npoly := 0, n := 0 }

/-- The descriptor `6^8 + 1` for `N = 1679617`. -/
def brent6_8 : snfs_t := brentForm 1 6 8 1 1679617

/-- The descriptor `2^33 + 1` for `N = 2^33 + 1`. -/
def brent2_33 : snfs_t := brentForm 1 2 33 1 8589934593

/-- The algebraic value `Σ_{i ≤ deg} c[i] · x^i` at a point `x` of a field. -/
def algValueIn {K : Type} [Field K] (c : List Int) (deg : Int) (x : K) : K :=
  ∑ i in Finset.range (deg + 1).toNat, (getC c i : K) * x ^ i

/-- The descriptor `2^11 - 1` for `N = 2047`. -/
def brent2_11 : snfs_t := brentForm 1 2 11 (-1) 2047

/-- The number `3^22 + 2^22`. -/
def n3_2_22 : Int := 31385253913

/-- The homogeneous descriptor `find_hcunn_form` leaves for `3^22 + 2^22` on a record
fresh from `snfs_init`: `coeff1 = 1`, bases 3 and 2, exponent 22, `coeff2 = 0`. -/
def hcunn3_2_22 : snfs_t :=
  { snfs_init with form_type := SNFS_H_CUNNINGHAM, base1 := 3, base2 := 2, exp1 := 22,
                   coeff1 := 1, n := n3_2_22 }

/-- The number `3^32 + 2^32`. -/
def n3_2_32 : Int := 1853024483819137

/-- The homogeneous descriptor `find_hcunn_form` leaves for `2^97 + 3^97` on a record
fresh from `snfs_init`: `coeff1 = 1`, bases 3 and 2, exponent 97, `coeff2 = 0`. -/
def hcunn3_2_97 : snfs_t :=
  { snfs_init with form_type := SNFS_H_CUNNINGHAM, base1 := 3, base2 := 2, exp1 := 97,
                   coeff1 := 1, n := n2_3_97 }

/-- The homogeneous descriptor `find_hcunn_form` leaves for `3^32 + 2^32` on a record
fresh from `snfs_init`: `coeff1 = 1`, bases 3 and 2, exponent 32, `coeff2 = 0`. -/
def hcunn3_2_32 : snfs_t :=
  { snfs_init with form_type := SNFS_H_CUNNINGHAM, base1 := 3, base2 := 2, exp1 := 32,
                   coeff1 := 1, n := n3_2_32 }

/-! ## The slots written by the no-reduction branch

Every candidate is written to `polys[npoly]` with the value `npoly` has when the block
starts; the lists below record these indices in program order. -/

/-- The slots written by the loop over the factors of a composite base, for the
remaining indices `js`. -/
def compositeWrites (poly : snfs_t) (f : List Int) (i : Int) : gen_state → List Nat → List Nat
  | _, [] => []
  | st, j :: js => st.npoly :: compositeWrites poly f i (compositeStep poly f i st j) js

/-- The slots written by one round of the loop over the degrees. -/
def degreeWrites (poly : snfs_t) (f : List Int) (st : gen_state) (i : Int) : List Nat :=
  if poly.exp1.tmod i = 0 then [st.npoly]
  else
    st.npoly :: (roundUp poly st i).npoly ::
      (if f.length > 1 then
        compositeWrites poly f i (roundDown poly (roundUp poly st i) i) (List.range f.length)
       else [])

/-- The slots written by the loop over the degrees `ds`, from the state `st`. -/
def loopWrites (poly : snfs_t) (f : List Int) : gen_state → List Int → List Nat
  | _, [] => []
  | st, d :: ds => degreeWrites poly f st d ++ loopWrites poly f (degreeStep poly f st d) ds

/-- The slots written by the no-reduction branch of `gen_brent_poly`. -/
def noReductionWrites (poly : snfs_t) : List Nat :=
  let f := baseFactors poly.base1
  let apoly := if f.length > 1 then (f.length + 2) * 3 else 6
  loopWrites poly f { polys := List.replicate apoly snfs_init, npoly := 0, n := 0 } [4, 5, 6]

/-! # Theorems -/

/-! ## Machine-integer lemmas -/

theorem wrap32_of_range (x : Int) (h1 : -2147483648 ≤ x) (h2 : x < 2147483648) :
    wrap32 x = x := by
  unfold wrap32; omega

theorem toULong_of_range (x : Int) (h1 : 0 ≤ x) (h2 : x < 18446744073709551616) :
    toULong x = x := by
  unfold toULong; omega

theorem ipow_eq_pow (b : Int) (e : Nat) : ipow b e = b ^ e := by
  unfold ipow
  split_ifs with h
  · obtain ⟨hb, he⟩ := h
    have hodd : Odd e := Nat.odd_iff.mpr he
    have hb' : b = -(b.natAbs : Int) := by omega
    conv_rhs => rw [hb']
    rw [Odd.neg_pow hodd]
    push_cast
    rfl
  · rcases not_and_or.mp h with hb | he
    · have hb' : b = (b.natAbs : Int) := by omega
      conv_rhs => rw [hb']
      push_cast
      rfl
    · have heven : Even e := Nat.even_iff.mpr (by omega)
      push_cast
      exact heven.pow_abs b

theorem mpz_pow_ui_nat (b : Int) (e : Nat) (he : e < 18446744073709551616) :
    mpz_pow_ui b (e : Int) = b ^ e := by
  unfold mpz_pow_ui
  rw [ipow_eq_pow, toULong_of_range _ (by omega) (by omega)]
  simp

/-- The bit-size test used by the recognizers agrees with `mpz_sizeinbase`. -/
theorem mpz_sizeinbase2_le_iff (x : Int) (k : Nat) (hk : 1 ≤ k) :
    mpz_sizeinbase2 x ≤ k ↔ bitsAtMost x k = true := by
  unfold mpz_sizeinbase2 bitsAtMost
  by_cases hx : x = 0
  · subst hx
    simp [hk]
  · have hne : x.natAbs ≠ 0 := by simpa using hx
    simp only [hx, if_false, decide_eq_true_eq]
    rw [← Nat.log2_lt hne]
    omega

/-- The reference numbers are the numbers they are named after. -/
theorem reference_numbers :
    mersenne36 = 2 ^ 36 - 1 ∧ n2_105 = 2 ^ 105 + 1 ∧ mersenne256 = 2 ^ 256 - 1 ∧
    n3_165 = 3 ^ 165 - 1 ∧ n2_3_97 = 2 ^ 97 + 3 ^ 97 ∧ n17_2_25 = 17 ^ 25 + 2 ^ 25 := by
  refine ⟨?_, ?_, ?_, ?_, ?_, ?_⟩ <;>
    norm_num [mersenne36, n2_105, mersenne256, n3_165, n2_3_97, n17_2_25]

/-! ## GMP primitives meet their contracts -/

theorem rootSearch_spec (a k : Nat) :
    ∀ (fuel lo hi : Nat), lo < hi → hi - lo ≤ fuel → lo ^ k ≤ a → a < hi ^ k →
      (rootSearch a k fuel lo hi) ^ k ≤ a ∧ a < (rootSearch a k fuel lo hi + 1) ^ k := by
  intro fuel
  induction fuel with
  | zero => intro lo hi h1 h2; omega
  | succ fuel ih =>
    intro lo hi h1 h2 h3 h4
    rw [rootSearch]
    by_cases hstop : hi ≤ lo + 1
    · have : hi = lo + 1 := by omega
      subst this
      simp only [le_refl, if_true]
      exact ⟨h3, h4⟩
    · simp only [hstop, if_false]
      by_cases hmid : ((lo + hi) / 2) ^ k ≤ a
      · simp only [hmid, if_true]
        exact ih _ _ (by omega) (by omega) hmid h4
      · simp only [hmid, if_false]
        exact ih _ _ (by omega) (by omega) h3 (by omega)

/-- The value `natRoot a k` is the truncated `k`-th root: `r^k ≤ a < (r+1)^k`. -/
theorem natRoot_spec (a k : Nat) (hk : 1 ≤ k) :
    (natRoot a k) ^ k ≤ a ∧ a < (natRoot a k + 1) ^ k := by
  unfold natRoot
  apply rootSearch_spec a k (a + 1) 0 (a + 1) (by omega) (by omega)
  · rw [zero_pow (by omega)]; omega
  · calc a < a + 1 := by omega
      _ = (a + 1) ^ 1 := by ring
      _ ≤ (a + 1) ^ k := Nat.pow_le_pow_right (by omega) hk

theorem invertAux_spec (x md : Int) :
    ∀ (fuel : Nat) (a b : Nat) (s0 s1 : Int), b < fuel →
      (a : Int) ≡ s0 * x [ZMOD md] → (b : Int) ≡ s1 * x [ZMOD md] →
      (invertAux fuel a s0 b s1).1 ≡ (invertAux fuel a s0 b s1).2 * x [ZMOD md] ∧
      (invertAux fuel a s0 b s1).1 = ((Nat.gcd a b : Nat) : Int) := by
  intro fuel
  induction fuel with
  | zero => intro a b s0 s1 h; omega
  | succ fuel ih =>
    intro a b s0 s1 hf h0 h1
    rw [invertAux]
    by_cases hb : (b : Int) = 0
    · simp only [hb, if_true]
      have hb0 : b = 0 := by exact_mod_cast hb
      subst hb0
      exact ⟨h0, by simp⟩
    · simp only [hb, if_false]
      have hbpos : 0 < b := by
        rcases Nat.eq_zero_or_pos b with h | h
        · exact absurd (by exact_mod_cast h) hb
        · exact h
      have hmod : ((a : Int) % (b : Int)) = ((a % b : Nat) : Int) := by push_cast; rfl
      rw [hmod]
      have hlt : a % b < fuel := by
        have := Nat.mod_lt a hbpos
        omega
      have hinv : ((a % b : Nat) : Int) ≡ (s0 - (a : Int) / (b : Int) * s1) * x [ZMOD md] := by
        have hdef : ((a % b : Nat) : Int) = (a : Int) - (a : Int) / (b : Int) * (b : Int) := by
          rw [← hmod, Int.emod_def]; ring
        rw [hdef]
        have h2 := (h1.mul_left ((a : Int) / (b : Int)))
        have h3 := h0.sub h2
        have e1 : (s0 - (a : Int) / (b : Int) * s1) * x =
            s0 * x - (a : Int) / (b : Int) * (s1 * x) := by ring
        rw [e1]
        exact h3
      obtain ⟨r1, r2⟩ := ih b (a % b) s1 (s0 - (a : Int) / (b : Int) * s1) hlt h1 hinv
      refine ⟨r1, ?_⟩
      rw [r2, Nat.gcd_comm b (a % b), ← Nat.gcd_rec, Nat.gcd_comm]

/-- The value `mpz_invert rop op1 op2` is the inverse of `op1` modulo `op2` in
`[0, |op2|)` whenever `gcd(op1, op2) = 1`. -/
theorem mpz_invert_spec (rop op1 op2 : Int) (h2 : op2 ≠ 0) (hg : Int.gcd op1 op2 = 1) :
    0 ≤ mpz_invert rop op1 op2 ∧ mpz_invert rop op1 op2 < |op2| ∧
    (op1 * mpz_invert rop op1 op2) % op2 = 1 % op2 := by
  have hmd : ((op2.natAbs : Nat) : Int) = |op2| := (Int.abs_eq_natAbs op2).symm
  have hpos : 0 < |op2| := abs_pos.mpr h2
  have hx0 : 0 ≤ op1 % |op2| := Int.emod_nonneg _ (ne_of_gt hpos)
  have hx1 : op1 % |op2| < |op2| := Int.emod_lt_of_pos _ hpos
  obtain ⟨xn, hxn⟩ := Int.eq_ofNat_of_zero_le hx0
  have hspec := invertAux_spec (op1 % |op2|) |op2| (op2.natAbs + 1) op2.natAbs xn 0 1
    (by have : (xn : Int) < (op2.natAbs : Int) := by rw [← hxn, hmd]; exact hx1
        omega)
    (by rw [hmd]; simp [Int.ModEq])
    (by rw [← hxn]; simp)
  have hgcd : Nat.gcd op2.natAbs xn = 1 := by
    have h1 : Int.gcd |op2| (op1 % |op2|) = 1 := by
      rw [Int.gcd_comm]
      have : Int.gcd (op1 % |op2|) |op2| = Int.gcd op1 |op2| := by
        rw [← hmd]
        simp only [Int.gcd, Int.natAbs_ofNat]
        rw [Nat.gcd_comm, Nat.gcd_comm op1.natAbs]
        have key : ∀ (m : Nat) (z : Int), 0 < m →
            Nat.gcd m (z % (m : Int)).natAbs = Nat.gcd m z.natAbs := by
          intro m z hm
          have hz : ((z % (m : Int)).natAbs : Int) = z % (m : Int) :=
            Int.natAbs_of_nonneg (Int.emod_nonneg _ (by exact_mod_cast hm.ne'))
          have d1 : ∀ d : Nat, d ∣ m → (d ∣ (z % (m : Int)).natAbs ↔ d ∣ z.natAbs) := by
            intro d hd
            rw [← Int.natCast_dvd_natCast, hz, ← Int.natCast_dvd_natCast, Int.dvd_natAbs]
            have hdm : (d : Int) ∣ (m : Int) := by exact_mod_cast hd
            rw [Int.emod_def]
            constructor
            · intro h
              have := dvd_add h (Dvd.dvd.mul_right hdm (z / (m : Int)))
              simpa using this
            · intro h
              exact dvd_sub h (Dvd.dvd.mul_right hdm _)
          apply Nat.dvd_antisymm
          · exact Nat.dvd_gcd (Nat.gcd_dvd_left _ _)
              ((d1 _ (Nat.gcd_dvd_left _ _)).mp (Nat.gcd_dvd_right _ _))
          · exact Nat.dvd_gcd (Nat.gcd_dvd_left _ _)
              ((d1 _ (Nat.gcd_dvd_left _ _)).mpr (Nat.gcd_dvd_right _ _))
        exact key op2.natAbs op1 (Int.natAbs_pos.mpr h2)
      rw [this]
      simpa [Int.gcd, Int.natAbs_abs] using hg
    rw [hxn, ← hmd, Int.gcd_natCast_natCast] at h1
    exact h1
  unfold mpz_invert
  simp only [hmd, hxn]
  rw [hmd, hxn] at hspec
  obtain ⟨hs1, hs2⟩ := hspec
  rw [hgcd] at hs2
  simp only [hs2, Nat.cast_one, if_true]
  refine ⟨Int.emod_nonneg _ (ne_of_gt hpos), Int.emod_lt_of_pos _ hpos, ?_⟩
  rw [hs2] at hs1
  have hA : (op1 * ((invertAux (op2.natAbs + 1) |op2| 0 (xn : Int) 1).2 % |op2|)) ≡
      1 [ZMOD |op2|] := by
    have e1 : (invertAux (op2.natAbs + 1) |op2| 0 (xn : Int) 1).2 % |op2| ≡
        (invertAux (op2.natAbs + 1) |op2| 0 (xn : Int) 1).2 [ZMOD |op2|] := Int.mod_modEq _ _
    have e2 : op1 ≡ (xn : Int) [ZMOD |op2|] := by
      rw [← hxn]; exact (Int.mod_modEq _ _).symm
    have e3 := e2.mul e1
    refine e3.trans ?_
    rw [mul_comm]
    exact hs1.symm
  have hB : (op1 * ((invertAux (op2.natAbs + 1) |op2| 0 (xn : Int) 1).2 % |op2|)) ≡
      1 [ZMOD op2] := by
    rcases abs_choice op2 with h | h
    · rw [h] at hA; rw [h]; exact hA
    · have := hA
      rw [Int.modEq_iff_dvd] at this ⊢
      rw [h] at this
      have := (neg_dvd).mp this
      rw [h]
      exact this
  exact hB

/-! ## The validator -/

theorem getC_range (cs : List Int)
    (hc : ∀ x ∈ cs, -2147483648 < x ∧ x < 2147483648) (i : Nat) :
    -2147483648 < getC cs i ∧ getC cs i < 2147483648 := by
  unfold getC
  rw [List.getD_eq_getElem?_getD]
  cases h : cs[i]? with
  | none => simp
  | some v =>
    have hv : v ∈ cs := List.getElem?_mem h
    simpa using hc v hv

theorem hornerStep_eq (m n t ci : Int) (h1 : -2147483648 < ci) (h2 : ci < 2147483648) :
    hornerStep m n t ci = (t * m + ci) % n := by
  unfold hornerStep c_abs
  by_cases hneg : ci < 0
  · simp only [hneg, if_true]
    rw [wrap32_of_range _ (by omega) (by omega), toULong_of_range _ (by omega) (by omega)]
    congr 1
    ring
  · simp only [hneg, if_false]
    rw [wrap32_of_range _ (by omega) (by omega), toULong_of_range _ (by omega) (by omega)]

/-- Horner's loop from `t0` over the indices `k-1, ..., 0` is congruent to
`t0 * m^k + Σ_{i<k} c[i] * m^i`. -/
theorem horner_fold_modEq (c : List Int) (m n : Int)
    (hc : ∀ x ∈ c, -2147483648 < x ∧ x < 2147483648) (k : Nat) (t0 : Int) :
    ((List.range k).reverse.foldl (fun t i => hornerStep m n t (getC c i)) t0) ≡
      t0 * m ^ k + ∑ i in Finset.range k, getC c i * m ^ i [ZMOD n] := by
  induction k generalizing t0 with
  | zero => simp [Int.ModEq]
  | succ k ih =>
    rw [List.range_succ, List.reverse_append, List.reverse_singleton, List.singleton_append,
      List.foldl_cons]
    refine (ih _).trans ?_
    rw [hornerStep_eq _ _ _ _ (getC_range c hc k).1 (getC_range c hc k).2,
      Finset.sum_range_succ]
    have h1 : (t0 * m + getC c k) % n ≡ t0 * m + getC c k [ZMOD n] := Int.mod_modEq _ _
    have h2 := (h1.mul_right (m ^ k)).add_right (∑ i in Finset.range k, getC c i * m ^ i)
    refine h2.trans ?_
    have : (t0 * m + getC c k) * m ^ k + ∑ i in Finset.range k, getC c i * m ^ i =
        t0 * m ^ (k + 1) + (∑ i in Finset.range k, getC c i * m ^ i + getC c k * m ^ k) := by
      ring
    rw [this]

/-- The value left by Horner's loop is already reduced modulo `n`. -/
theorem horner_fold_reduced (c : List Int) (m n : Int) (l : List Nat) (t0 : Int)
    (h0 : t0 % n = t0) :
    (l.foldl (fun t i => hornerStep m n t (getC c i)) t0) % n =
      l.foldl (fun t i => hornerStep m n t (getC c i)) t0 := by
  induction l generalizing t0 with
  | nil => simpa using h0
  | cons a l ih =>
    rw [List.foldl_cons]
    apply ih
    unfold hornerStep
    exact Int.emod_emod_of_dvd _ (dvd_refl n)

theorem hornerResidue_eq (p : snfs_t)
    (hc : ∀ x ∈ p.c, -2147483648 < x ∧ x < 2147483648) :
    hornerResidue p = algValue p.c p.poly.alg.degree p.poly.m % p.n := by
  have h1 := horner_fold_modEq p.c p.poly.m p.n hc (p.poly.alg.degree + 1).toNat 0
  have h2 := horner_fold_reduced p.c p.poly.m p.n
    (List.range (p.poly.alg.degree + 1).toNat).reverse 0 (by simp)
  unfold hornerResidue degreeDown algValue
  rw [← h2]
  simpa [Int.ModEq] using h1

theorem check_poly_valid (p : snfs_t) :
    (check_poly p).valid = if hornerResidue p = 0 ∧ ratResidue p = 0 then 1 else 0 := by
  unfold check_poly
  by_cases h1 : hornerResidue p = 0 <;> by_cases h2 : ratResidue p = 0 <;> simp [h1, h2]

/-- C1. After `check_poly` the flag `valid` is 1 exactly when both
`Σ_{i ≤ deg} c[i]·m^i mod N` and `(rat[1]·m + rat[0]) mod N` are zero, and it is 0
otherwise; for a modulus `N > 0` and stored coefficients other than `INT_MIN`
(where the C `abs` is undefined). -/
theorem check_poly_valid_iff (p : snfs_t) (_hN : 0 < p.n)
    (hc : ∀ x ∈ p.c, -2147483648 < x ∧ x < 2147483648) :
    ((check_poly p).valid = 1 ↔
      (algValue p.c p.poly.alg.degree p.poly.m % p.n = 0 ∧
        ratValue p.poly.rat.coeff p.poly.m % p.n = 0)) ∧
    (¬ (algValue p.c p.poly.alg.degree p.poly.m % p.n = 0 ∧
        ratValue p.poly.rat.coeff p.poly.m % p.n = 0) → (check_poly p).valid = 0) := by
  have hv := check_poly_valid p
  rw [hornerResidue_eq p hc] at hv
  have hr : ratResidue p = ratValue p.poly.rat.coeff p.poly.m % p.n := rfl
  rw [hr] at hv
  constructor
  · constructor
    · intro h1
      by_contra hcon
      rw [if_neg hcon] at hv
      omega
    · intro h
      rw [if_pos h] at hv
      exact hv
  · intro h
    rw [if_neg h] at hv
    exact hv

/-- Witness for C1: the candidate `x^4 - 1`, `-x + 2`, `m = 2`, `N = 15`. -/
theorem check_poly_valid_iff_witness :
    (0 < demoCandidate.n ∧ ∀ x ∈ demoCandidate.c, -2147483648 < x ∧ x < 2147483648) ∧
    ((check_poly demoCandidate).valid = 1 ↔
      (algValue demoCandidate.c demoCandidate.poly.alg.degree demoCandidate.poly.m
          % demoCandidate.n = 0 ∧
        ratValue demoCandidate.poly.rat.coeff demoCandidate.poly.m % demoCandidate.n = 0)) :=
  ⟨⟨by decide, by decide⟩, (check_poly_valid_iff demoCandidate (by decide) (by decide)).1⟩

/-! ## The homogeneous scan -/

theorem hcunnTest_some (n pa pb s : Int) (h : hcunnTest n pa pb = some s) :
    (s = 1 ∧ (pa + pb) % n = 0) ∨ (s = -1 ∧ (pa + pb) % n ≠ 0 ∧ (pa - pb) % n = 0) := by
  unfold hcunnTest at h
  by_cases h1 : (pa + pb) % n = 0
  · simp [h1] at h
    exact Or.inl ⟨h.symm, h1⟩
  · by_cases h2 : (pa - pb) % n = 0
    · simp [h1, h2] at h
      exact Or.inr ⟨h.symm, h1, h2⟩
    · simp [h1, h2] at h

theorem hcunnTest_none (n pa pb : Int) (h : hcunnTest n pa pb = none) :
    (pa + pb) % n ≠ 0 ∧ (pa - pb) % n ≠ 0 := by
  unfold hcunnTest at h
  by_cases h1 : (pa + pb) % n = 0
  · simp [h1] at h
  · by_cases h2 : (pa - pb) % n = 0
    · simp [h1, h2] at h
    · exact ⟨h1, h2⟩

/-- A hit of the exponent loop is the first exponent whose test succeeds. -/
theorem hcunnExpLoop_some (n i j : Int) (cnt : Nat) :
    ∀ (e : Nat) (h : hcunn_hit),
      hcunnExpLoop n i j cnt ((e : Int) + 1) (i ^ e) (j ^ e) = some h →
      ∃ k : Nat, e < k ∧ k ≤ e + cnt ∧ h.base1 = i ∧ h.base2 = j ∧ h.exp1 = (k : Int) ∧
        hcunnTest n (i ^ k) (j ^ k) = some h.coeff1 ∧
        ∀ k2 : Nat, e < k2 → k2 < k → hcunnTest n (i ^ k2) (j ^ k2) = none := by
  induction cnt with
  | zero => intro e h hh; simp [hcunnExpLoop] at hh
  | succ cnt ih =>
    intro e h hh
    rw [hcunnExpLoop] at hh
    rw [← pow_succ, ← pow_succ] at hh
    cases ht : hcunnTest n (i ^ (e + 1)) (j ^ (e + 1)) with
    | some s =>
      rw [ht] at hh
      simp only [Option.some.injEq] at hh
      subst hh
      refine ⟨e + 1, by omega, by omega, rfl, rfl, by push_cast; rfl, ht, ?_⟩
      intro k2 h1 h2
      omega
    | none =>
      rw [ht] at hh
      simp only [] at hh
      have hcast : ((e : Int) + 1 + 1) = (((e + 1 : Nat) : Int) + 1) := by push_cast; ring
      rw [hcast] at hh
      obtain ⟨k, hk1, hk2, hb1, hb2, hex, htest, hfirst⟩ := ih (e + 1) h hh
      refine ⟨k, by omega, by omega, hb1, hb2, hex, htest, ?_⟩
      intro k2 h1 h2
      by_cases hk : k2 = e + 1
      · subst hk; exact ht
      · exact hfirst k2 (by omega) h2

/-- When the exponent loop finds nothing, every test of its range fails. -/
theorem hcunnExpLoop_none (n i j : Int) (cnt : Nat) :
    ∀ (e : Nat), hcunnExpLoop n i j cnt ((e : Int) + 1) (i ^ e) (j ^ e) = none →
      ∀ k2 : Nat, e < k2 → k2 ≤ e + cnt → hcunnTest n (i ^ k2) (j ^ k2) = none := by
  induction cnt with
  | zero => intro e _ k2 h1 h2; omega
  | succ cnt ih =>
    intro e hh k2 h1 h2
    rw [hcunnExpLoop] at hh
    rw [← pow_succ, ← pow_succ] at hh
    cases ht : hcunnTest n (i ^ (e + 1)) (j ^ (e + 1)) with
    | some s => rw [ht] at hh; simp at hh
    | none =>
      rw [ht] at hh
      simp only [] at hh
      have hcast : ((e : Int) + 1 + 1) = (((e + 1 : Nat) : Int) + 1) := by push_cast; ring
      rw [hcast] at hh
      by_cases hk : k2 = e + 1
      · subst hk; exact ht
      · exact ih (e + 1) hh k2 (by omega) (by omega)


theorem mpz_pow_ui_19 (b : Int) : mpz_pow_ui b 19 = b ^ 19 := by
  have h := mpz_pow_ui_nat b 19 (by norm_num)
  simpa using h

theorem spGCD_natCast (i j : Nat) : spGCD (i : Int) (j : Int) = 1 ↔ Nat.gcd i j = 1 := by
  unfold spGCD
  rw [Int.gcd_natCast_natCast]
  norm_cast

/-- A hit for the pair `(i, j)` is the first exponent of `[20, kmax(i))` whose test
succeeds. -/
theorem hcunnPair_some (n i j : Int) (h : hcunn_hit) (hh : hcunnPair n i j = some h) :
    ∃ k : Nat, 20 ≤ k ∧ (k : Int) < expLimit i ∧ h.base1 = i ∧ h.base2 = j ∧
      h.exp1 = (k : Int) ∧ hcunnTest n (i ^ k) (j ^ k) = some h.coeff1 ∧
      ∀ k2 : Nat, 20 ≤ k2 → k2 < k → hcunnTest n (i ^ k2) (j ^ k2) = none := by
  unfold hcunnPair at hh
  rw [mpz_pow_ui_19, mpz_pow_ui_19] at hh
  have hcast : (20 : Int) = (((19 : Nat) : Int) + 1) := by norm_num
  rw [hcast] at hh
  obtain ⟨k, hk1, hk2, hb1, hb2, hex, htest, hfirst⟩ := hcunnExpLoop_some n i j _ 19 h hh
  refine ⟨k, by omega, by omega, hb1, hb2, hex, htest, ?_⟩
  intro k2 h1 h2
  exact hfirst k2 (by omega) h2

theorem hcunnPair_none (n i j : Int) (hh : hcunnPair n i j = none) :
    ∀ k2 : Nat, 20 ≤ k2 → (k2 : Int) < expLimit i → hcunnTest n (i ^ k2) (j ^ k2) = none := by
  unfold hcunnPair at hh
  rw [mpz_pow_ui_19, mpz_pow_ui_19] at hh
  have hcast : (20 : Int) = (((19 : Nat) : Int) + 1) := by norm_num
  rw [hcast] at hh
  intro k2 h1 h2
  exact hcunnExpLoop_none n i j _ 19 hh k2 (by omega) (by omega)

theorem hcunnInnerLoop_some (n i : Int) (cnt : Nat) :
    ∀ (j0 : Nat) (h : hcunn_hit), hcunnInnerLoop n i cnt (j0 : Int) = some h →
      ∃ j : Nat, j0 ≤ j ∧ j < j0 + cnt ∧ spGCD i (j : Int) = 1 ∧
        hcunnPair n i (j : Int) = some h ∧
        ∀ j2 : Nat, j0 ≤ j2 → j2 < j → spGCD i (j2 : Int) = 1 →
          hcunnPair n i (j2 : Int) = none := by
  induction cnt with
  | zero => intro j0 h hh; simp [hcunnInnerLoop] at hh
  | succ cnt ih =>
    intro j0 h hh
    rw [hcunnInnerLoop] at hh
    have hcast : ((j0 : Int) + 1) = ((j0 + 1 : Nat) : Int) := by push_cast; ring
    by_cases hg : spGCD i (j0 : Int) = 1
    · simp only [hg, ne_eq, not_true_eq_false, if_false] at hh
      cases hp : hcunnPair n i (j0 : Int) with
      | some h2 =>
        rw [hp] at hh
        simp only [Option.some.injEq] at hh
        subst hh
        refine ⟨j0, le_refl _, by omega, hg, hp, ?_⟩
        intro j2 h1 h2; omega
      | none =>
        rw [hp] at hh
        simp only [] at hh
        rw [hcast] at hh
        obtain ⟨j, hj1, hj2, hgj, hpj, hfirst⟩ := ih (j0 + 1) h hh
        refine ⟨j, by omega, by omega, hgj, hpj, ?_⟩
        intro j2 h1 h2 hg2
        by_cases hj : j2 = j0
        · subst hj; exact hp
        · exact hfirst j2 (by omega) h2 hg2
    · simp only [hg, ne_eq, not_false_eq_true, if_true] at hh
      rw [hcast] at hh
      obtain ⟨j, hj1, hj2, hgj, hpj, hfirst⟩ := ih (j0 + 1) h hh
      refine ⟨j, by omega, by omega, hgj, hpj, ?_⟩
      intro j2 h1 h2 hg2
      by_cases hj : j2 = j0
      · subst hj; exact absurd hg2 hg
      · exact hfirst j2 (by omega) h2 hg2

theorem hcunnInnerLoop_none (n i : Int) (cnt : Nat) :
    ∀ (j0 : Nat), hcunnInnerLoop n i cnt (j0 : Int) = none →
      ∀ j2 : Nat, j0 ≤ j2 → j2 < j0 + cnt → spGCD i (j2 : Int) = 1 →
        hcunnPair n i (j2 : Int) = none := by
  induction cnt with
  | zero => intro j0 _ j2 h1 h2; omega
  | succ cnt ih =>
    intro j0 hh j2 h1 h2 hg2
    rw [hcunnInnerLoop] at hh
    have hcast : ((j0 : Int) + 1) = ((j0 + 1 : Nat) : Int) := by push_cast; ring
    by_cases hg : spGCD i (j0 : Int) = 1
    · simp only [hg, ne_eq, not_true_eq_false, if_false] at hh
      cases hp : hcunnPair n i (j0 : Int) with
      | some h2 => rw [hp] at hh; simp at hh
      | none =>
        rw [hp] at hh
        simp only [] at hh
        rw [hcast] at hh
        by_cases hj : j2 = j0
        · subst hj; exact hp
        · exact ih (j0 + 1) hh j2 (by omega) (by omega) hg2
    · simp only [hg, ne_eq, not_false_eq_true, if_true] at hh
      rw [hcast] at hh
      by_cases hj : j2 = j0
      · subst hj; exact absurd hg2 hg
      · exact ih (j0 + 1) hh j2 (by omega) (by omega) hg2

theorem hcunnOuterLoop_some (n : Int) (cnt : Nat) :
    ∀ (i0 : Nat) (h : hcunn_hit), hcunnOuterLoop n cnt (i0 : Int) = some h →
      ∃ i : Nat, i0 ≤ i ∧ i < i0 + cnt ∧
        hcunnInnerLoop n (i : Int) ((i : Int) - 2).toNat 2 = some h ∧
        ∀ i2 : Nat, i0 ≤ i2 → i2 < i →
          hcunnInnerLoop n (i2 : Int) ((i2 : Int) - 2).toNat 2 = none := by
  induction cnt with
  | zero => intro i0 h hh; simp [hcunnOuterLoop] at hh
  | succ cnt ih =>
    intro i0 h hh
    rw [hcunnOuterLoop] at hh
    have hcast : ((i0 : Int) + 1) = ((i0 + 1 : Nat) : Int) := by push_cast; ring
    cases hp : hcunnInnerLoop n (i0 : Int) ((i0 : Int) - 2).toNat 2 with
    | some h2 =>
      rw [hp] at hh
      simp only [Option.some.injEq] at hh
      subst hh
      refine ⟨i0, le_refl _, by omega, hp, ?_⟩
      intro i2 h1 h2; omega
    | none =>
      rw [hp] at hh
      simp only [] at hh
      rw [hcast] at hh
      obtain ⟨i, hi1, hi2, hpi, hfirst⟩ := ih (i0 + 1) h hh
      refine ⟨i, by omega, by omega, hpi, ?_⟩
      intro i2 h1 h2
      by_cases hi : i2 = i0
      · subst hi; exact hp
      · exact hfirst i2 (by omega) h2

theorem hcunnOuterLoop_none (n : Int) (cnt : Nat) :
    ∀ (i0 : Nat), hcunnOuterLoop n cnt (i0 : Int) = none →
      ∀ i2 : Nat, i0 ≤ i2 → i2 < i0 + cnt →
        hcunnInnerLoop n (i2 : Int) ((i2 : Int) - 2).toNat 2 = none := by
  induction cnt with
  | zero => intro i0 _ i2 h1 h2; omega
  | succ cnt ih =>
    intro i0 hh i2 h1 h2
    rw [hcunnOuterLoop] at hh
    have hcast : ((i0 : Int) + 1) = ((i0 + 1 : Nat) : Int) := by push_cast; ring
    cases hp : hcunnInnerLoop n (i0 : Int) ((i0 : Int) - 2).toNat 2 with
    | some h2 => rw [hp] at hh; simp at hh
    | none =>
      rw [hp] at hh
      simp only [] at hh
      rw [hcast] at hh
      by_cases hi : i2 = i0
      · subst hi; exact hp
      · exact ih (i0 + 1) hh i2 (by omega) (by omega)

/-- A hit of the homogeneous scan lies in the grid, its test succeeds, and every
grid point visited before it fails both tests. -/
theorem hcunnScan_some (n : Int) (h : hcunn_hit) (hh : hcunnScan n = some h) :
    ∃ i j k : Nat, hcunnGrid i j k ∧ h.base1 = (i : Int) ∧ h.base2 = (j : Int) ∧
      h.exp1 = (k : Int) ∧ hcunnTest n ((i : Int) ^ k) ((j : Int) ^ k) = some h.coeff1 ∧
      ∀ i2 j2 k2 : Nat, hcunnGrid i2 j2 k2 → scanBefore i2 j2 k2 i j k →
        hcunnTest n ((i2 : Int) ^ k2) ((j2 : Int) ^ k2) = none := by
  unfold hcunnScan at hh
  have h3 : (3 : Int) = ((3 : Nat) : Int) := by norm_num
  have h2 : (2 : Int) = ((2 : Nat) : Int) := by norm_num
  rw [h3] at hh
  obtain ⟨i, hi1, hi2, hin, hifirst⟩ := hcunnOuterLoop_some n 10 3 h hh
  rw [h2] at hin
  obtain ⟨j, hj1, hj2, hg, hp, hjfirst⟩ := hcunnInnerLoop_some n (i : Int) _ 2 h hin
  obtain ⟨k, hk1, hk2, hb1, hb2, hex, htest, hkfirst⟩ := hcunnPair_some n _ _ h hp
  refine ⟨i, j, k, ⟨hi1, by omega, hj1, by omega, (spGCD_natCast i j).mp hg, hk1, hk2⟩,
    hb1, hb2, hex, htest, ?_⟩
  intro i2 j2 k2 hgrid hbefore
  obtain ⟨g1, g2, g3, g4, g5, g6, g7⟩ := hgrid
  rcases hbefore with hlt | ⟨heq, hlt | ⟨heq2, hlt⟩⟩
  · have hnone := hifirst i2 g1 hlt
    rw [h2] at hnone
    have hpn := hcunnInnerLoop_none n (i2 : Int) _ 2 hnone j2 g3 (by omega)
      ((spGCD_natCast i2 j2).mpr g5)
    exact hcunnPair_none n _ _ hpn k2 g6 g7
  · subst heq
    have hpn := hjfirst j2 g3 hlt ((spGCD_natCast i2 j2).mpr g5)
    exact hcunnPair_none n _ _ hpn k2 g6 g7
  · subst heq; subst heq2
    exact hkfirst k2 g6 hlt

/-- When the homogeneous scan finds nothing, both tests fail at every grid point. -/
theorem hcunnScan_none (n : Int) (hh : hcunnScan n = none) (i j k : Nat)
    (hgrid : hcunnGrid i j k) :
    hcunnTest n ((i : Int) ^ k) ((j : Int) ^ k) = none := by
  unfold hcunnScan at hh
  have h3 : (3 : Int) = ((3 : Nat) : Int) := by norm_num
  have h2 : (2 : Int) = ((2 : Nat) : Int) := by norm_num
  rw [h3] at hh
  obtain ⟨g1, g2, g3, g4, g5, g6, g7⟩ := hgrid
  have hnone := hcunnOuterLoop_none n 10 3 hh i g1 (by omega)
  rw [h2] at hnone
  have hpn := hcunnInnerLoop_none n (i : Int) _ 2 hnone j g3 (by omega)
    ((spGCD_natCast i j).mpr g5)
  exact hcunnPair_none n _ _ hpn k g6 g7

/-- The descriptor written by `find_hcunn_form` in terms of the scan. -/
theorem find_hcunn_form_type (N : Int) (form : snfs_t)
    (hform : form.form_type ≠ SNFS_H_CUNNINGHAM) :
    (find_hcunn_form N form).form_type = SNFS_H_CUNNINGHAM ↔ (hcunnScan N).isSome = true := by
  unfold find_hcunn_form
  cases hs : hcunnScan N with
  | none => simp [hform]
  | some h => simp

/-- Without a hit `find_hcunn_form` returns the descriptor as it was. -/
theorem find_hcunn_form_of_none (N : Int) (form : snfs_t) (hs : hcunnScan N = none) :
    find_hcunn_form N form = form := by
  unfold find_hcunn_form; rw [hs]

/-- The descriptor written by `find_hcunn_form` on a hit. -/
theorem find_hcunn_form_of_some (N : Int) (form : snfs_t) (h : hcunn_hit)
    (hs : hcunnScan N = some h) :
    find_hcunn_form N form =
      { form with form_type := SNFS_H_CUNNINGHAM, base1 := h.base1, base2 := h.base2,
                  exp1 := h.exp1, coeff1 := h.coeff1, n := N } := by
  unfold find_hcunn_form; rw [hs]

/-- The scan on `2^97 + 3^97` stops at `i = 3`, `j = 2`, `k = 97` with the `+` test. -/
theorem hcunnScan_n2_3_97 :
    hcunnScan n2_3_97 = some { base1 := 3, base2 := 2, exp1 := 97, coeff1 := 1 } := by
  decide!

/-- The scan on `17^25 + 2^25` finds nothing. -/
theorem hcunnScan_n17_2_25 : hcunnScan n17_2_25 = none := by
  decide!

/-- C4. Soundness of `find_hcunn_form`: when it sets `form_type = H_CUNNINGHAM`
(on a descriptor that did not carry that tag, with `N > 0`), then `coeff1` is `+1` or
`-1`, `2 ≤ base2 < base1`, `gcd(base1, base2) = 1`, `exp1 ≥ 20`, and `N` divides
`base1^exp1 + coeff1 * base2^exp1`. -/
theorem find_hcunn_form_sound (N : Int) (form : snfs_t) (_hN : 0 < N)
    (hform : form.form_type ≠ SNFS_H_CUNNINGHAM)
    (hset : (find_hcunn_form N form).form_type = SNFS_H_CUNNINGHAM) :
    ((find_hcunn_form N form).coeff1 = 1 ∨ (find_hcunn_form N form).coeff1 = -1) ∧
    2 ≤ (find_hcunn_form N form).base2 ∧
    (find_hcunn_form N form).base2 < (find_hcunn_form N form).base1 ∧
    Int.gcd (find_hcunn_form N form).base1 (find_hcunn_form N form).base2 = 1 ∧
    20 ≤ (find_hcunn_form N form).exp1 ∧
    N ∣ (find_hcunn_form N form).base1 ^ (find_hcunn_form N form).exp1.toNat +
        (find_hcunn_form N form).coeff1 *
          (find_hcunn_form N form).base2 ^ (find_hcunn_form N form).exp1.toNat := by
  have hsome := (find_hcunn_form_type N form hform).mp hset
  cases hs : hcunnScan N with
  | none => rw [hs] at hsome; simp at hsome
  | some h =>
    obtain ⟨i, j, k, hgrid, hb1, hb2, hex, htest, -⟩ := hcunnScan_some N h hs
    obtain ⟨g1, g2, g3, g4, g5, g6, g7⟩ := hgrid
    rw [find_hcunn_form_of_some N form h hs]
    simp only [hb1, hb2, hex, Int.toNat_ofNat]
    have hgcd : Int.gcd (i : Int) (j : Int) = 1 := by
      rw [Int.gcd_natCast_natCast]; exact g5
    rcases hcunnTest_some N _ _ _ htest with ⟨hc, hz⟩ | ⟨hc, -, hz⟩
    · refine ⟨Or.inl hc, by omega, by omega, hgcd, by omega, ?_⟩
      rw [hc, one_mul]
      exact Int.dvd_of_emod_eq_zero hz
    · refine ⟨Or.inr hc, by omega, by omega, hgcd, by omega, ?_⟩
      rw [hc]
      have : (i : Int) ^ k + -1 * (j : Int) ^ k = (i : Int) ^ k - (j : Int) ^ k := by ring
      rw [this]
      exact Int.dvd_of_emod_eq_zero hz

/-- Witness for C4: `N = 2^97 + 3^97` on a fresh descriptor. -/
theorem find_hcunn_form_sound_witness :
    (0 < n2_3_97 ∧ snfs_init.form_type ≠ SNFS_H_CUNNINGHAM ∧
      (find_hcunn_form n2_3_97 snfs_init).form_type = SNFS_H_CUNNINGHAM) ∧
    n2_3_97 ∣ (find_hcunn_form n2_3_97 snfs_init).base1 ^
          (find_hcunn_form n2_3_97 snfs_init).exp1.toNat +
        (find_hcunn_form n2_3_97 snfs_init).coeff1 *
          (find_hcunn_form n2_3_97 snfs_init).base2 ^
            (find_hcunn_form n2_3_97 snfs_init).exp1.toNat :=
  have h1 : (0 : Int) < n2_3_97 := by decide
  have h2 : snfs_init.form_type ≠ SNFS_H_CUNNINGHAM := by decide
  have h3 : (find_hcunn_form n2_3_97 snfs_init).form_type = SNFS_H_CUNNINGHAM := by
    rw [find_hcunn_form_of_some _ _ _ hcunnScan_n2_3_97]
  ⟨⟨h1, h2, h3⟩, (find_hcunn_form_sound n2_3_97 snfs_init h1 h2 h3).2.2.2.2.2⟩

/-- C5, as stated, fails: `(i, j, k) = (17, 2, 25)` satisfies `3 ≤ i < 100`,
`2 ≤ j < i`, `gcd(i, j) = 1`, `20 ≤ k`, and `N = 17^25 + 2^25 > 1` divides
`17^25 + 2^25`, yet `find_hcunn_form` leaves the fresh descriptor at `SNFS_NONE`. -/
theorem find_hcunn_form_misses_base17 :
    (3 ≤ 17 ∧ 17 < 100 ∧ 2 ≤ 2 ∧ 2 < 17 ∧ Nat.gcd 17 2 = 1 ∧ 20 ≤ 25 ∧
      (25 : Int) < expLimit 17 ∧ 1 < n17_2_25 ∧
      n17_2_25 ∣ (17 : Int) ^ 25 + (2 : Int) ^ 25) ∧
    (find_hcunn_form n17_2_25 snfs_init).form_type = SNFS_NONE := by
  refine ⟨⟨by norm_num, by norm_num, by norm_num, by norm_num, by decide, by norm_num,
    by decide, by decide, ?_⟩, ?_⟩
  · have : n17_2_25 = (17 : Int) ^ 25 + (2 : Int) ^ 25 := by norm_num [n17_2_25]
    rw [this]
  · rw [find_hcunn_form_of_none _ _ hcunnScan_n17_2_25]
    rfl

/-- C5, amended. Completeness of `find_hcunn_form` over the grid the code scans:
for `3 ≤ i < 13`, `2 ≤ j < i`, `gcd(i, j) = 1`, `20 ≤ k < kmax(i)` and every `N > 1`
dividing `i^k + j^k` or `i^k - j^k`, the result has `form_type = H_CUNNINGHAM`. -/
theorem find_hcunn_form_complete (N : Int) (form : snfs_t) (i j k : Nat) (_hN : 1 < N)
    (hgrid : hcunnGrid i j k)
    (hdvd : N ∣ (i : Int) ^ k + (j : Int) ^ k ∨ N ∣ (i : Int) ^ k - (j : Int) ^ k) :
    (find_hcunn_form N form).form_type = SNFS_H_CUNNINGHAM := by
  cases hs : hcunnScan N with
  | some h => rw [find_hcunn_form_of_some N form h hs]
  | none =>
    exfalso
    have hnone := hcunnTest_none N _ _ (hcunnScan_none N hs i j k hgrid)
    rcases hdvd with hd | hd
    · exact hnone.1 (Int.emod_eq_zero_of_dvd hd)
    · exact hnone.2 (Int.emod_eq_zero_of_dvd hd)

/-- Witness for C5 (amended): `N = 2^97 + 3^97` at `(i, j, k) = (3, 2, 97)`. -/
theorem find_hcunn_form_complete_witness :
    (1 < n2_3_97 ∧ hcunnGrid 3 2 97 ∧
      (n2_3_97 ∣ ((3 : Nat) : Int) ^ 97 + ((2 : Nat) : Int) ^ 97 ∨
        n2_3_97 ∣ ((3 : Nat) : Int) ^ 97 - ((2 : Nat) : Int) ^ 97)) ∧
    (find_hcunn_form n2_3_97 snfs_init).form_type = SNFS_H_CUNNINGHAM :=
  have h1 : (1 : Int) < n2_3_97 := by decide
  have h2 : hcunnGrid 3 2 97 := by
    refine ⟨by norm_num, by norm_num, by norm_num, by norm_num, by decide, by norm_num,
      by decide⟩
  have h3 : n2_3_97 ∣ ((3 : Nat) : Int) ^ 97 + ((2 : Nat) : Int) ^ 97 ∨
      n2_3_97 ∣ ((3 : Nat) : Int) ^ 97 - ((2 : Nat) : Int) ^ 97 := by
    left
    have : n2_3_97 = ((3 : Nat) : Int) ^ 97 + ((2 : Nat) : Int) ^ 97 := by
      norm_num [n2_3_97]
    rw [this]
  ⟨⟨h1, h2, h3⟩, find_hcunn_form_complete n2_3_97 snfs_init 3 2 97 h1 h2 h3⟩

/-- C10, as stated, fails: on the hit for `N = 2^97 + 3^97` the field `exp2` is not
set to the exponent `97`; it keeps the value `0` of the fresh descriptor. -/
theorem find_hcunn_form_exp2_unset :
    (find_hcunn_form n2_3_97 snfs_init).exp1 = 97 ∧
    (find_hcunn_form n2_3_97 snfs_init).exp2 = 0 ∧
    (find_hcunn_form n2_3_97 snfs_init).exp2 ≠ 97 := by
  rw [find_hcunn_form_of_some _ _ _ hcunnScan_n2_3_97]
  decide

/-- C10, amended. On a hit at `(i, j, k)` the descriptor is `H_CUNNINGHAM` with
`(coeff1, base1, exp1, base2) = (±1, i, k, j)`, while `exp2` and `coeff2` keep their
old values; the hit is the first in the order `i` ascending, `j` ascending, `k`
ascending, with the `+` test before the `-` test (`hcunnTest` yields `-1` only when
the `+` test fails).  For `N = 2^97 + 3^97` on a fresh descriptor the result is
`H_CUNNINGHAM` with `(coeff1, base1, exp1, base2) = (1, 3, 97, 2)` and `exp2 = 0`. -/
theorem find_hcunn_form_first_hit :
    (∀ (N : Int) (form : snfs_t), form.form_type ≠ SNFS_H_CUNNINGHAM →
      (find_hcunn_form N form).form_type = SNFS_H_CUNNINGHAM →
      ∃ i j k : Nat, hcunnGrid i j k ∧
        (find_hcunn_form N form).base1 = (i : Int) ∧
        (find_hcunn_form N form).base2 = (j : Int) ∧
        (find_hcunn_form N form).exp1 = (k : Int) ∧
        ((find_hcunn_form N form).coeff1 = 1 ∨ (find_hcunn_form N form).coeff1 = -1) ∧
        (find_hcunn_form N form).exp2 = form.exp2 ∧
        (find_hcunn_form N form).coeff2 = form.coeff2 ∧
        hcunnTest N ((i : Int) ^ k) ((j : Int) ^ k) = some (find_hcunn_form N form).coeff1 ∧
        ∀ i2 j2 k2 : Nat, hcunnGrid i2 j2 k2 → scanBefore i2 j2 k2 i j k →
          hcunnTest N ((i2 : Int) ^ k2) ((j2 : Int) ^ k2) = none) ∧
    find_hcunn_form n2_3_97 snfs_init =
      { snfs_init with form_type := SNFS_H_CUNNINGHAM, coeff1 := 1, base1 := 3, exp1 := 97,
                       base2 := 2, exp2 := 0, n := n2_3_97 } := by
  constructor
  · intro N form hform hset
    have hsome := (find_hcunn_form_type N form hform).mp hset
    cases hs : hcunnScan N with
    | none => rw [hs] at hsome; simp at hsome
    | some h =>
      obtain ⟨i, j, k, hgrid, hb1, hb2, hex, htest, hfirst⟩ := hcunnScan_some N h hs
      rw [find_hcunn_form_of_some N form h hs]
      refine ⟨i, j, k, hgrid, hb1, hb2, hex, ?_, rfl, rfl, htest, hfirst⟩
      rcases hcunnTest_some N _ _ _ htest with ⟨hc, -⟩ | ⟨hc, -, -⟩
      · exact Or.inl hc
      · exact Or.inr hc
  · rw [find_hcunn_form_of_some _ _ _ hcunnScan_n2_3_97]
    rfl

/-- Witness for C10 (amended): the hit for `N = 2^97 + 3^97` on a fresh descriptor. -/
theorem find_hcunn_form_first_hit_witness :
    (snfs_init.form_type ≠ SNFS_H_CUNNINGHAM ∧
      (find_hcunn_form n2_3_97 snfs_init).form_type = SNFS_H_CUNNINGHAM) ∧
    ∃ i j k : Nat, hcunnGrid i j k ∧
      (find_hcunn_form n2_3_97 snfs_init).base1 = (i : Int) ∧
      (find_hcunn_form n2_3_97 snfs_init).base2 = (j : Int) ∧
      (find_hcunn_form n2_3_97 snfs_init).exp1 = (k : Int) :=
  have h2 : snfs_init.form_type ≠ SNFS_H_CUNNINGHAM := by decide
  have h3 : (find_hcunn_form n2_3_97 snfs_init).form_type = SNFS_H_CUNNINGHAM := by
    rw [find_hcunn_form_of_some _ _ _ hcunnScan_n2_3_97]
  ⟨⟨h2, h3⟩,
    match find_hcunn_form_first_hit.1 n2_3_97 snfs_init h2 h3 with
    | ⟨i, j, k, hg, hb1, hb2, hex, _⟩ => ⟨i, j, k, hg, hb1, hb2, hex⟩⟩

/-! ## The Brent scans -/

/-- The descriptor written by `find_brent_form` on a hit of the grid scan. -/
theorem find_brent_form_of_grid (N : Int) (form : snfs_t) (h : brent_hit)
    (hs : brentGridScan N = some h) :
    find_brent_form N form =
      { form with form_type := SNFS_BRENT, coeff1 := h.coeff1, base1 := h.base1, base2 := 1,
                  exp1 := h.exp1, coeff2 := h.coeff2, n := N } := by
  unfold find_brent_form; rw [hs]

/-- The descriptor written by `find_brent_form` on a hit of the tail scan. -/
theorem find_brent_form_of_tail (N : Int) (form : snfs_t) (t : tail_hit)
    (hg : brentGridScan N = none) (ht : brentTailScan N = some t) :
    find_brent_form N form =
      { form with form_type := SNFS_BRENT, base1 := t.base1, exp1 := t.exp1,
                  coeff1 := t.coeff1, n := N } := by
  unfold find_brent_form; rw [hg, ht]

/-- For `0 ≤ n < 2^31` the shifted value is zero whenever the residue is `n + 2^30`. -/
theorem brentShifted_small (n : Int) (h0 : 0 ≤ n) (h1 : n < 2147483648) :
    brentShifted n (n + brentOffset) = 0 := by
  unfold brentShifted brentSign brentC2 mpz_get_ui toULong toUInt32 wrap32 brentOffset
    POSITIVE NEGATIVE
  have habs : ((n + 1073741824).natAbs : Int) = n + 1073741824 := by omega
  simp only [habs]
  split_ifs <;> omega

/-- For `0 ≤ n < 2^31` and `p ≥ 2^32` the loop body finds the leading coefficient `0`
and continues. -/
theorem brentTest_small (n i j p : Int) (h0 : 0 ≤ n) (h1 : n < 2147483648)
    (hp : 4294967296 ≤ p) : brentTest n i j p = none := by
  have hr : (n + brentOffset) % p = n + brentOffset :=
    Int.emod_eq_of_lt (by unfold brentOffset; omega) (by unfold brentOffset; omega)
  unfold brentTest
  simp only [hr, brentShifted_small n h0 h1, Int.zero_tdiv, Int.zero_tmod]
  have hz : wrap32 (mpz_get_ui 0) = 0 := by decide
  simp [hz]

theorem brentExpLoop_small (n i : Int) (h0 : 0 ≤ n) (h1 : n < 2147483648) (hi : 2 ≤ i)
    (cnt : Nat) :
    ∀ (j p : Int), 2147483648 ≤ p → brentExpLoop n i cnt j p = none := by
  induction cnt with
  | zero => intro j p _; rfl
  | succ cnt ih =>
    intro j p hp
    have hp1 : 4294967296 ≤ p * i := by nlinarith
    rw [brentExpLoop]
    simp only [brentTest_small n i j (p * i) h0 h1 hp1]
    exact ih (j + 1) (p * i) (by omega)

theorem brentBaseLoop_small (n : Int) (h0 : 0 ≤ n) (h1 : n < 2147483648) (cnt : Nat) :
    ∀ (i : Nat), 2 ≤ i → brentBaseLoop n cnt (i : Int) = none := by
  induction cnt with
  | zero => intro i _; rfl
  | succ cnt ih =>
    intro i hi
    have hcast : ((i : Int) + 1) = ((i + 1 : Nat) : Int) := by push_cast; ring
    rw [brentBaseLoop]
    have hpow : (2147483648 : Int) ≤ mpz_pow_ui (i : Int) 31 := by
      have h := mpz_pow_ui_nat (i : Int) 31 (by norm_num)
      have h31 : ((31 : Nat) : Int) = 31 := by norm_num
      rw [h31] at h
      rw [h]
      have : (2 : Int) ^ 31 ≤ (i : Int) ^ 31 :=
        pow_le_pow_left₀ (by norm_num) (by exact_mod_cast hi) 31
      calc (2147483648 : Int) = 2 ^ 31 := by norm_num
        _ ≤ (i : Int) ^ 31 := this
    rw [brentExpLoop_small n (i : Int) h0 h1 (by exact_mod_cast hi) _ 32 _ hpow, hcast]
    simp only [ih (i + 1) (by omega), ite_self]

/-- The grid scan finds nothing for `0 ≤ n < 2^31`: every residue decodes to the
leading coefficient `0`. -/
theorem brentGridScan_small (n : Int) (h0 : 0 ≤ n) (h1 : n < 2147483648) :
    brentGridScan n = none := by
  unfold brentGridScan
  have h2 : (2 : Int) = ((2 : Nat) : Int) := by norm_num
  rw [h2]
  exact brentBaseLoop_small n h0 h1 98 2 (le_refl 2)

/-- The grid scan on `2^256 - 1` stops at base 2, exponent 256. -/
theorem brentGridScan_mersenne256 :
    brentGridScan mersenne256 = some { coeff1 := 1, base1 := 2, exp1 := 256, coeff2 := -1 } := by
  decide!

/-- The tail scan on `999` stops at exponent 3 in the `-1` case. -/
theorem brentTailScan_999 :
    brentTailScan 999 = some { base1 := 10, exp1 := 3, coeff1 := -1 } := by
  decide!

/-- C3, failing input `N = 999 = 10^3 - 1` on a fresh descriptor: the grid scan finds
nothing, the tail scan hits at exponent 3 in its `-1` case and `find_brent_form`
stores `coeff1 = -1`, `base1 = 10`, `exp1 = 3`, leaving `coeff2 = 0` and `base2 = 0`;
so `N` does not divide `coeff1 * base1^exp1 + coeff2 = -1000`, and `base2 ≠ 1`. -/
theorem find_brent_form_tail_unsound :
    find_brent_form 999 snfs_init =
      { snfs_init with form_type := SNFS_BRENT, coeff1 := -1, base1 := 10, exp1 := 3,
                       coeff2 := 0, base2 := 0, n := 999 } ∧
    ¬ ((999 : Int) ∣
        (find_brent_form 999 snfs_init).coeff1 *
          (find_brent_form 999 snfs_init).base1 ^ (find_brent_form 999 snfs_init).exp1.toNat +
        (find_brent_form 999 snfs_init).coeff2) ∧
    (find_brent_form 999 snfs_init).base2 ≠ 1 := by
  have hg : brentGridScan 999 = none := brentGridScan_small 999 (by norm_num) (by norm_num)
  rw [find_brent_form_of_tail 999 snfs_init _ hg brentTailScan_999]
  refine ⟨rfl, ?_, by decide⟩
  decide

/-- C7, as stated, fails: for `N = 2^256 - 1` the grid scan itself hits (base 2 is
the first base it iterates), and the stored `coeff2` is `-1`, not `0`. -/
theorem find_brent_form_mersenne256_not_tail :
    mersenne256 = 2 ^ 256 - 1 ∧ skipBase 2 = false ∧
    (brentGridScan mersenne256).isSome = true ∧
    (find_brent_form mersenne256 snfs_init).coeff2 ≠ 0 := by
  refine ⟨by norm_num [mersenne256], by decide, ?_, ?_⟩
  · rw [brentGridScan_mersenne256]; rfl
  · rw [find_brent_form_of_grid _ _ _ brentGridScan_mersenne256]
    decide

/-- C7, amended. For `N = 2^256 - 1` on a fresh descriptor `find_brent_form` returns
BRENT with `(coeff1, base1, exp1, coeff2) = (1, 2, 256, -1)` and `base2 = 1`; the hit
comes from the grid scan, in the exponent loop of base 2. -/
theorem find_brent_form_mersenne256 :
    mersenne256 = 2 ^ 256 - 1 ∧
    find_brent_form mersenne256 snfs_init = brentForm 1 2 256 (-1) mersenne256 ∧
    brentGridScan mersenne256 =
      some { coeff1 := 1, base1 := 2, exp1 := 256, coeff2 := -1 } := by
  refine ⟨by norm_num [mersenne256], ?_, brentGridScan_mersenne256⟩
  rw [find_brent_form_of_grid _ _ _ brentGridScan_mersenne256]
  rfl

/-! ## The synthesizer -/

theorem check_poly_c (p : snfs_t) : (check_poly p).c = p.c := by
  unfold check_poly
  split_ifs <;> rfl

theorem check_poly_degree (p : snfs_t) :
    (check_poly p).poly.alg.degree = p.poly.alg.degree := by
  unfold check_poly
  split_ifs <;> rfl

theorem halvedRat_c (poly cand : snfs_t) (k m : Int) :
    (halvedRat poly cand k m).c = cand.c ∧
    (halvedRat poly cand k m).poly.alg.degree = cand.poly.alg.degree := by
  unfold halvedRat
  split_ifs <;> exact ⟨rfl, rfl⟩

theorem straightRat_c (poly cand : snfs_t) (k n : Int) :
    (straightRat poly cand k n).c = cand.c ∧
    (straightRat poly cand k n).poly.alg.degree = cand.poly.alg.degree := by
  unfold straightRat
  split_ifs <;> exact ⟨rfl, rfl⟩

/-- The candidate of a reduction branch has the degree of the branch and the small
coefficients written in program order over a zeroed array. -/
theorem reductionCandidate_c (poly : snfs_t) (deg k : Int) (coeffs : List (Nat × Int))
    (halved : Bool) :
    (reductionCandidate poly deg k coeffs halved).poly.alg.degree = deg ∧
    (reductionCandidate poly deg k coeffs halved).c =
      coeffs.foldl (fun c iv => setC c iv.1 iv.2) zeroCoeffs := by
  unfold reductionCandidate
  simp only [check_poly_c, check_poly_degree]
  cases halved
  · simp only [Bool.false_eq_true, if_false]
    rw [(straightRat_c _ _ _ _).1, (straightRat_c _ _ _ _).2]
    exact ⟨rfl, rfl⟩
  · simp only [if_true]
    rw [(halvedRat_c _ _ _ _).1, (halvedRat_c _ _ _ _).2]
    exact ⟨rfl, rfl⟩

/-- The grid scan on `2^36 - 1` stops at base 2, exponent 36. -/
theorem brentGridScan_mersenne36 :
    brentGridScan mersenne36 = some { coeff1 := 1, base1 := 2, exp1 := 36, coeff2 := -1 } := by
  decide!

/-- C2, failing input `N = 2^36 - 1`: `find_brent_form` yields the descriptor
`2^36 - 1` (`coeff1 = 1`, `exp1 = 36`), `gen_brent_poly` takes the `exp1 % 6 == 0`
branch and returns `*npolys = 1` with the single candidate `x^4 - x^2 + 1`, `m = 2^6`,
whose `valid` flag is 0.  The same happens for the descriptor `3^165 - 1` with
`N = 3^165 - 1` in the `exp1 % 15 == 0` branch. -/
theorem gen_brent_poly_returns_invalid :
    find_brent_form mersenne36 snfs_init = brent36 ∧
    (gen_brent_poly brent36).2 = 1 ∧
    (gen_brent_poly brent36).1.map candidateSummary = [(0, 4, 64, 1, 1)] ∧
    (gen_brent_poly brent165).2 = 1 ∧
    (gen_brent_poly brent165).1.map (fun p => p.valid) = [0] := by
  refine ⟨?_, by decide!, by decide!, by decide!, by decide!⟩
  rw [find_brent_form_of_grid _ _ _ brentGridScan_mersenne36]
  rfl

/-- C6, as stated, fails: for the descriptor `2^105 + 1` (`coeff1 = 1`, exponent 105
divisible by both 21 and 15) the single candidate returned has degree 4 and rational
coefficient `-(2^7)` with `7 = 105 / 15`: the `r = 15` branch fired, not the degree-6
`r = 21` branch with `k = 105 / 21 = 5`. -/
theorem gen_brent_poly_105_not_r21 :
    brent105.coeff1 = 1 ∧ brent105.exp1.tmod 21 = 0 ∧ brent105.exp1.tmod 15 = 0 ∧
    (gen_brent_poly brent105).1.map
        (fun p => (p.poly.alg.degree, getC p.poly.rat.coeff 1)) = [(4, -(2 ^ 7))] ∧
    (gen_brent_poly brent105).1.map (fun p => p.poly.alg.degree) ≠ [6] := by
  refine ⟨by decide, by decide, by decide, by decide!, by decide!⟩

/-- C6, amended. With `coeff1 = 1` the branch taken by `gen_brent_poly` is the first
match in the order `15, 21, 6, 6/3, 5, 7, 11, 13` (the `%` of the code, truncated
remainder); an exponent divisible by both 21 and 15 takes the `r = 15` branch, a
degree-4 candidate with `k = e / 15`; the `r = 21` branch gives degree 6. -/
theorem gen_brent_poly_priority (poly : snfs_t) (h1 : poly.coeff1 = 1) :
    (poly.exp1.tmod 15 = 0 → gen_brent_poly poly = ([reduction15 poly], 1)) ∧
    (poly.exp1.tmod 15 ≠ 0 → poly.exp1.tmod 21 = 0 →
      gen_brent_poly poly = ([reduction21 poly], 1)) ∧
    (poly.exp1.tmod 15 ≠ 0 → poly.exp1.tmod 21 ≠ 0 → poly.exp1.tmod 6 = 0 →
      gen_brent_poly poly = ([reduction6 poly], 1)) ∧
    (poly.exp1.tmod 15 ≠ 0 → poly.exp1.tmod 21 ≠ 0 → poly.exp1.tmod 6 = 3 →
      gen_brent_poly poly = ([reduction3 poly], 1)) ∧
    (poly.exp1.tmod 15 ≠ 0 → poly.exp1.tmod 21 ≠ 0 → poly.exp1.tmod 6 ≠ 0 →
      poly.exp1.tmod 6 ≠ 3 → poly.exp1.tmod 5 = 0 →
      gen_brent_poly poly = ([reduction5 poly], 1)) ∧
    (poly.exp1.tmod 15 ≠ 0 → poly.exp1.tmod 21 ≠ 0 → poly.exp1.tmod 6 ≠ 0 →
      poly.exp1.tmod 6 ≠ 3 → poly.exp1.tmod 5 ≠ 0 → poly.exp1.tmod 7 = 0 →
      gen_brent_poly poly = ([reduction7 poly], 1)) ∧
    (poly.exp1.tmod 15 ≠ 0 → poly.exp1.tmod 21 ≠ 0 → poly.exp1.tmod 6 ≠ 0 →
      poly.exp1.tmod 6 ≠ 3 → poly.exp1.tmod 5 ≠ 0 → poly.exp1.tmod 7 ≠ 0 →
      poly.exp1.tmod 11 = 0 → gen_brent_poly poly = ([reduction11 poly], 1)) ∧
    (poly.exp1.tmod 15 ≠ 0 → poly.exp1.tmod 21 ≠ 0 → poly.exp1.tmod 6 ≠ 0 →
      poly.exp1.tmod 6 ≠ 3 → poly.exp1.tmod 5 ≠ 0 → poly.exp1.tmod 7 ≠ 0 →
      poly.exp1.tmod 11 ≠ 0 → poly.exp1.tmod 13 = 0 →
      gen_brent_poly poly = ([reduction13 poly], 1)) ∧
    (reduction15 poly).poly.alg.degree = 4 ∧ (reduction21 poly).poly.alg.degree = 6 := by
  refine ⟨?_, ?_, ?_, ?_, ?_, ?_, ?_, ?_, ?_, ?_⟩
  · intro h15; unfold gen_brent_poly; simp [h1, h15]
  · intro h15 h21; unfold gen_brent_poly; simp [h1, h15, h21]
  · intro h15 h21 h6; unfold gen_brent_poly; simp [h1, h15, h21, h6]
  · intro h15 h21 h3
    have h6 : poly.exp1.tmod 6 ≠ 0 := by omega
    unfold gen_brent_poly; simp [h1, h15, h21, h6, h3]
  · intro h15 h21 h6 h3 h5; unfold gen_brent_poly; simp [h1, h15, h21, h6, h3, h5]
  · intro h15 h21 h6 h3 h5 h7; unfold gen_brent_poly; simp [h1, h15, h21, h6, h3, h5, h7]
  · intro h15 h21 h6 h3 h5 h7 h11
    unfold gen_brent_poly; simp [h1, h15, h21, h6, h3, h5, h7, h11]
  · intro h15 h21 h6 h3 h5 h7 h11 h13
    unfold gen_brent_poly; simp [h1, h15, h21, h6, h3, h5, h7, h11, h13]
  · exact (reductionCandidate_c _ _ _ _ _).1
  · exact (reductionCandidate_c _ _ _ _ _).1

/-- Witness for C6 (amended): the descriptor `2^105 + 1`. -/
theorem gen_brent_poly_priority_witness :
    (brent105.coeff1 = 1 ∧ brent105.exp1.tmod 15 = 0) ∧
    gen_brent_poly brent105 = ([reduction15 brent105], 1) :=
  have h1 : brent105.coeff1 = 1 := by decide
  have h15 : brent105.exp1.tmod 15 = 0 := by decide
  ⟨⟨h1, h15⟩, (gen_brent_poly_priority brent105 h1).1 h15⟩

/-- C8, as stated, fails: among the candidates returned for the descriptor
`2^256 - 1` the one of degree 6 with `m = 2^43` (round-up, `me = 43`) has
leading coefficient `c[6] = 1`, and no degree-6 candidate has `c[6] = 4`. -/
theorem gen_brent_poly_256_cd_not_4 :
    (∃ p ∈ (gen_brent_poly brent256).1,
      p.poly.alg.degree = 6 ∧ p.poly.m = 2 ^ 43 ∧ getC p.c 6 = 1) ∧
    (∀ p ∈ (gen_brent_poly brent256).1, p.poly.alg.degree = 6 → getC p.c 6 ≠ 4) := by
  refine ⟨by decide!, by decide!⟩

/-- C8, amended. For the descriptor `2^256 - 1` (`base1 = 2`, `exp1 = 256`,
`coeff1 = 1`, `coeff2 = -1`, `base2 = 1`) `gen_brent_poly` returns five valid
candidates; the degree-6 round-up candidate (slot 3) has `inc = 6 - 256 % 6 = 2`,
`me = (256 + 2) / 6 = 43`, `m = 2^43`, `c[6] = cd = base2^2 * coeff1 = 1` and
`c[0] = c0 = 2^2 * coeff2 = -4`. -/
theorem gen_brent_poly_256 :
    wrap32 (6 - brent256.exp1.tmod 6) = 2 ∧
    (wrap32 (brent256.exp1 + 2)).tdiv 6 = 43 ∧
    (gen_brent_poly brent256).2 = 5 ∧
    (gen_brent_poly brent256).1.map candidateSummary =
      [(1, 4, 2 ^ 64, 1, -1), (1, 5, 2 ^ 52, 1, -16), (1, 5, 2 ^ 51, 2, -1),
       (1, 6, 2 ^ 43, 1, -4), (1, 6, 2 ^ 42, 16, -1), (0, 0, 0, 0, 0)] := by
  refine ⟨by decide, by decide, by decide!, by decide!⟩

/-- C9. For the descriptor `3^165 - 1` with `N = 3^165 - 1`, `gen_brent_poly` takes
the `r = 15` branch and returns exactly one candidate (`*npolys = 1`), of degree 4,
with `(c[4], c[3], c[2], c[1], c[0]) = (1, -1, -4, 4, 1)` and rational polynomial
`-(3^11) x + (3^22 + 1)`, i.e. `k = 11` (listed as degree, `c[4..0]`, `rat[1]`,
`rat[0]`).  In general, when `exp1 % 15 == 0`,
`coeff1 = 1` and `-4 * coeff2` fits an `int`, the single candidate has degree 4 and
coefficients `(1, s, -4, -4s, 1)` with `s = coeff2`. -/
theorem gen_brent_poly_r15 :
    ((gen_brent_poly brent165).2 = 1 ∧
      (gen_brent_poly brent165).1.map
          (fun p => [p.poly.alg.degree,
            getC p.c 4, getC p.c 3, getC p.c 2, getC p.c 1, getC p.c 0,
            getC p.poly.rat.coeff 1, getC p.poly.rat.coeff 0]) =
        [[4, 1, -1, -4, 4, 1, -(3 ^ 11), 3 ^ 22 + 1]]) ∧
    (∀ poly : snfs_t, poly.exp1.tmod 15 = 0 → poly.coeff1 = 1 →
      (-2147483648 ≤ -4 * poly.coeff2 ∧ -4 * poly.coeff2 < 2147483648) →
      ∃ p : snfs_t, gen_brent_poly poly = ([p], 1) ∧ p.poly.alg.degree = 4 ∧
        getC p.c 4 = 1 ∧ getC p.c 3 = poly.coeff2 ∧ getC p.c 2 = -4 ∧
        getC p.c 1 = -4 * poly.coeff2 ∧ getC p.c 0 = 1) := by
  refine ⟨⟨by decide!, by decide!⟩, ?_⟩
  intro poly h15 h1 hs
  refine ⟨reduction15 poly, ?_, ?_, ?_⟩
  · unfold gen_brent_poly; simp [h1, h15]
  · exact (reductionCandidate_c _ _ _ _ _).1
  · have hc := (reductionCandidate_c poly 4 (poly.exp1.tdiv 15)
      [(4, 1), (3, poly.coeff2), (2, -4), (1, wrap32 (wrap32 (-poly.coeff2) * 4)), (0, 1)]
      true).2
    have hw : wrap32 (wrap32 (-poly.coeff2) * 4) = -4 * poly.coeff2 := by
      unfold wrap32; omega
    unfold reduction15
    rw [hc, hw]
    simp [getC, setC, zeroCoeffs, MAX_POLY_DEGREE]

/-- Witness for C9: the general statement applied to the descriptor `3^165 - 1`. -/
theorem gen_brent_poly_r15_witness :
    (brent165.exp1.tmod 15 = 0 ∧ brent165.coeff1 = 1 ∧
      (-2147483648 ≤ -4 * brent165.coeff2 ∧ -4 * brent165.coeff2 < 2147483648)) ∧
    ∃ p : snfs_t, gen_brent_poly brent165 = ([p], 1) ∧ p.poly.alg.degree = 4 ∧
      getC p.c 4 = 1 ∧ getC p.c 3 = brent165.coeff2 ∧ getC p.c 2 = -4 ∧
      getC p.c 1 = -4 * brent165.coeff2 ∧ getC p.c 0 = 1 :=
  have h15 : brent165.exp1.tmod 15 = 0 := by decide
  have h1 : brent165.coeff1 = 1 := by decide
  have hs : -2147483648 ≤ -4 * brent165.coeff2 ∧ -4 * brent165.coeff2 < 2147483648 := by
    decide
  ⟨⟨h15, h1, hs⟩, gen_brent_poly_r15.2 brent165 h15 h1 hs⟩

/-- The reference numbers of the later scenarios. -/
theorem reference_numbers_more :
    n6_100 = 6 ^ 100 - 1 ∧ n10_120 = 10 ^ 120 + 1 := by
  refine ⟨?_, ?_⟩ <;> norm_num [n6_100, n10_120]

/-- C11, as stated, fails: for the descriptor `6^100 - 1` the returned list has no
candidate with `m = 6^25` (the degree-4 exact fit) and no candidate of degree 5 or 6
(no composite-base candidates). -/
theorem gen_brent_poly_6_100_no_exact_fit :
    (∀ p ∈ (gen_brent_poly brent6_100).1, p.poly.m ≠ 6 ^ 25) ∧
    (∀ p ∈ (gen_brent_poly brent6_100).1, p.poly.alg.degree ≠ 5 ∧ p.poly.alg.degree ≠ 6) := by
  refine ⟨by decide!, by decide!⟩

/-- C11, amended. For the descriptor `6^100 - 1` (`coeff1 = 1`, `100 % 5 == 0`, and
100 matches none of the residues 15, 21, 6, 6/3) `gen_brent_poly` takes the `r = 5`
reduction and returns exactly one candidate: degree 4, `c[4..0] = (1, 1, 1, 1, 1)`,
`m = 6^20`, rational `-x + 6^20` (listed as degree, `c[4..0]`, `m`, `rat[1]`,
`rat[0]`). -/
theorem gen_brent_poly_6_100 :
    gen_brent_poly brent6_100 = ([reduction5 brent6_100], 1) ∧
    (gen_brent_poly brent6_100).1.map
        (fun p => [p.poly.alg.degree,
          getC p.c 4, getC p.c 3, getC p.c 2, getC p.c 1, getC p.c 0,
          p.poly.m, getC p.poly.rat.coeff 1, getC p.poly.rat.coeff 0]) =
      [[4, 1, 1, 1, 1, 1, 6 ^ 20, -1, 6 ^ 20]] := by
  refine ⟨?_, by decide!⟩
  unfold gen_brent_poly
  have h15 : ¬ (brent6_100.exp1.tmod 15 = 0) := by decide
  have h21 : ¬ (brent6_100.exp1.tmod 21 = 0) := by decide
  have h6 : ¬ (brent6_100.exp1.tmod 6 = 0) := by decide
  have h3 : ¬ (brent6_100.exp1.tmod 6 = 3) := by decide
  have h5 : brent6_100.exp1.tmod 5 = 0 := by decide
  have h1 : brent6_100.coeff1 = 1 := by decide
  simp [h15, h21, h6, h3, h5, h1]

/-- C12, as stated, fails: for the descriptor `10^120 + 1` the single candidate has
`c[4..0] = (1, 1, -4, -4, 1)`, not `(1, 0, -1, 0, 1)`, and its rational polynomial is
`-(10^8) x + (10^16 + 1)`, so `m` was not built from `10^20`. -/
theorem gen_brent_poly_10_120_not_r6 :
    (gen_brent_poly brent10_120).1.map
        (fun p => [getC p.c 4, getC p.c 3, getC p.c 2, getC p.c 1, getC p.c 0]) ≠
      [[1, 0, -1, 0, 1]] ∧
    (∀ p ∈ (gen_brent_poly brent10_120).1, p.poly.m ≠ 10 ^ 20) := by
  refine ⟨by decide!, by decide!⟩

/-- C12, amended. For the descriptor `10^120 + 1` (`coeff1 = 1`, `120 % 15 == 0`)
`gen_brent_poly` takes the `r = 15` reduction, which is tested before `r = 6`, and
returns exactly one candidate: degree 4, `c[4..0] = (1, 1, -4, -4, 1)`, rational
polynomial `-(10^8) x + (10^16 + 1)`, i.e. `k = 8` (listed as degree, `c[4..0]`,
`rat[1]`, `rat[0]`); the composite-base family is not produced. -/
theorem gen_brent_poly_10_120 :
    gen_brent_poly brent10_120 = ([reduction15 brent10_120], 1) ∧
    (gen_brent_poly brent10_120).1.map
        (fun p => [p.poly.alg.degree,
          getC p.c 4, getC p.c 3, getC p.c 2, getC p.c 1, getC p.c 0,
          getC p.poly.rat.coeff 1, getC p.poly.rat.coeff 0]) =
      [[4, 1, 1, -4, -4, 1, -(10 ^ 8), 10 ^ 16 + 1]] := by
  refine ⟨?_, by decide!⟩
  unfold gen_brent_poly
  have h15 : brent10_120.exp1.tmod 15 = 0 := by decide
  have h1 : brent10_120.coeff1 = 1 := by decide
  simp [h15, h1]

/-- Without a hit in either scan `find_brent_form` returns the descriptor as it was. -/
theorem find_brent_form_of_none (N : Int) (form : snfs_t)
    (hg : brentGridScan N = none) (ht : brentTailScan N = none) :
    find_brent_form N form = form := by
  unfold find_brent_form; rw [hg, ht]

/-- The tail scan on `11` finds nothing: neither `12` nor `10` is a perfect power. -/
theorem brentTailScan_11 : brentTailScan 11 = none := by
  decide!

/-- The descriptor left by the tail scan for `N = 999`. -/
theorem find_brent_form_999 : find_brent_form 999 snfs_init = tail999 := by
  have hg : brentGridScan 999 = none := brentGridScan_small 999 (by norm_num) (by norm_num)
  rw [find_brent_form_of_tail 999 snfs_init _ hg brentTailScan_999]
  rfl

/-- C17. When neither the grid scan nor the tail scan hits, `find_brent_form` leaves
every field of the descriptor unchanged, so a descriptor fresh from `snfs_init` still
has `form_type = SNFS_NONE`; likewise `find_hcunn_form` leaves the descriptor unchanged
when its scan finds no `(i, j, k)`. -/
theorem find_form_no_hit (N : Int) (form : snfs_t) :
    (brentGridScan N = none → brentTailScan N = none →
      find_brent_form N form = form ∧
      (find_brent_form N snfs_init).form_type = SNFS_NONE) ∧
    (hcunnScan N = none →
      find_hcunn_form N form = form ∧
      (find_hcunn_form N snfs_init).form_type = SNFS_NONE) := by
  constructor
  · intro hg ht
    rw [find_brent_form_of_none N form hg ht, find_brent_form_of_none N snfs_init hg ht]
    exact ⟨rfl, rfl⟩
  · intro hs
    rw [find_hcunn_form_of_none N form hs, find_hcunn_form_of_none N snfs_init hs]
    exact ⟨rfl, rfl⟩

/-- Witness for C17: `N = 11` for the Brent scans and `N = 17^25 + 2^25` for the
homogeneous scan, on the descriptor `2^36 - 1`. -/
theorem find_form_no_hit_witness :
    (brentGridScan 11 = none ∧ brentTailScan 11 = none ∧ hcunnScan n17_2_25 = none) ∧
    find_brent_form 11 brent36 = brent36 ∧
    find_hcunn_form n17_2_25 brent36 = brent36 :=
  have hg : brentGridScan 11 = none := brentGridScan_small 11 (by norm_num) (by norm_num)
  ⟨⟨hg, brentTailScan_11, hcunnScan_n17_2_25⟩,
    ((find_form_no_hit 11 brent36).1 hg brentTailScan_11).1,
    ((find_form_no_hit n17_2_25 brent36).2 hcunnScan_n17_2_25).1⟩

/-- C16, failing input `N = 999`: the descriptor left by the tail scan has
`coeff1 = -1`, `coeff2 = 0`, `base2 = 0`; `gen_brent_poly` returns nine candidates,
every one with `valid = 1`, algebraic degree 4, 5 or 6 and all of `c[0..6]` zero, so
the leading coefficient `c[alg.degree]` is zero (listed as `valid`, degree, `m`,
`c[degree]`, `c[0]`). -/
theorem gen_brent_poly_accepts_zero_poly :
    (gen_brent_poly (find_brent_form 999 snfs_init)).2 = 9 ∧
    ((gen_brent_poly (find_brent_form 999 snfs_init)).1.take 9).map candidateSummary =
      [(1, 4, 10, 0, 0), (1, 4, 2, 0, 0), (1, 4, 5, 0, 0),
       (1, 5, 10, 0, 0), (1, 5, 2, 0, 0), (1, 5, 5, 0, 0),
       (1, 6, 10, 0, 0), (1, 6, 2, 0, 0), (1, 6, 5, 0, 0)] ∧
    (∀ p ∈ (gen_brent_poly (find_brent_form 999 snfs_init)).1.take 9,
      ∀ i ∈ List.range 7, getC p.c i = 0) := by
  rw [find_brent_form_999]
  refine ⟨by decide!, by decide!, by decide!⟩

/-! ## Ranking and test sieving -/

/-- What `scaleOne` computes, in the words of the spec. -/
theorem scaleOne_spec {α : Type} [LinearOrderedField α] (log10 : α → α) (p : snfs_cand α) :
    (scaleOne log10 p).sdifficulty =
      p.difficulty + max 0 (log10 (max p.anorm p.rnorm / min p.anorm p.rnorm) - 6) ∧
    ((scaleOne log10 p).core.poly.side = ALGEBRAIC_SPQ ↔ p.anorm > p.rnorm) ∧
    ((scaleOne log10 p).core.poly.side = RATIONAL_SPQ ↔ ¬ p.anorm > p.rnorm) ∧
    (scaleOne log10 p).difficulty = p.difficulty ∧
    (scaleOne log10 p).anorm = p.anorm ∧ (scaleOne log10 p).rnorm = p.rnorm := by
  unfold scaleOne setSide
  by_cases h : p.anorm > p.rnorm
  · have hmax : max p.anorm p.rnorm = p.anorm := max_eq_left (le_of_lt h)
    have hmin : min p.anorm p.rnorm = p.rnorm := min_eq_right (le_of_lt h)
    simp only [h, if_true, hmax, hmin]
    constructor
    · by_cases hneg : log10 (p.anorm / p.rnorm) - 6 < 0
      · simp only [hneg, if_true, max_eq_left (le_of_lt hneg)]
      · simp only [hneg, if_false, max_eq_right (not_lt.mp hneg)]
    · simp
  · have hle : p.anorm ≤ p.rnorm := not_lt.mp h
    have hmax : max p.anorm p.rnorm = p.rnorm := max_eq_right hle
    have hmin : min p.anorm p.rnorm = p.anorm := min_eq_left hle
    simp only [h, if_false, hmax, hmin]
    constructor
    · by_cases hneg : log10 (p.rnorm / p.anorm) - 6 < 0
      · simp only [hneg, if_true, max_eq_left (le_of_lt hneg)]
      · simp only [hneg, if_false, max_eq_right (not_lt.mp hneg)]
    · simp

/-- Entry `i < npoly` of the array after `snfs_scale_difficulty`. -/
theorem snfs_scale_difficulty_get {α : Type} [LinearOrderedField α] (log10 : α → α)
    (polys : List (snfs_cand α)) (npoly : Int) (i : Nat) (p : snfs_cand α)
    (hp : polys.get? i = some p) (hi : (i : Int) < npoly) :
    (snfs_scale_difficulty log10 polys npoly).get? i = some (scaleOne log10 p) := by
  unfold snfs_scale_difficulty
  have hlen : i < polys.length := by
    rcases List.get?_eq_some.mp hp with ⟨h, -⟩
    exact h
  have hin : i < npoly.toNat := by omega
  have hlt : i < ((polys.take npoly.toNat).map (scaleOne log10)).length := by
    simp only [List.length_map, List.length_take]
    omega
  rw [List.get?_eq_getElem?, List.getElem?_append_left hlt, List.getElem?_map,
    List.getElem?_take_of_lt hin, ← List.get?_eq_getElem?, hp]
  rfl

/-- C13. Over an ordered field standing for the reals and for any `log10`, with
`anorm > 0` and `rnorm > 0`: after `snfs_scale_difficulty` every candidate `i < npoly`
has `sdifficulty = difficulty + max(0, log10(max(anorm, rnorm) / min(anorm, rnorm)) - 6)`,
hence `sdifficulty ≥ difficulty` with equality iff `log10` of the norm ratio is `≤ 6`;
`side` is ALGEBRAIC iff `anorm > rnorm` and RATIONAL otherwise; `difficulty`, `anorm`
and `rnorm` are unchanged. -/
theorem snfs_scale_difficulty_spec {α : Type} [LinearOrderedField α] (log10 : α → α)
    (polys : List (snfs_cand α)) (npoly : Int) (i : Nat) (p : snfs_cand α)
    (hp : polys.get? i = some p) (hi : (i : Int) < npoly)
    (_ha : 0 < p.anorm) (_hr : 0 < p.rnorm) :
    ∃ q : snfs_cand α, (snfs_scale_difficulty log10 polys npoly).get? i = some q ∧
      q.sdifficulty =
        p.difficulty + max 0 (log10 (max p.anorm p.rnorm / min p.anorm p.rnorm) - 6) ∧
      q.sdifficulty ≥ p.difficulty ∧
      (q.sdifficulty = p.difficulty ↔
        log10 (max p.anorm p.rnorm / min p.anorm p.rnorm) ≤ 6) ∧
      (q.core.poly.side = ALGEBRAIC_SPQ ↔ p.anorm > p.rnorm) ∧
      (q.core.poly.side = RATIONAL_SPQ ↔ ¬ p.anorm > p.rnorm) ∧
      q.difficulty = p.difficulty ∧ q.anorm = p.anorm ∧ q.rnorm = p.rnorm := by
  obtain ⟨h1, h2, h3, h4, h5, h6⟩ := scaleOne_spec log10 p
  refine ⟨scaleOne log10 p, snfs_scale_difficulty_get log10 polys npoly i p hp hi,
    h1, ?_, ?_, h2, h3, h4, h5, h6⟩
  · rw [h1]
    have := le_max_left (0 : α) (log10 (max p.anorm p.rnorm / min p.anorm p.rnorm) - 6)
    linarith
  · rw [h1]
    constructor
    · intro h
      have h0 : max 0 (log10 (max p.anorm p.rnorm / min p.anorm p.rnorm) - 6) = 0 := by
        linarith
      have := le_max_right (0 : α) (log10 (max p.anorm p.rnorm / min p.anorm p.rnorm) - 6)
      rw [h0] at this
      linarith
    · intro h
      have h0 : max 0 (log10 (max p.anorm p.rnorm / min p.anorm p.rnorm) - 6) = 0 :=
        max_eq_left (by linarith)
      rw [h0, add_zero]

/-- Witness for C13: difficulty 198 and norm ratio `10^8` give the scaled difficulty
`198 + (8 - 6)`. -/
theorem snfs_scale_difficulty_spec_witness :
    ([demoUnbalanced].get? 0 = some demoUnbalanced ∧ ((0 : Nat) : Int) < 1 ∧
      0 < demoUnbalanced.anorm ∧ 0 < demoUnbalanced.rnorm) ∧
    ∃ q : snfs_cand ℚ, (snfs_scale_difficulty demoLog10 [demoUnbalanced] 1).get? 0 = some q ∧
      q.sdifficulty = demoUnbalanced.difficulty +
        max 0 (demoLog10 (max demoUnbalanced.anorm demoUnbalanced.rnorm /
          min demoUnbalanced.anorm demoUnbalanced.rnorm) - 6) :=
  have h1 : [demoUnbalanced].get? 0 = some demoUnbalanced := rfl
  have h2 : ((0 : Nat) : Int) < 1 := by norm_num
  have h3 : 0 < demoUnbalanced.anorm := by decide!
  have h4 : 0 < demoUnbalanced.rnorm := by decide!
  ⟨⟨h1, h2, h3, h4⟩,
    match snfs_scale_difficulty_spec demoLog10 [demoUnbalanced] 1 0 demoUnbalanced h1 h2 h3 h4
      with
    | ⟨q, hq, hs, _⟩ => ⟨q, hq, hs⟩⟩

theorem assignRanks_sdifficulty {α : Type} (l : List (snfs_cand α)) :
    ∀ i : Nat, (assignRanks i l).map (fun p => p.sdifficulty) =
      l.map (fun p => p.sdifficulty) := by
  induction l with
  | nil => intro i; rfl
  | cons p ps ih =>
    intro i
    simp only [assignRanks, List.map_cons, ih (i + 1)]

/-- On the two inputs every comparison returns 0. -/
theorem qcomp_rankInputs_zero :
    (∀ x ∈ rankInputA, ∀ y ∈ rankInputA, qcomp_snfs_sdifficulty x y = 0) ∧
    (∀ x ∈ rankInputB, ∀ y ∈ rankInputB, qcomp_snfs_sdifficulty x y = 0) := by
  refine ⟨by decide!, by decide!⟩

theorem positionCompare_zero (arr : List (snfs_cand ℚ))
    (h : ∀ x ∈ arr, ∀ y ∈ arr, qcomp_snfs_sdifficulty x y = 0) :
    positionCompare arr = fun _ _ => 0 := by
  funext i j
  unfold positionCompare
  cases hi : arr.get? i with
  | none => rfl
  | some x =>
    cases hj : arr.get? j with
    | none => rfl
    | some y => exact h x (List.get?_mem hi) y (List.get?_mem hj)

/-- An order of positions that starts input A with 10.0 starts input B with 10.3. -/
theorem rankInputs_head (L : List Nat) :
    ((L.filterMap rankInputA.get?).map (fun p => p.sdifficulty)).head? = some 10 →
    ((L.filterMap rankInputB.get?).map (fun p => p.sdifficulty)).head? = some (103 / 10) := by
  induction L with
  | nil => intro h; simp at h
  | cons x t ih =>
    intro h
    rcases x with _ | _ | _ | x
    · exfalso
      simp [rankInputA, candOfSd] at h
      norm_num at h
    · simp [rankInputB, candOfSd]
    · exfalso
      simp [rankInputA, candOfSd] at h
      norm_num at h
    · have hA : rankInputA.get? (x + 3) = none := by simp [rankInputA]
      have hB : rankInputB.get? (x + 3) = none := by simp [rankInputB]
      rw [List.filterMap_cons, hA] at h
      rw [List.filterMap_cons, hB]
      exact ih h

/-- C14, failing input: the candidates with `sdifficulty` 10.6, 10.0, 10.3 (input A)
and the same three in the order 10.0, 10.3, 10.6 (input B).  The comparator returns 0
on every pair, so whatever sorting routine is passed for `qsort` orders the positions
of A and B alike, and the two results cannot both be ascending permutations; with a
stable sort A stays in the order 10.6, 10.0, 10.3 and gets the ranks 0, 1, 2. -/
theorem snfs_rank_polys_not_ascending :
    (∀ qsort : Nat → (Nat → Nat → Int) → List Nat,
      ¬ (rankedAscending (snfs_rank_polys qsort rankInputA 3) rankInputA ∧
         rankedAscending (snfs_rank_polys qsort rankInputB 3) rankInputB)) ∧
    (snfs_rank_polys insertionQsort rankInputA 3).map
        (fun p => (p.sdifficulty, p.core.rank)) = [(53 / 5, 0), (10, 1), (103 / 10, 2)] := by
  refine ⟨?_, by decide!⟩
  intro qsort hboth
  obtain ⟨⟨hpA, hsA, -⟩, ⟨hpB, hsB, -⟩⟩ := hboth
  have hS : ([10, 103 / 10, 53 / 5] : List ℚ).Sorted (fun a b => a ≤ b) := by
    simp [List.Sorted]; norm_num
  have hSA : (rankInputA.map (fun p => p.sdifficulty)).Perm [10, 103 / 10, 53 / 5] := by
    simp only [rankInputA, candOfSd, List.map_cons, List.map_nil]
    exact (List.Perm.swap _ _ _).trans (List.Perm.cons _ (List.Perm.swap _ _ _))
  have hSB : (rankInputB.map (fun p => p.sdifficulty)).Perm [10, 103 / 10, 53 / 5] := by
    simp only [rankInputB, candOfSd, List.map_cons, List.map_nil]
    exact List.Perm.refl _
  have eA := List.eq_of_perm_of_sorted (hpA.trans hSA) hsA hS
  have eB := List.eq_of_perm_of_sorted (hpB.trans hSB) hsB hS
  have tA : rankInputA.take (3 : Int).toNat = rankInputA := by decide!
  have tB : rankInputB.take (3 : Int).toNat = rankInputB := by decide!
  have dA : rankInputA.drop (3 : Int).toNat = [] := by decide!
  have dB : rankInputB.drop (3 : Int).toNat = [] := by decide!
  unfold snfs_rank_polys at eA eB
  simp only [tA, dA, tB, dB, List.append_nil, assignRanks_sdifficulty,
    positionCompare_zero _ qcomp_rankInputs_zero.1,
    positionCompare_zero _ qcomp_rankInputs_zero.2] at eA eB
  have lA : rankInputA.length = 3 := rfl
  have lB : rankInputB.length = 3 := rfl
  rw [lA] at eA
  rw [lB] at eB
  have h1 := rankInputs_head (qsort 3 fun _ _ => 0) (by rw [eA]; rfl)
  rw [eB] at h1
  simp at h1
  norm_num at h1

/-- C15. With the external `test_sieve` as a parameter: if `npoly < 2`, or every one of
the first `min(K, npoly)` candidates has `sdifficulty ≤ threshold`, `snfs_test_sieve`
returns candidate 0 without calling the oracle; otherwise it calls the oracle and
returns candidate `id`, the oracle's answer, or candidate 0 when the answer is
negative.  The candidate array is returned as it was. -/
theorem snfs_test_sieve_spec {α : Type} [LinearOrder α]
    (test_sieve : List (snfs_cand α) → Int → Int) (threshold : α)
    (polys : List (snfs_cand α)) (npoly : Int) :
    (npoly < 2 →
      (snfs_test_sieve test_sieve threshold polys npoly).best = 0 ∧
      (snfs_test_sieve test_sieve threshold polys npoly).consulted = false) ∧
    ((∀ p ∈ polys.take (min npoly NUM_SNFS_POLYS).toNat, p.sdifficulty ≤ threshold) →
      (snfs_test_sieve test_sieve threshold polys npoly).best = 0 ∧
      (snfs_test_sieve test_sieve threshold polys npoly).consulted = false) ∧
    (2 ≤ npoly →
      (∃ p ∈ polys.take (min npoly NUM_SNFS_POLYS).toNat, threshold < p.sdifficulty) →
      (snfs_test_sieve test_sieve threshold polys npoly).consulted = true ∧
      (snfs_test_sieve test_sieve threshold polys npoly).best =
        (if test_sieve (polys.take (min npoly NUM_SNFS_POLYS).toNat)
              (min NUM_SNFS_POLYS npoly) < 0 then 0
         else test_sieve (polys.take (min npoly NUM_SNFS_POLYS).toNat)
              (min NUM_SNFS_POLYS npoly))) ∧
    (snfs_test_sieve test_sieve threshold polys npoly).polys = polys := by
  refine ⟨?_, ?_, ?_, ?_⟩
  · intro h
    unfold snfs_test_sieve
    simp [h]
  · intro h
    unfold snfs_test_sieve
    by_cases h2 : npoly < 2
    · simp [h2]
    · have hany : (polys.take (min npoly NUM_SNFS_POLYS).toNat).any
          (fun p => decide (p.sdifficulty > threshold)) = false := by
        rw [List.any_eq_false]
        intro p hp
        have := h p hp
        simp only [gt_iff_lt, decide_eq_true_eq, not_lt]
        exact this
      simp [h2, hany]
  · intro h2 hex
    unfold snfs_test_sieve
    have hn : ¬ npoly < 2 := by omega
    have hany : (polys.take (min npoly NUM_SNFS_POLYS).toNat).any
        (fun p => decide (p.sdifficulty > threshold)) = true := by
      rw [List.any_eq_true]
      obtain ⟨p, hp, hlt⟩ := hex
      exact ⟨p, hp, by simpa using hlt⟩
    simp [hn, hany]
  · unfold snfs_test_sieve
    by_cases h2 : npoly < 2
    · simp [h2]
    · simp only [h2, if_false]
      split_ifs <;> rfl

/-- Witness for C15: inputs A (two candidates taken) with threshold 10.5 and an oracle
answering `-1`. -/
theorem snfs_test_sieve_spec_witness :
    ((2 : Int) ≤ 3 ∧
      ∃ p ∈ rankInputA.take (min (3 : Int) NUM_SNFS_POLYS).toNat, (21 / 2 : ℚ) < p.sdifficulty) ∧
    (snfs_test_sieve (fun _ _ => -1) (21 / 2 : ℚ) rankInputA 3).consulted = true ∧
    (snfs_test_sieve (fun _ _ => -1) (21 / 2 : ℚ) rankInputA 3).best = 0 :=
  have h2 : (2 : Int) ≤ 3 := by norm_num
  have hex : ∃ p ∈ rankInputA.take (min (3 : Int) NUM_SNFS_POLYS).toNat,
      (21 / 2 : ℚ) < p.sdifficulty := by decide!
  have h := (snfs_test_sieve_spec (fun _ _ => (-1 : Int)) (21 / 2 : ℚ) rankInputA 3).2.2.1 h2 hex
  ⟨⟨h2, hex⟩, h.1, h.2⟩

/-! ## Candidates of the straight branches -/

theorem check_poly_m (p : snfs_t) : (check_poly p).poly.m = p.poly.m := by
  unfold check_poly
  split_ifs <;> rfl

theorem check_poly_rat (p : snfs_t) : (check_poly p).poly.rat = p.poly.rat := by
  unfold check_poly
  split_ifs <;> rfl

theorem check_poly_n (p : snfs_t) : (check_poly p).n = p.n := by
  unfold check_poly
  split_ifs <;> rfl

theorem setC_length (l : List Int) (i : Nat) (v : Int) : (setC l i v).length = l.length := by
  unfold setC; simp

theorem copyCoeffs_length (degree : Int) (src dst : List Int) :
    (copyCoeffs degree src dst).length = dst.length := by
  unfold copyCoeffs
  generalize List.range (degree + 1).toNat = idx
  induction idx generalizing dst with
  | nil => rfl
  | cons a t ih => rw [List.foldl_cons, ih, setC_length]

theorem zeroCoeffs_length : zeroCoeffs.length = 8 := rfl

/-- Reading back the two coefficients written by `setRat`. -/
theorem getC_setRat (l : List Int) (a b : Int) (hl : 2 ≤ l.length) :
    getC (setC (setC l 1 a) 0 b) 1 = a ∧ getC (setC (setC l 1 a) 0 b) 0 = b := by
  match l, hl with
  | x :: y :: t, _ => exact ⟨rfl, rfl⟩

/-- The candidate of a straight reduction branch for a non-homogeneous descriptor:
`m = base1^k`, rational polynomial `-x + m`, and `valid` decided by the algebraic
value alone. -/
theorem straight_reduction_spec (poly : snfs_t) (deg k : Int) (coeffs : List (Nat × Int))
    (hf : poly.form_type ≠ SNFS_H_CUNNINGHAM)
    (hc : ∀ x ∈ coeffs.foldl (fun c iv => setC c iv.1 iv.2) zeroCoeffs,
      -2147483648 < x ∧ x < 2147483648) :
    (reductionCandidate poly deg k coeffs false).poly.m =
      mpz_pow_ui (toULong poly.base1) k ∧
    getC (reductionCandidate poly deg k coeffs false).poly.rat.coeff 1 = -1 ∧
    getC (reductionCandidate poly deg k coeffs false).poly.rat.coeff 0 =
      mpz_pow_ui (toULong poly.base1) k ∧
    (reductionCandidate poly deg k coeffs false).valid =
      (if algValue (coeffs.foldl (fun c iv => setC c iv.1 iv.2) zeroCoeffs) deg
            (mpz_pow_ui (toULong poly.base1) k) % poly.n = 0 then 1 else 0) := by
  unfold reductionCandidate
  simp only [Bool.false_eq_true, if_false]
  unfold straightRat
  simp only [hf, if_false]
  rw [check_poly_m, check_poly_rat, check_poly_valid]
  have hlen : 2 ≤ (copyCoeffs poly.poly.rat.degree poly.poly.rat.coeff zeroCoeffs).length := by
    rw [copyCoeffs_length, zeroCoeffs_length]; norm_num
  obtain ⟨g1, g0⟩ := getC_setRat _ (-1) (mpz_pow_ui (toULong poly.base1) k) hlen
  refine ⟨rfl, g1, g0, ?_⟩
  rw [hornerResidue_eq _ hc]
  have hrat : ratResidue (setRat (setM { setAlgDegree (snfs_copy_poly poly snfs_init) deg with
      c := coeffs.foldl (fun c iv => setC c iv.1 iv.2)
        (setAlgDegree (snfs_copy_poly poly snfs_init) deg).c }
      (mpz_pow_ui (toULong poly.base1) k)) (-1)
      (setM { setAlgDegree (snfs_copy_poly poly snfs_init) deg with
      c := coeffs.foldl (fun c iv => setC c iv.1 iv.2)
        (setAlgDegree (snfs_copy_poly poly snfs_init) deg).c }
      (mpz_pow_ui (toULong poly.base1) k)).poly.m) = 0 := by
    unfold ratResidue
    have e1 := g1
    have e0 := g0
    simp only [setRat, setM, setAlgDegree, snfs_copy_poly] at e1 e0 ⊢
    simp only [snfs_init, mpz_polys_init] at e1 e0 ⊢
    rw [e1, e0]
    have : -1 * mpz_pow_ui (toULong poly.base1) k + mpz_pow_ui (toULong poly.base1) k = 0 := by
      ring
    rw [this]
    simp
  rw [hrat]
  simp only [and_true]
  rfl

theorem mpz_pow_ui_of_nonneg (b k : Int) (hb0 : 0 ≤ b) (hb1 : b < 18446744073709551616)
    (hk0 : 0 ≤ k) (hk1 : k < 18446744073709551616) :
    mpz_pow_ui (toULong b) k = b ^ k.toNat := by
  rw [toULong_of_range b hb0 hb1]
  have h := mpz_pow_ui_nat b k.toNat (by omega)
  rw [Int.toNat_of_nonneg hk0] at h
  exact h

/-- The `r = 5` candidate for a non-homogeneous descriptor with `coeff2 = s = ±1`. -/
theorem reduction5_spec (poly : snfs_t) (hf : poly.form_type ≠ SNFS_H_CUNNINGHAM)
    (hs : poly.coeff2 = 1 ∨ poly.coeff2 = -1)
    (hb : 0 ≤ poly.base1 ∧ poly.base1 < 2147483648)
    (he : 0 ≤ poly.exp1 ∧ poly.exp1 < 2147483648) (h5 : poly.exp1.tmod 5 = 0) :
    [getC (reduction5 poly).c 4, getC (reduction5 poly).c 3, getC (reduction5 poly).c 2,
      getC (reduction5 poly).c 1, getC (reduction5 poly).c 0] =
      [1, -poly.coeff2, 1, -poly.coeff2, 1] ∧
    (reduction5 poly).poly.m = poly.base1 ^ (poly.exp1 / 5).toNat ∧
    getC (reduction5 poly).poly.rat.coeff 1 = -1 ∧
    ratValue (reduction5 poly).poly.rat.coeff (reduction5 poly).poly.m = 0 ∧
    algValue (reduction5 poly).c 4 (reduction5 poly).poly.m *
        ((reduction5 poly).poly.m + poly.coeff2) =
      poly.base1 ^ poly.exp1.toNat + poly.coeff2 ∧
    ((reduction5 poly).valid = 1 ↔
      poly.n ∣ algValue (reduction5 poly).c 4 (poly.base1 ^ (poly.exp1 / 5).toNat)) := by
  obtain ⟨hb0, hb1⟩ := hb
  obtain ⟨he0, he1⟩ := he
  have htd : poly.exp1.tdiv 5 = poly.exp1 / 5 := Int.tdiv_eq_ediv he0 (by norm_num)
  have htm : poly.exp1 % 5 = 0 := by
    rw [← Int.tmod_eq_emod he0 (by norm_num)]; exact h5
  have hk0 : 0 ≤ poly.exp1 / 5 := by omega
  have hM : mpz_pow_ui (toULong poly.base1) (poly.exp1 / 5) =
      poly.base1 ^ (poly.exp1 / 5).toNat :=
    mpz_pow_ui_of_nonneg _ _ hb0 (by omega) hk0 (by omega)
  have hexp : poly.exp1.toNat = (poly.exp1 / 5).toNat * 5 := by omega
  have hcs : List.foldl (fun c (iv : Nat × Int) => setC c iv.1 iv.2) zeroCoeffs
      [(4, 1), (3, wrap32 (-poly.coeff2)), (2, 1), (1, wrap32 (-poly.coeff2)), (0, 1)] =
      [1, -poly.coeff2, 1, -poly.coeff2, 1, 0, 0, 0] := by
    rcases hs with h | h <;> rw [h] <;> rfl
  have hrange : ∀ x ∈ List.foldl (fun c (iv : Nat × Int) => setC c iv.1 iv.2) zeroCoeffs
      [(4, 1), (3, wrap32 (-poly.coeff2)), (2, 1), (1, wrap32 (-poly.coeff2)), (0, 1)],
      -2147483648 < x ∧ x < 2147483648 := by
    rw [hcs]
    rcases hs with h | h <;> rw [h] <;> decide
  obtain ⟨sm, sr1, sr0, sv⟩ := straight_reduction_spec poly 4 (poly.exp1.tdiv 5) _ hf hrange
  have hc := (reductionCandidate_c poly 4 (poly.exp1.tdiv 5)
    [(4, 1), (3, wrap32 (-poly.coeff2)), (2, 1), (1, wrap32 (-poly.coeff2)), (0, 1)] false).2
  rw [htd, hM] at sm sr0 sv
  rw [hcs] at sv hc
  rw [htd] at hc sr1
  have hval : ∀ m : Int, algValue [1, -poly.coeff2, 1, -poly.coeff2, 1, 0, 0, 0] 4 m =
      1 + -poly.coeff2 * m + m ^ 2 + -poly.coeff2 * m ^ 3 + m ^ 4 := by
    intro m
    simp [algValue, Finset.sum_range_succ, getC]
  unfold reduction5
  rw [htd, hc, sm, sr1]
  refine ⟨rfl, rfl, rfl, ?_, ?_, ?_⟩
  · unfold ratValue
    rw [sr0, sr1]; ring
  · rw [hval, hexp, pow_mul]
    rcases hs with h | h <;> rw [h] <;> ring
  · rw [sv]
    constructor
    · intro h
      by_cases hz : algValue [1, -poly.coeff2, 1, -poly.coeff2, 1, 0, 0, 0] 4
          (poly.base1 ^ (poly.exp1 / 5).toNat) % poly.n = 0
      · exact Int.dvd_of_emod_eq_zero hz
      · rw [if_neg hz] at h; omega
    · intro h
      rw [if_pos (Int.emod_eq_zero_of_dvd h)]

/-- The `r = 7` candidate for a non-homogeneous descriptor with `coeff2 = s = ±1`. -/
theorem reduction7_spec (poly : snfs_t) (hf : poly.form_type ≠ SNFS_H_CUNNINGHAM)
    (hs : poly.coeff2 = 1 ∨ poly.coeff2 = -1)
    (hb : 0 ≤ poly.base1 ∧ poly.base1 < 2147483648)
    (he : 0 ≤ poly.exp1 ∧ poly.exp1 < 2147483648) (h7 : poly.exp1.tmod 7 = 0) :
    [getC (reduction7 poly).c 6, getC (reduction7 poly).c 5, getC (reduction7 poly).c 4,
      getC (reduction7 poly).c 3, getC (reduction7 poly).c 2, getC (reduction7 poly).c 1,
      getC (reduction7 poly).c 0] =
      [1, -poly.coeff2, 1, -poly.coeff2, 1, -poly.coeff2, 1] ∧
    (reduction7 poly).poly.m = poly.base1 ^ (poly.exp1 / 7).toNat ∧
    getC (reduction7 poly).poly.rat.coeff 1 = -1 ∧
    ratValue (reduction7 poly).poly.rat.coeff (reduction7 poly).poly.m = 0 ∧
    algValue (reduction7 poly).c 6 (reduction7 poly).poly.m *
        ((reduction7 poly).poly.m + poly.coeff2) =
      poly.base1 ^ poly.exp1.toNat + poly.coeff2 ∧
    ((reduction7 poly).valid = 1 ↔
      poly.n ∣ algValue (reduction7 poly).c 6 (poly.base1 ^ (poly.exp1 / 7).toNat)) := by
  obtain ⟨hb0, hb1⟩ := hb
  obtain ⟨he0, he1⟩ := he
  have htd : poly.exp1.tdiv 7 = poly.exp1 / 7 := Int.tdiv_eq_ediv he0 (by norm_num)
  have htm : poly.exp1 % 7 = 0 := by
    rw [← Int.tmod_eq_emod he0 (by norm_num)]; exact h7
  have hk0 : 0 ≤ poly.exp1 / 7 := by omega
  have hM : mpz_pow_ui (toULong poly.base1) (poly.exp1 / 7) =
      poly.base1 ^ (poly.exp1 / 7).toNat :=
    mpz_pow_ui_of_nonneg _ _ hb0 (by omega) hk0 (by omega)
  have hexp : poly.exp1.toNat = (poly.exp1 / 7).toNat * 7 := by omega
  have hcs : List.foldl (fun c (iv : Nat × Int) => setC c iv.1 iv.2) zeroCoeffs
      [(6, 1), (5, wrap32 (-poly.coeff2)), (4, 1), (3, wrap32 (-poly.coeff2)), (2, 1),
       (1, wrap32 (-poly.coeff2)), (0, 1)] =
      [1, -poly.coeff2, 1, -poly.coeff2, 1, -poly.coeff2, 1, 0] := by
    rcases hs with h | h <;> rw [h] <;> rfl
  have hrange : ∀ x ∈ List.foldl (fun c (iv : Nat × Int) => setC c iv.1 iv.2) zeroCoeffs
      [(6, 1), (5, wrap32 (-poly.coeff2)), (4, 1), (3, wrap32 (-poly.coeff2)), (2, 1),
       (1, wrap32 (-poly.coeff2)), (0, 1)],
      -2147483648 < x ∧ x < 2147483648 := by
    rw [hcs]
    rcases hs with h | h <;> rw [h] <;> decide
  obtain ⟨sm, sr1, sr0, sv⟩ := straight_reduction_spec poly 6 (poly.exp1.tdiv 7) _ hf hrange
  have hc := (reductionCandidate_c poly 6 (poly.exp1.tdiv 7)
    [(6, 1), (5, wrap32 (-poly.coeff2)), (4, 1), (3, wrap32 (-poly.coeff2)), (2, 1),
     (1, wrap32 (-poly.coeff2)), (0, 1)] false).2
  rw [htd, hM] at sm sr0 sv
  rw [hcs] at sv hc
  rw [htd] at hc sr1
  have hval : ∀ m : Int,
      algValue [1, -poly.coeff2, 1, -poly.coeff2, 1, -poly.coeff2, 1, 0] 6 m =
      1 + -poly.coeff2 * m + m ^ 2 + -poly.coeff2 * m ^ 3 + m ^ 4 + -poly.coeff2 * m ^ 5
        + m ^ 6 := by
    intro m
    simp [algValue, Finset.sum_range_succ, getC]
  unfold reduction7
  rw [htd, hc, sm, sr1]
  refine ⟨rfl, rfl, rfl, ?_, ?_, ?_⟩
  · unfold ratValue
    rw [sr0, sr1]; ring
  · rw [hval, hexp, pow_mul]
    rcases hs with h | h <;> rw [h] <;> ring
  · rw [sv]
    constructor
    · intro h
      by_cases hz : algValue [1, -poly.coeff2, 1, -poly.coeff2, 1, -poly.coeff2, 1, 0] 6
          (poly.base1 ^ (poly.exp1 / 7).toNat) % poly.n = 0
      · exact Int.dvd_of_emod_eq_zero hz
      · rw [if_neg hz] at h; omega
    · intro h
      rw [if_pos (Int.emod_eq_zero_of_dvd h)]

/-- With `coeff1 = 1` and an exponent `e ≥ 0` prime to 3, the branch chain of
`gen_brent_poly` reaches `r = 5` when `5 ∣ e`, and `r = 7` when `7 ∣ e` and `5 ∤ e`. -/
theorem gen_brent_poly_branch_5_7 (poly : snfs_t) (h1 : poly.coeff1 = 1)
    (he : 0 ≤ poly.exp1) (h3 : poly.exp1.tmod 3 ≠ 0) :
    (poly.exp1.tmod 5 = 0 → gen_brent_poly poly = ([reduction5 poly], 1)) ∧
    (poly.exp1.tmod 5 ≠ 0 → poly.exp1.tmod 7 = 0 →
      gen_brent_poly poly = ([reduction7 poly], 1)) := by
  have e3 := Int.tmod_eq_emod he (show (0:Int) ≤ 3 by norm_num)
  have e5 := Int.tmod_eq_emod he (show (0:Int) ≤ 5 by norm_num)
  have e6 := Int.tmod_eq_emod he (show (0:Int) ≤ 6 by norm_num)
  have e7 := Int.tmod_eq_emod he (show (0:Int) ≤ 7 by norm_num)
  have e15 := Int.tmod_eq_emod he (show (0:Int) ≤ 15 by norm_num)
  have e21 := Int.tmod_eq_emod he (show (0:Int) ≤ 21 by norm_num)
  rw [e3] at h3
  have n15 : ¬ (poly.exp1.tmod 15 = 0 ∧ poly.coeff1 = 1) := by rw [e15]; omega
  have n21 : ¬ (poly.exp1.tmod 21 = 0 ∧ poly.coeff1 = 1) := by rw [e21]; omega
  have n6 : ¬ (poly.exp1.tmod 6 = 0 ∧ poly.coeff1 = 1) := by rw [e6]; omega
  have n63 : ¬ (poly.exp1.tmod 6 = 3 ∧ poly.coeff1 = 1) := by rw [e6]; omega
  constructor
  · intro h5
    unfold gen_brent_poly
    rw [if_neg n15, if_neg n21, if_neg n6, if_neg n63, if_pos ⟨h5, h1⟩]
  · intro h5 h7
    have n5 : ¬ (poly.exp1.tmod 5 = 0 ∧ poly.coeff1 = 1) := fun h => h5 h.1
    unfold gen_brent_poly
    rw [if_neg n15, if_neg n21, if_neg n6, if_neg n63, if_neg n5, if_pos ⟨h7, h1⟩]

/-- C20. Straight reductions `r = 5` and `r = 7` of `gen_brent_poly` for a
non-homogeneous descriptor `b^e + s` with `coeff1 = 1`, `s = coeff2 = ±1`, `0 ≤ b`,
`0 ≤ e` prime to 3 (so that no earlier branch fires) and `N > 0`: when `5 ∣ e`
(resp. `7 ∣ e`, `5 ∤ e`) the function returns the single candidate of that branch; its
coefficients, highest first, are `(1, -s, 1, -s, 1)` (resp. `(1, -s, 1, -s, 1, -s, 1)`),
`m = b^(e/r)`, the rational polynomial is `-x + m` and vanishes at `m`,
`f(m) * (m + s) = b^e + s`, and the candidate is valid exactly when `N` divides
`f(b^(e/r))`. -/
theorem straight_reductions_5_7 (poly : snfs_t) (_hN : 0 < poly.n)
    (hf : poly.form_type ≠ SNFS_H_CUNNINGHAM) (h1 : poly.coeff1 = 1)
    (hs : poly.coeff2 = 1 ∨ poly.coeff2 = -1)
    (hb : 0 ≤ poly.base1 ∧ poly.base1 < 2147483648)
    (he : 0 ≤ poly.exp1 ∧ poly.exp1 < 2147483648) (h3 : poly.exp1.tmod 3 ≠ 0) :
    (poly.exp1.tmod 5 = 0 →
      gen_brent_poly poly = ([reduction5 poly], 1) ∧
      [getC (reduction5 poly).c 4, getC (reduction5 poly).c 3, getC (reduction5 poly).c 2,
        getC (reduction5 poly).c 1, getC (reduction5 poly).c 0] =
        [1, -poly.coeff2, 1, -poly.coeff2, 1] ∧
      (reduction5 poly).poly.m = poly.base1 ^ (poly.exp1 / 5).toNat ∧
      getC (reduction5 poly).poly.rat.coeff 1 = -1 ∧
      ratValue (reduction5 poly).poly.rat.coeff (reduction5 poly).poly.m = 0 ∧
      algValue (reduction5 poly).c 4 (reduction5 poly).poly.m *
          ((reduction5 poly).poly.m + poly.coeff2) =
        poly.base1 ^ poly.exp1.toNat + poly.coeff2 ∧
      ((reduction5 poly).valid = 1 ↔
        poly.n ∣ algValue (reduction5 poly).c 4 (poly.base1 ^ (poly.exp1 / 5).toNat))) ∧
    (poly.exp1.tmod 5 ≠ 0 → poly.exp1.tmod 7 = 0 →
      gen_brent_poly poly = ([reduction7 poly], 1) ∧
      [getC (reduction7 poly).c 6, getC (reduction7 poly).c 5, getC (reduction7 poly).c 4,
        getC (reduction7 poly).c 3, getC (reduction7 poly).c 2, getC (reduction7 poly).c 1,
        getC (reduction7 poly).c 0] =
        [1, -poly.coeff2, 1, -poly.coeff2, 1, -poly.coeff2, 1] ∧
      (reduction7 poly).poly.m = poly.base1 ^ (poly.exp1 / 7).toNat ∧
      getC (reduction7 poly).poly.rat.coeff 1 = -1 ∧
      ratValue (reduction7 poly).poly.rat.coeff (reduction7 poly).poly.m = 0 ∧
      algValue (reduction7 poly).c 6 (reduction7 poly).poly.m *
          ((reduction7 poly).poly.m + poly.coeff2) =
        poly.base1 ^ poly.exp1.toNat + poly.coeff2 ∧
      ((reduction7 poly).valid = 1 ↔
        poly.n ∣ algValue (reduction7 poly).c 6 (poly.base1 ^ (poly.exp1 / 7).toNat))) :=
  ⟨fun h5 => ⟨(gen_brent_poly_branch_5_7 poly h1 he.1 h3).1 h5,
      reduction5_spec poly hf hs hb he h5⟩,
   fun h5 h7 => ⟨(gen_brent_poly_branch_5_7 poly h1 he.1 h3).2 h5 h7,
      reduction7_spec poly hf hs hb he h7⟩⟩

/-- Witness for C20: the descriptor `6^100 - 1` (`r = 5`, `k = 20`) with `N = 6^100 - 1`. -/
theorem straight_reductions_5_7_witness :
    (0 < brent6_100.n ∧ brent6_100.form_type ≠ SNFS_H_CUNNINGHAM ∧ brent6_100.coeff1 = 1 ∧
      (brent6_100.coeff2 = 1 ∨ brent6_100.coeff2 = -1) ∧
      (0 ≤ brent6_100.base1 ∧ brent6_100.base1 < 2147483648) ∧
      (0 ≤ brent6_100.exp1 ∧ brent6_100.exp1 < 2147483648) ∧
      brent6_100.exp1.tmod 3 ≠ 0 ∧ brent6_100.exp1.tmod 5 = 0) ∧
    (gen_brent_poly brent6_100 = ([reduction5 brent6_100], 1) ∧
      (reduction5 brent6_100).poly.m = brent6_100.base1 ^ (brent6_100.exp1 / 5).toNat ∧
      ((reduction5 brent6_100).valid = 1 ↔
        brent6_100.n ∣ algValue (reduction5 brent6_100).c 4
          (brent6_100.base1 ^ (brent6_100.exp1 / 5).toNat))) :=
  ⟨⟨by decide, by decide, by decide, by decide, by decide, by decide, by decide, by decide⟩,
   ((straight_reductions_5_7 brent6_100 (by decide) (by decide) (by decide) (by decide)
      (by decide) (by decide) (by decide)).1 (by decide)).1,
   ((straight_reductions_5_7 brent6_100 (by decide) (by decide) (by decide) (by decide)
      (by decide) (by decide) (by decide)).1 (by decide)).2.2.1,
   ((straight_reductions_5_7 brent6_100 (by decide) (by decide) (by decide) (by decide)
      (by decide) (by decide) (by decide)).1 (by decide)).2.2.2.2.2.2⟩

/-- The body of the degree loop is the exact-fit block, or the round-up block followed by
the round-down block and the loop over the factors of a composite base. -/
theorem degreeStep_eq (poly : snfs_t) (f : List Int) (st : gen_state) (i : Int) :
    degreeStep poly f st i =
      if poly.exp1.tmod i = 0 then exactFit poly st i
      else if f.length > 1 then
        (List.range f.length).foldl (compositeStep poly f i) (roundDown poly (roundUp poly st i) i)
      else roundDown poly (roundUp poly st i) i := rfl

theorem algValue_two_term (d : Int) (hd : d = 4 ∨ d = 5 ∨ d = 6) (cd c0 m : Int) :
    algValue (setC (setC zeroCoeffs d.toNat cd) 0 c0) d m = cd * m ^ d.toNat + c0 := by
  rcases hd with h | h | h <;> subst h <;>
    simp [algValue, Finset.sum_range_succ, getC, setC, zeroCoeffs, MAX_POLY_DEGREE] <;> ring

theorem two_term_range (d : Int) (hd : d = 4 ∨ d = 5 ∨ d = 6) (cd c0 : Int)
    (hcd : -2147483648 < cd ∧ cd < 2147483648) (hc0 : -2147483648 < c0 ∧ c0 < 2147483648) :
    ∀ x ∈ setC (setC zeroCoeffs d.toNat cd) 0 c0, -2147483648 < x ∧ x < 2147483648 := by
  rcases hd with h | h | h <;> subst h <;>
    simp [setC, zeroCoeffs, MAX_POLY_DEGREE] <;> omega

theorem two_term_get (d : Int) (hd : d = 4 ∨ d = 5 ∨ d = 6) (cd c0 : Int) :
    getC (setC (setC zeroCoeffs d.toNat cd) 0 c0) d.toNat = cd ∧
    getC (setC (setC zeroCoeffs d.toNat cd) 0 c0) 0 = c0 := by
  rcases hd with h | h | h <;> subst h <;> exact ⟨rfl, rfl⟩

/-- One emission into a fresh slot for a non-homogeneous descriptor: when `N` divides
`cd * m^d + c0` and both coefficients are in `int` range (not `INT_MIN`), the candidate is
stored in slot `npoly` and counted; it has the two coefficients, the root `m`, the
rational polynomial `-x + m`, and is valid. -/
theorem emitCandidate_fresh (poly : snfs_t) (st : gen_state) (d cd c0 m ratExp : Int)
    (hf : poly.form_type ≠ SNFS_H_CUNNINGHAM) (hd : d = 4 ∨ d = 5 ∨ d = 6)
    (hslot : slot st st.npoly = snfs_init) (hlen : st.npoly < st.polys.length)
    (hcd : -2147483648 < cd ∧ cd < 2147483648) (hc0 : -2147483648 < c0 ∧ c0 < 2147483648)
    (hdiv : poly.n ∣ cd * m ^ d.toNat + c0) :
    (emitCandidate poly st d cd c0 m ratExp).npoly = st.npoly + 1 ∧
    (emitCandidate poly st d cd c0 m ratExp).n = st.n ∧
    (emitCandidate poly st d cd c0 m ratExp).polys.length = st.polys.length ∧
    (∀ k, k ≠ st.npoly → slot (emitCandidate poly st d cd c0 m ratExp) k = slot st k) ∧
    (slot (emitCandidate poly st d cd c0 m ratExp) st.npoly).poly.alg.degree = d ∧
    getC (slot (emitCandidate poly st d cd c0 m ratExp) st.npoly).c d.toNat = cd ∧
    getC (slot (emitCandidate poly st d cd c0 m ratExp) st.npoly).c 0 = c0 ∧
    (slot (emitCandidate poly st d cd c0 m ratExp) st.npoly).poly.m = m ∧
    getC (slot (emitCandidate poly st d cd c0 m ratExp) st.npoly).poly.rat.coeff 1 = -1 ∧
    getC (slot (emitCandidate poly st d cd c0 m ratExp) st.npoly).poly.rat.coeff 0 = m ∧
    algValue (slot (emitCandidate poly st d cd c0 m ratExp) st.npoly).c d m =
      cd * m ^ d.toNat + c0 ∧
    (slot (emitCandidate poly st d cd c0 m ratExp) st.npoly).valid = 1 := by
  unfold slot at hslot
  have hlen2 : 2 ≤ (copyCoeffs poly.poly.rat.degree poly.poly.rat.coeff
      snfs_init.poly.rat.coeff).length := by
    rw [copyCoeffs_length]; decide
  obtain ⟨g1, g0⟩ := getC_setRat (copyCoeffs poly.poly.rat.degree poly.poly.rat.coeff
      snfs_init.poly.rat.coeff) (-1) m hlen2
  have hval := algValue_two_term d hd cd c0 m
  have hrange := two_term_range d hd cd c0 hcd hc0
  obtain ⟨t1, t0⟩ := two_term_get d hd cd c0
  -- the candidate before validation
  obtain ⟨cand, hcand⟩ : ∃ cand : snfs_t, cand = setM (setRat (setAlgDegree
      { snfs_copy_poly poly snfs_init with c := setC (setC zeroCoeffs d.toNat cd) 0 c0 } d)
      (-1) m) m := ⟨_, rfl⟩
  have hcc : cand.c = setC (setC zeroCoeffs d.toNat cd) 0 c0 := by rw [hcand]; rfl
  have hcdg : cand.poly.alg.degree = d := by rw [hcand]; rfl
  have hcm : cand.poly.m = m := by rw [hcand]; rfl
  have hcn : cand.n = poly.n := by rw [hcand]; rfl
  have hcr : cand.poly.rat.coeff = setC (setC (copyCoeffs poly.poly.rat.degree
      poly.poly.rat.coeff snfs_init.poly.rat.coeff) 1 (-1)) 0 m := by rw [hcand]; rfl
  have hv : (check_poly cand).valid = 1 := by
    rw [check_poly_valid, hornerResidue_eq cand (by rw [hcc]; exact hrange)]
    have h1 : algValue cand.c cand.poly.alg.degree cand.poly.m % cand.n = 0 := by
      rw [hcc, hcdg, hcm, hcn, hval]; exact Int.emod_eq_zero_of_dvd hdiv
    have h2 : ratResidue cand = 0 := by
      unfold ratResidue
      rw [hcr, hcm, g1, g0]; simp
    rw [if_pos ⟨h1, h2⟩]
  have hne : (check_poly cand).valid ≠ 0 := by rw [hv]; decide
  have hemit : emitCandidate poly st d cd c0 m ratExp =
      (⟨st.polys.set st.npoly (check_poly cand), st.npoly + 1, st.n⟩ : gen_state) := by
    subst hcand
    unfold emitCandidate
    rw [hslot]
    simp only [if_neg hf]
    exact if_pos hne
  rw [hemit]
  have hs : slot (⟨st.polys.set st.npoly (check_poly cand), st.npoly + 1, st.n⟩ : gen_state)
      st.npoly = check_poly cand := by
    unfold slot
    simp [List.getD_eq_getElem?_getD, hlen]
  rw [hs, check_poly_c, check_poly_degree, check_poly_m, check_poly_rat, hcc, hcdg, hcm, hcr]
  refine ⟨rfl, rfl, by simp, ?_, rfl, t1, t0, rfl, g1, g0, hval, hv⟩
  intro k hk
  unfold slot
  simp [List.getD_eq_getElem?_getD, List.getElem?_set, Ne.symm hk]

theorem powToInt_of_range (b x : Int) (hx : 0 ≤ x)
    (h : -2147483648 ≤ b ^ x.toNat ∧ b ^ x.toNat < 2147483648) :
    powToInt b x = b ^ x.toNat := by
  unfold powToInt powMulToInt doubleToInt
  rw [if_pos hx, ipow_eq_pow, mul_one, if_pos h]

theorem powMulToInt_of_range (b x y : Int) (hx : 0 ≤ x)
    (h : -2147483648 ≤ b ^ x.toNat * y ∧ b ^ x.toNat * y < 2147483648) :
    powMulToInt b x y = b ^ x.toNat * y := by
  unfold powMulToInt doubleToInt
  rw [if_pos hx, ipow_eq_pow, if_pos h]

theorem mpz_pow_ui_of_exp (b k : Int) (hk0 : 0 ≤ k) (hk1 : k < 18446744073709551616) :
    mpz_pow_ui b k = b ^ k.toNat := by
  have h := mpz_pow_ui_nat b k.toNat (by omega)
  rw [Int.toNat_of_nonneg hk0] at h
  exact h

/-- The arguments of the exact-fit emission. -/
theorem exactFit_eq (poly : snfs_t) (st : gen_state) (d : Int) (hd : 0 < d)
    (he : 0 ≤ poly.exp1 ∧ poly.exp1 < 2147483648) :
    exactFit poly st d =
      emitCandidate poly st d poly.coeff1 poly.coeff2
        (poly.base1 ^ (poly.exp1 / d).toNat) (poly.exp1 / d) := by
  have htd : poly.exp1.tdiv d = poly.exp1 / d := Int.tdiv_eq_ediv he.1 (le_of_lt hd)
  have hk0 : 0 ≤ poly.exp1 / d := Int.ediv_nonneg he.1 (le_of_lt hd)
  have hk1 : poly.exp1 / d ≤ poly.exp1 := Int.ediv_le_self _ he.1
  unfold exactFit
  simp only [htd]
  rw [mpz_pow_ui_of_exp _ _ hk0 (by omega)]

/-- The arguments of the round-up emission when nothing overflows. -/
theorem roundUp_eq (poly : snfs_t) (st : gen_state) (d : Int) (hd : d = 4 ∨ d = 5 ∨ d = 6)
    (he : 0 ≤ poly.exp1 ∧ poly.exp1 + 6 < 2147483648)
    (hp2 : -2147483648 ≤ poly.base2 ^ (d - poly.exp1 % d).toNat ∧
      poly.base2 ^ (d - poly.exp1 % d).toNat < 2147483648)
    (hq2 : -2147483648 ≤ poly.base2 ^ (d - poly.exp1 % d).toNat * poly.coeff1 ∧
      poly.base2 ^ (d - poly.exp1 % d).toNat * poly.coeff1 < 2147483648)
    (hp : -2147483648 ≤ poly.base1 ^ (d - poly.exp1 % d).toNat ∧
      poly.base1 ^ (d - poly.exp1 % d).toNat < 2147483648)
    (hq : -2147483648 ≤ poly.base1 ^ (d - poly.exp1 % d).toNat * poly.coeff2 ∧
      poly.base1 ^ (d - poly.exp1 % d).toNat * poly.coeff2 < 2147483648) :
    roundUp poly st d =
      emitCandidate poly st d
        (poly.base2 ^ (d - poly.exp1 % d).toNat * poly.coeff1)
        (poly.base1 ^ (d - poly.exp1 % d).toNat * poly.coeff2)
        (poly.base1 ^ ((poly.exp1 + (d - poly.exp1 % d)) / d).toNat)
        ((poly.exp1 + (d - poly.exp1 % d)) / d) := by
  have hd0 : 0 < d := by omega
  have htm : poly.exp1.tmod d = poly.exp1 % d := Int.tmod_eq_emod he.1 (le_of_lt hd0)
  have hm0 : 0 ≤ poly.exp1 % d := Int.emod_nonneg _ (by omega)
  have hm1 : poly.exp1 % d < d := Int.emod_lt_of_pos _ hd0
  have hinc : wrap32 (d - poly.exp1 % d) = d - poly.exp1 % d :=
    wrap32_of_range _ (by omega) (by omega)
  have hsum : wrap32 (poly.exp1 + (d - poly.exp1 % d)) = poly.exp1 + (d - poly.exp1 % d) :=
    wrap32_of_range _ (by omega) (by omega)
  have htd : (poly.exp1 + (d - poly.exp1 % d)).tdiv d = (poly.exp1 + (d - poly.exp1 % d)) / d :=
    Int.tdiv_eq_ediv (by omega) (le_of_lt hd0)
  have hk0 : 0 ≤ (poly.exp1 + (d - poly.exp1 % d)) / d :=
    Int.ediv_nonneg (by omega) (le_of_lt hd0)
  have hk1 : (poly.exp1 + (d - poly.exp1 % d)) / d ≤ poly.exp1 + (d - poly.exp1 % d) :=
    Int.ediv_le_self _ (by omega)
  unfold roundUp
  simp only [htm, hinc, hsum, htd]
  rw [powToInt_of_range _ _ (by omega) hp2, powToInt_of_range _ _ (by omega) hp,
    wrap32_of_range _ hq2.1 hq2.2, wrap32_of_range _ hq.1 hq.2,
    mpz_pow_ui_of_exp _ _ hk0 (by omega)]

/-- The arguments of the round-down emission when nothing overflows. -/
theorem roundDown_eq (poly : snfs_t) (st : gen_state) (d : Int) (hd : d = 4 ∨ d = 5 ∨ d = 6)
    (he : 0 ≤ poly.exp1 ∧ poly.exp1 + 6 < 2147483648)
    (hp2 : -2147483648 ≤ poly.base2 ^ (poly.exp1 % d).toNat ∧
      poly.base2 ^ (poly.exp1 % d).toNat < 2147483648)
    (hq2 : -2147483648 ≤ poly.base2 ^ (poly.exp1 % d).toNat * poly.coeff2 ∧
      poly.base2 ^ (poly.exp1 % d).toNat * poly.coeff2 < 2147483648)
    (hp : -2147483648 ≤ poly.base1 ^ (poly.exp1 % d).toNat ∧
      poly.base1 ^ (poly.exp1 % d).toNat < 2147483648)
    (hq : -2147483648 ≤ poly.base1 ^ (poly.exp1 % d).toNat * poly.coeff1 ∧
      poly.base1 ^ (poly.exp1 % d).toNat * poly.coeff1 < 2147483648) :
    roundDown poly st d =
      emitCandidate poly st d
        (poly.base1 ^ (poly.exp1 % d).toNat * poly.coeff1)
        (poly.base2 ^ (poly.exp1 % d).toNat * poly.coeff2)
        (poly.base1 ^ ((poly.exp1 - poly.exp1 % d) / d).toNat)
        ((poly.exp1 - poly.exp1 % d) / d) := by
  have hd0 : 0 < d := by omega
  have htm : poly.exp1.tmod d = poly.exp1 % d := Int.tmod_eq_emod he.1 (le_of_lt hd0)
  have hm0 : 0 ≤ poly.exp1 % d := Int.emod_nonneg _ (by omega)
  have hm1 : poly.exp1 % d ≤ poly.exp1 := by
    rcases hd with h | h | h <;> subst h <;> omega
  have hsum : wrap32 (poly.exp1 - poly.exp1 % d) = poly.exp1 - poly.exp1 % d :=
    wrap32_of_range _ (by omega) (by omega)
  have htd : (poly.exp1 - poly.exp1 % d).tdiv d = (poly.exp1 - poly.exp1 % d) / d :=
    Int.tdiv_eq_ediv (by omega) (le_of_lt hd0)
  have hk0 : 0 ≤ (poly.exp1 - poly.exp1 % d) / d :=
    Int.ediv_nonneg (by omega) (le_of_lt hd0)
  have hk1 : (poly.exp1 - poly.exp1 % d) / d ≤ poly.exp1 - poly.exp1 % d :=
    Int.ediv_le_self _ (by omega)
  unfold roundDown
  simp only [htm, hsum, htd]
  rw [powToInt_of_range _ _ hm0 hp2, powToInt_of_range _ _ hm0 hp,
    wrap32_of_range _ hq2.1 hq2.2, wrap32_of_range _ hq.1 hq.2,
    mpz_pow_ui_of_exp _ _ hk0 (by omega)]

/-- The three algebraic identities of the no-reduction candidates. -/
theorem two_term_identities (b c1 c2 e d : Int) (hd : d = 4 ∨ d = 5 ∨ d = 6) (he : 0 ≤ e) :
    (e % d = 0 → c1 * (b ^ (e / d).toNat) ^ d.toNat + c2 = c1 * b ^ e.toNat + c2) ∧
    (c1 * (b ^ ((e + (d - e % d)) / d).toNat) ^ d.toNat + b ^ (d - e % d).toNat * c2 =
      b ^ (d - e % d).toNat * (c1 * b ^ e.toNat + c2)) ∧
    (b ^ (e % d).toNat * c1 * (b ^ ((e - e % d) / d).toNat) ^ d.toNat + c2 =
      c1 * b ^ e.toNat + c2) := by
  have t4 : (4 : Int).toNat = 4 := rfl
  have t5 : (5 : Int).toNat = 5 := rfl
  have t6 : (6 : Int).toNat = 6 := rfl
  refine ⟨?_, ?_, ?_⟩
  · intro h0
    have hx : e.toNat = (e / d).toNat * d.toNat := by
      rcases hd with h | h | h <;> subst h <;> simp only [t4, t5, t6] <;> omega
    rw [hx, pow_mul]
  · have hx : ((e + (d - e % d)) / d).toNat * d.toNat = e.toNat + (d - e % d).toNat := by
      rcases hd with h | h | h <;> subst h <;> simp only [t4, t5, t6] <;> omega
    rw [← pow_mul, hx, pow_add]; ring
  · have hx : e.toNat = (e % d).toNat + ((e - e % d) / d).toNat * d.toNat := by
      rcases hd with h | h | h <;> subst h <;> simp only [t4, t5, t6] <;> omega
    rw [← pow_mul]
    conv_rhs => rw [hx, pow_add]
    ring

/-- C18. No-reduction synthesis for a Brent descriptor `c1 * b^e + c2` with `base2 = 1`,
`N > 0` dividing `c1 * b^e + c2`, `0 ≤ e`, coefficients other than `INT_MIN`, a degree
`d` in `{4, 5, 6}` and a state whose next slots are fresh.  The loop body is the
exact-fit block when `d ∣ e`, and otherwise the round-up block followed by the
round-down block (and the composite-base loop).  Each block stores a candidate that is
accepted (`valid = 1`, the count grows by one) with rational polynomial `-x + m`:
exact fit has `c[d] = c1`, `c[0] = c2`, `m = b^(e/d)` and `c[d] m^d + c[0] = c1 b^e + c2`;
round up (`inc = d - e mod d`, products within `int`) has `c[d] = b2^inc c1`,
`c[0] = b^inc c2`, `m = b^((e+inc)/d)` and `c[d] m^d + c[0] = b^inc (c1 b^e + c2)`;
round down (`inc = e mod d`) has `c[d] = b^inc c1`, `c[0] = b2^inc c2`,
`m = b^((e-inc)/d)` and `c[d] m^d + c[0] = c1 b^e + c2`. -/
theorem no_reduction_candidates (poly : snfs_t) (f : List Int) (st : gen_state) (d : Int)
    (_hN : 0 < poly.n) (hf : poly.form_type = SNFS_BRENT) (hb2 : poly.base2 = 1)
    (hdiv : poly.n ∣ poly.coeff1 * poly.base1 ^ poly.exp1.toNat + poly.coeff2)
    (he : 0 ≤ poly.exp1 ∧ poly.exp1 + 6 < 2147483648)
    (hd : d = 4 ∨ d = 5 ∨ d = 6)
    (hc1 : -2147483648 < poly.coeff1 ∧ poly.coeff1 < 2147483648)
    (hc2 : -2147483648 < poly.coeff2 ∧ poly.coeff2 < 2147483648)
    (hslot : slot st st.npoly = snfs_init ∧ slot st (st.npoly + 1) = snfs_init)
    (hlen : st.npoly + 1 < st.polys.length) :
    (degreeStep poly f st d =
      if poly.exp1.tmod d = 0 then exactFit poly st d
      else if f.length > 1 then
        (List.range f.length).foldl (compositeStep poly f d)
          (roundDown poly (roundUp poly st d) d)
      else roundDown poly (roundUp poly st d) d) ∧
    (poly.exp1 % d = 0 →
      (exactFit poly st d).npoly = st.npoly + 1 ∧
      getC (slot (exactFit poly st d) st.npoly).c d.toNat = poly.coeff1 ∧
      getC (slot (exactFit poly st d) st.npoly).c 0 = poly.coeff2 ∧
      (slot (exactFit poly st d) st.npoly).poly.m = poly.base1 ^ (poly.exp1 / d).toNat ∧
      getC (slot (exactFit poly st d) st.npoly).poly.rat.coeff 1 = -1 ∧
      getC (slot (exactFit poly st d) st.npoly).poly.rat.coeff 0 =
        (slot (exactFit poly st d) st.npoly).poly.m ∧
      algValue (slot (exactFit poly st d) st.npoly).c d
          (slot (exactFit poly st d) st.npoly).poly.m =
        poly.coeff1 * poly.base1 ^ poly.exp1.toNat + poly.coeff2 ∧
      (slot (exactFit poly st d) st.npoly).valid = 1) ∧
    ((-2147483648 ≤ poly.base1 ^ (d - poly.exp1 % d).toNat ∧
        poly.base1 ^ (d - poly.exp1 % d).toNat < 2147483648) →
      (-2147483648 < poly.base1 ^ (d - poly.exp1 % d).toNat * poly.coeff2 ∧
        poly.base1 ^ (d - poly.exp1 % d).toNat * poly.coeff2 < 2147483648) →
      (roundUp poly st d).npoly = st.npoly + 1 ∧
      getC (slot (roundUp poly st d) st.npoly).c d.toNat =
        poly.base2 ^ (d - poly.exp1 % d).toNat * poly.coeff1 ∧
      getC (slot (roundUp poly st d) st.npoly).c 0 =
        poly.base1 ^ (d - poly.exp1 % d).toNat * poly.coeff2 ∧
      (slot (roundUp poly st d) st.npoly).poly.m =
        poly.base1 ^ ((poly.exp1 + (d - poly.exp1 % d)) / d).toNat ∧
      getC (slot (roundUp poly st d) st.npoly).poly.rat.coeff 1 = -1 ∧
      getC (slot (roundUp poly st d) st.npoly).poly.rat.coeff 0 =
        (slot (roundUp poly st d) st.npoly).poly.m ∧
      algValue (slot (roundUp poly st d) st.npoly).c d
          (slot (roundUp poly st d) st.npoly).poly.m =
        poly.base1 ^ (d - poly.exp1 % d).toNat *
          (poly.coeff1 * poly.base1 ^ poly.exp1.toNat + poly.coeff2) ∧
      (slot (roundUp poly st d) st.npoly).valid = 1 ∧
      ((-2147483648 ≤ poly.base1 ^ (poly.exp1 % d).toNat ∧
          poly.base1 ^ (poly.exp1 % d).toNat < 2147483648) →
        (-2147483648 < poly.base1 ^ (poly.exp1 % d).toNat * poly.coeff1 ∧
          poly.base1 ^ (poly.exp1 % d).toNat * poly.coeff1 < 2147483648) →
        (roundDown poly (roundUp poly st d) d).npoly = st.npoly + 2 ∧
        getC (slot (roundDown poly (roundUp poly st d) d) (st.npoly + 1)).c d.toNat =
          poly.base1 ^ (poly.exp1 % d).toNat * poly.coeff1 ∧
        getC (slot (roundDown poly (roundUp poly st d) d) (st.npoly + 1)).c 0 =
          poly.base2 ^ (poly.exp1 % d).toNat * poly.coeff2 ∧
        (slot (roundDown poly (roundUp poly st d) d) (st.npoly + 1)).poly.m =
          poly.base1 ^ ((poly.exp1 - poly.exp1 % d) / d).toNat ∧
        getC (slot (roundDown poly (roundUp poly st d) d) (st.npoly + 1)).poly.rat.coeff 1
          = -1 ∧
        getC (slot (roundDown poly (roundUp poly st d) d) (st.npoly + 1)).poly.rat.coeff 0
          = (slot (roundDown poly (roundUp poly st d) d) (st.npoly + 1)).poly.m ∧
        algValue (slot (roundDown poly (roundUp poly st d) d) (st.npoly + 1)).c d
            (slot (roundDown poly (roundUp poly st d) d) (st.npoly + 1)).poly.m =
          poly.coeff1 * poly.base1 ^ poly.exp1.toNat + poly.coeff2 ∧
        (slot (roundDown poly (roundUp poly st d) d) (st.npoly + 1)).valid = 1 ∧
        slot (roundDown poly (roundUp poly st d) d) st.npoly =
          slot (roundUp poly st d) st.npoly)) := by
  have hf2 : poly.form_type ≠ SNFS_H_CUNNINGHAM := by rw [hf]; decide
  have hd0 : 0 < d := by omega
  obtain ⟨I1, I2, I3⟩ :=
    two_term_identities poly.base1 poly.coeff1 poly.coeff2 poly.exp1 d hd he.1
  have hone : ∀ x : Nat, ∀ y : Int, poly.base2 ^ x * y = y := by
    intro x y; rw [hb2, one_pow, one_mul]
  have hpow1 : ∀ x : Nat, -2147483648 ≤ poly.base2 ^ x ∧ poly.base2 ^ x < 2147483648 := by
    intro x; rw [hb2, one_pow]; decide
  refine ⟨degreeStep_eq poly f st d, ?_, ?_⟩
  · intro h0
    rw [exactFit_eq poly st d hd0 ⟨he.1, by omega⟩]
    obtain ⟨a1, _, _, _, _, a6, a7, a8, a9, a10, a11, a12⟩ :=
      emitCandidate_fresh poly st d poly.coeff1 poly.coeff2
        (poly.base1 ^ (poly.exp1 / d).toNat) (poly.exp1 / d) hf2 hd hslot.1 (by omega)
        hc1 hc2 (by rw [I1 h0]; exact hdiv)
    refine ⟨a1, a6, a7, a8, a9, by rw [a10, a8], ?_, a12⟩
    rw [a8, a11, I1 h0]
  · intro hp hq
    have hU := roundUp_eq poly st d hd he (hpow1 _)
      (by rw [hone]; exact ⟨le_of_lt hc1.1, hc1.2⟩) hp ⟨le_of_lt hq.1, hq.2⟩
    obtain ⟨a1, _, a3, a4, _, a6, a7, a8, a9, a10, a11, a12⟩ :=
      emitCandidate_fresh poly st d
        (poly.base2 ^ (d - poly.exp1 % d).toNat * poly.coeff1)
        (poly.base1 ^ (d - poly.exp1 % d).toNat * poly.coeff2)
        (poly.base1 ^ ((poly.exp1 + (d - poly.exp1 % d)) / d).toNat)
        ((poly.exp1 + (d - poly.exp1 % d)) / d) hf2 hd hslot.1 (by omega)
        (by rw [hone]; exact hc1) hq
        (by rw [hone, I2]; exact Dvd.dvd.mul_left hdiv _)
    rw [← hU] at a1 a3 a4 a6 a7 a8 a9 a10 a11 a12
    refine ⟨a1, a6, a7, a8, a9, by rw [a10, a8], ?_, a12, ?_⟩
    · rw [a8, a11, hone, I2]
    · intro hp3 hq3
      have hs1 : slot (roundUp poly st d) (roundUp poly st d).npoly = snfs_init := by
        rw [a1, a4 (st.npoly + 1) (by omega)]; exact hslot.2
      have hD := roundDown_eq poly (roundUp poly st d) d hd he (hpow1 _)
        (by rw [hone]; exact ⟨le_of_lt hc2.1, hc2.2⟩) hp3 ⟨le_of_lt hq3.1, hq3.2⟩
      obtain ⟨b1, _, _, b4, _, b6, b7, b8, b9, b10, b11, b12⟩ :=
        emitCandidate_fresh poly (roundUp poly st d) d
          (poly.base1 ^ (poly.exp1 % d).toNat * poly.coeff1)
          (poly.base2 ^ (poly.exp1 % d).toNat * poly.coeff2)
          (poly.base1 ^ ((poly.exp1 - poly.exp1 % d) / d).toNat)
          ((poly.exp1 - poly.exp1 % d) / d) hf2 hd hs1 (by rw [a1, a3]; exact hlen)
          hq3 (by rw [hone]; exact hc2)
          (by rw [hone, I3]; exact hdiv)
      rw [← hD] at b1 b4 b6 b7 b8 b9 b10 b11 b12
      rw [a1] at b1 b4 b6 b7 b8 b9 b10 b11 b12
      refine ⟨b1, b6, b7, b8, b9, by rw [b10, b8], ?_, b12, b4 st.npoly (by omega)⟩
      rw [b8, b11, hone, I3]

/-- Witness for C18: the descriptor `2^16 + 1` with `N = 65537` at degree 4 (exact fit,
`16^4 + 1`) and at degree 5 (round up `16^5 + 16`, round down `2 * 8^5 + 1`). -/
theorem no_reduction_candidates_witness :
    (0 < brent2_16.n ∧ brent2_16.form_type = SNFS_BRENT ∧ brent2_16.base2 = 1 ∧
      brent2_16.n ∣ brent2_16.coeff1 * brent2_16.base1 ^ brent2_16.exp1.toNat
        + brent2_16.coeff2 ∧
      (slot freshState freshState.npoly = snfs_init ∧
        slot freshState (freshState.npoly + 1) = snfs_init) ∧
      freshState.npoly + 1 < freshState.polys.length ∧ brent2_16.exp1 % 4 = 0) ∧
    ((exactFit brent2_16 freshState 4).npoly = freshState.npoly + 1 ∧
      (slot (exactFit brent2_16 freshState 4) freshState.npoly).valid = 1) ∧
    ((roundUp brent2_16 freshState 5).npoly = freshState.npoly + 1 ∧
      (slot (roundUp brent2_16 freshState 5) freshState.npoly).valid = 1) ∧
    ((roundDown brent2_16 (roundUp brent2_16 freshState 5) 5).npoly = freshState.npoly + 2 ∧
      (slot (roundDown brent2_16 (roundUp brent2_16 freshState 5) 5)
        (freshState.npoly + 1)).valid = 1) :=
  ⟨⟨by decide, by decide, by decide, by decide, by decide, by decide, by decide⟩,
   ⟨((no_reduction_candidates brent2_16 [] freshState 4 (by decide) (by decide) (by decide)
        (by decide) (by decide) (by decide) (by decide) (by decide) (by decide)
        (by decide)).2.1 (by decide)).1,
    ((no_reduction_candidates brent2_16 [] freshState 4 (by decide) (by decide) (by decide)
        (by decide) (by decide) (by decide) (by decide) (by decide) (by decide)
        (by decide)).2.1 (by decide)).2.2.2.2.2.2.2⟩,
   ⟨((no_reduction_candidates brent2_16 [] freshState 5 (by decide) (by decide) (by decide)
        (by decide) (by decide) (by decide) (by decide) (by decide) (by decide)
        (by decide)).2.2 (by decide) (by decide)).1,
    ((no_reduction_candidates brent2_16 [] freshState 5 (by decide) (by decide) (by decide)
        (by decide) (by decide) (by decide) (by decide) (by decide) (by decide)
        (by decide)).2.2 (by decide) (by decide)).2.2.2.2.2.2.2.1⟩,
   ⟨(((no_reduction_candidates brent2_16 [] freshState 5 (by decide) (by decide) (by decide)
        (by decide) (by decide) (by decide) (by decide) (by decide) (by decide)
        (by decide)).2.2 (by decide) (by decide)).2.2.2.2.2.2.2.2 (by decide) (by decide)).1,
    (((no_reduction_candidates brent2_16 [] freshState 5 (by decide) (by decide) (by decide)
        (by decide) (by decide) (by decide) (by decide) (by decide) (by decide)
        (by decide)).2.2 (by decide) (by decide)).2.2.2.2.2.2.2.2 (by decide)
        (by decide)).2.2.2.2.2.2.2.1⟩⟩

/-! ## Composite bases -/

/-- For `2 ≤ n < 100` the factoring loop either collects nothing (and `n` is in the table
of primes below 100) or collects at least two table primes whose product is `n`. -/
theorem baseFactors_small_check :
    ∀ n ∈ List.range 100, 2 ≤ n →
      ((baseFactors (n : Int) = [] ∧ (n : Int) ∈ spSOEprimes.take 25) ∨
       ((baseFactors (n : Int)).prod = (n : Int) ∧
        (∀ q ∈ baseFactors (n : Int), q ∈ spSOEprimes.take 25) ∧
        1 < (baseFactors (n : Int)).length)) := by
  decide!

theorem spSOEprimes_small_prime : ∀ q ∈ spSOEprimes.take 25, Nat.Prime q.toNat := by
  intro q hq
  have hq2 : q ∈ ([2, 3, 5, 7, 11, 13, 17, 19, 23, 29, 31, 37, 41, 43, 47, 53, 59, 61, 67,
      71, 73, 79, 83, 89, 97] : List Int) := hq
  simp only [List.mem_cons, List.mem_singleton, List.not_mem_nil, or_false] at hq2
  rcases hq2 with h | h | h | h | h | h | h | h | h | h | h | h | h | h | h | h | h | h | h
    | h | h | h | h | h | h <;> subst h <;> norm_num [Int.toNat]

theorem prod_range_getD (l : List Int) :
    ∏ k in Finset.range l.length, l.getD k 0 = l.prod := by
  induction l with
  | nil => rfl
  | cons a t ih =>
    rw [List.length_cons, Finset.prod_range_succ', List.prod_cons]
    simp only [List.getD_cons_succ, List.getD_cons_zero]
    rw [ih, mul_comm]

theorem prod_erase_succ (g : Nat → Int) (j t : Nat) :
    ∏ k in (Finset.range (t + 1)).erase j, g k =
      if t = j then ∏ k in (Finset.range t).erase j, g k
      else (∏ k in (Finset.range t).erase j, g k) * g t := by
  by_cases h : t = j
  · subst h
    rw [if_pos rfl, Finset.range_succ, Finset.erase_insert (by simp),
      Finset.erase_eq_of_not_mem (by simp)]
  · rw [if_neg h, Finset.range_succ, Finset.erase_insert_of_ne h,
      Finset.prod_insert (by simp), mul_comm]

/-- The inner loop over the other factors, when no intermediate value overflows. -/
theorem compositeFold (f : List Int) (j : Nat) (i2 cd0 : Int) (hi2 : 0 ≤ i2) (t : Nat)
    (hov : ∀ s, s ≤ t →
      (-2147483648 ≤ ∏ k in (Finset.range s).erase j, f.getD k 0 ∧
        ∏ k in (Finset.range s).erase j, f.getD k 0 < 2147483648) ∧
      (-2147483648 ≤ cd0 * ∏ k in (Finset.range s).erase j, f.getD k 0 ^ i2.toNat ∧
        cd0 * ∏ k in (Finset.range s).erase j, f.getD k 0 ^ i2.toNat < 2147483648)) :
    (List.range t).foldl
      (fun (acc : Int × Int) k =>
        if k = j then acc
        else (powMulToInt (f.getD k 0) i2 acc.1, wrap32 (acc.2 * f.getD k 0)))
      (cd0, 1) =
    (cd0 * ∏ k in (Finset.range t).erase j, f.getD k 0 ^ i2.toNat,
      ∏ k in (Finset.range t).erase j, f.getD k 0) := by
  induction t with
  | zero => simp
  | succ t ih =>
    have ih2 := ih (fun s hs => hov s (Nat.le_succ_of_le hs))
    obtain ⟨⟨hb1, hb2⟩, hc1, hc2⟩ := hov (t + 1) (le_refl _)
    rw [List.range_succ, List.foldl_append, ih2, List.foldl_cons, List.foldl_nil]
    rw [prod_erase_succ, prod_erase_succ] at *
    by_cases h : t = j
    · simp only [if_pos h]
    · simp only [if_neg h] at hb1 hb2 hc1 hc2 ⊢
      have e1 : f.getD t 0 ^ i2.toNat *
          (cd0 * ∏ k in (Finset.range t).erase j, f.getD k 0 ^ i2.toNat) =
          cd0 * ((∏ k in (Finset.range t).erase j, f.getD k 0 ^ i2.toNat) *
            f.getD t 0 ^ i2.toNat) := by ring
      rw [powMulToInt_of_range _ _ _ hi2 (by rw [e1]; exact ⟨hc1, hc2⟩),
        wrap32_of_range _ hb1 hb2, e1]

/-- The arguments of the emission of one composite-base round when nothing overflows. -/
theorem compositeStep_eq (poly : snfs_t) (f : List Int) (d : Int) (st : gen_state) (j : Nat)
    (hd : d = 4 ∨ d = 5 ∨ d = 6) (he : 0 ≤ poly.exp1 ∧ poly.exp1 + 6 < 2147483648)
    (hc0 : -2147483648 ≤ f.getD j 0 ^ (d - poly.exp1 % d).toNat * poly.coeff2 ∧
      f.getD j 0 ^ (d - poly.exp1 % d).toNat * poly.coeff2 < 2147483648)
    (hcd0 : -2147483648 ≤ poly.base2 ^ (d - poly.exp1 % d).toNat * poly.coeff1 ∧
      poly.base2 ^ (d - poly.exp1 % d).toNat * poly.coeff1 < 2147483648)
    (hov : ∀ s, s ≤ f.length →
      (-2147483648 ≤ ∏ k in (Finset.range s).erase j, f.getD k 0 ∧
        ∏ k in (Finset.range s).erase j, f.getD k 0 < 2147483648) ∧
      (-2147483648 ≤ poly.base2 ^ (d - poly.exp1 % d).toNat * poly.coeff1 *
          ∏ k in (Finset.range s).erase j, f.getD k 0 ^ (poly.exp1 % d).toNat ∧
        poly.base2 ^ (d - poly.exp1 % d).toNat * poly.coeff1 *
          ∏ k in (Finset.range s).erase j, f.getD k 0 ^ (poly.exp1 % d).toNat
          < 2147483648)) :
    compositeStep poly f d st j =
      emitCandidate poly
        { st with n := (∏ k in (Finset.range f.length).erase j, f.getD k 0) ^
            ((poly.exp1 - poly.exp1 % d) / d).toNat } d
        (poly.base2 ^ (d - poly.exp1 % d).toNat * poly.coeff1 *
          ∏ k in (Finset.range f.length).erase j, f.getD k 0 ^ (poly.exp1 % d).toNat)
        (f.getD j 0 ^ (d - poly.exp1 % d).toNat * poly.coeff2)
        (f.getD j 0 ^ ((poly.exp1 + (d - poly.exp1 % d)) / d).toNat *
          (∏ k in (Finset.range f.length).erase j, f.getD k 0) ^
            ((poly.exp1 - poly.exp1 % d) / d).toNat)
        ((poly.exp1 + (d - poly.exp1 % d)) / d) := by
  have hd0 : 0 < d := by omega
  have htm : poly.exp1.tmod d = poly.exp1 % d := Int.tmod_eq_emod he.1 (le_of_lt hd0)
  have hm0 : 0 ≤ poly.exp1 % d := Int.emod_nonneg _ (by omega)
  have hm1 : poly.exp1 % d < d := Int.emod_lt_of_pos _ hd0
  have hm2 : poly.exp1 % d ≤ poly.exp1 := by
    rcases hd with h | h | h <;> subst h <;> omega
  have hinc : wrap32 (d - poly.exp1 % d) = d - poly.exp1 % d :=
    wrap32_of_range _ (by omega) (by omega)
  have hsum : wrap32 (poly.exp1 + (d - poly.exp1 % d)) = poly.exp1 + (d - poly.exp1 % d) :=
    wrap32_of_range _ (by omega) (by omega)
  have hdif : wrap32 (poly.exp1 - poly.exp1 % d) = poly.exp1 - poly.exp1 % d :=
    wrap32_of_range _ (by omega) (by omega)
  have htd1 : (poly.exp1 + (d - poly.exp1 % d)).tdiv d =
      (poly.exp1 + (d - poly.exp1 % d)) / d := Int.tdiv_eq_ediv (by omega) (le_of_lt hd0)
  have htd2 : (poly.exp1 - poly.exp1 % d).tdiv d = (poly.exp1 - poly.exp1 % d) / d :=
    Int.tdiv_eq_ediv (by omega) (le_of_lt hd0)
  have hk0 : 0 ≤ (poly.exp1 + (d - poly.exp1 % d)) / d :=
    Int.ediv_nonneg (by omega) (le_of_lt hd0)
  have hk1 : (poly.exp1 + (d - poly.exp1 % d)) / d ≤ poly.exp1 + (d - poly.exp1 % d) :=
    Int.ediv_le_self _ (by omega)
  have hl0 : 0 ≤ (poly.exp1 - poly.exp1 % d) / d :=
    Int.ediv_nonneg (by omega) (le_of_lt hd0)
  have hl1 : (poly.exp1 - poly.exp1 % d) / d ≤ poly.exp1 - poly.exp1 % d :=
    Int.ediv_le_self _ (by omega)
  have hfold := compositeFold f j (poly.exp1 % d)
    (poly.base2 ^ (d - poly.exp1 % d).toNat * poly.coeff1) hm0 f.length hov
  unfold compositeStep
  simp only [htm, hinc, hsum, hdif, htd1, htd2]
  rw [powMulToInt_of_range _ _ _ (by omega) hcd0, powMulToInt_of_range _ _ _ (by omega) hc0,
    hfold, mpz_pow_ui_of_exp _ _ hk0 (by omega), mpz_pow_ui_of_exp _ _ hl0 (by omega)]

/-- The algebraic identity of the rebalanced candidate: with `q = f[j]`, `P` the product
of the other factors and `q * P = b`. -/
theorem rebalanced_identity (q P c1 c2 e d : Int) (hd : d = 4 ∨ d = 5 ∨ d = 6) (he : 0 ≤ e) :
    c1 * P ^ (e % d).toNat *
        (q ^ ((e + (d - e % d)) / d).toNat * P ^ ((e - e % d) / d).toNat) ^ d.toNat +
      q ^ (d - e % d).toNat * c2 =
    q ^ (d - e % d).toNat * (c1 * (q * P) ^ e.toNat + c2) := by
  have t4 : (4 : Int).toNat = 4 := rfl
  have t5 : (5 : Int).toNat = 5 := rfl
  have t6 : (6 : Int).toNat = 6 := rfl
  have hx : ((e + (d - e % d)) / d).toNat * d.toNat = (d - e % d).toNat + e.toNat := by
    rcases hd with h | h | h <;> subst h <;> simp only [t4, t5, t6] <;> omega
  have hy : (e % d).toNat + ((e - e % d) / d).toNat * d.toNat = e.toNat := by
    rcases hd with h | h | h <;> subst h <;> simp only [t4, t5, t6] <;> omega
  have h1 : (q ^ ((e + (d - e % d)) / d).toNat) ^ d.toNat =
      q ^ (d - e % d).toNat * q ^ e.toNat := by rw [← pow_mul, hx, pow_add]
  have h2 : P ^ (e % d).toNat * (P ^ ((e - e % d) / d).toNat) ^ d.toNat = P ^ e.toNat := by
    rw [← pow_mul, ← pow_add, hy]
  rw [mul_pow, mul_pow, h1]
  calc c1 * P ^ (e % d).toNat *
        (q ^ (d - e % d).toNat * q ^ e.toNat * (P ^ ((e - e % d) / d).toNat) ^ d.toNat) +
        q ^ (d - e % d).toNat * c2
      = q ^ (d - e % d).toNat * (c1 * (q ^ e.toNat *
          (P ^ (e % d).toNat * (P ^ ((e - e % d) / d).toNat) ^ d.toNat)) + c2) := by ring
    _ = q ^ (d - e % d).toNat * (c1 * (q ^ e.toNat * P ^ e.toNat) + c2) := by rw [h2]

/-- C19. Composite-base rebalancing.  (1) For a composite base `1 < b < 100` the
factoring loop collects at least two primes whose product is `b`.  (2) For a Brent
descriptor `c1 * b^e + c2` with `base2 = 1`, `N > 0`, `0 ≤ e`, a degree `d` in
`{4, 5, 6}`, factors `f` with product `b`, an index `j < numf` and a fresh slot: when no
value computed in the round leaves the `int` range (nor is `INT_MIN`), the round stores
an accepted candidate with `i1 = d - e mod d`, `i2 = e mod d`,
`c[d] = b2^i1 * c1 * prod_{k != j} f[k]^i2`, `c[0] = f[j]^i1 * c2`,
`m = f[j]^((e+i1)/d) * (prod_{k != j} f[k])^((e-i2)/d)`, rational polynomial `-x + m`,
and `c[d] m^d + c[0] = f[j]^i1 * (c1 b^e + c2)`, which `N` divides when it divides
`c1 b^e + c2`. -/
theorem composite_base_rebalancing :
    (∀ b : Int, 1 < b → b < 100 → ¬ Nat.Prime b.toNat →
      (baseFactors b).prod = b ∧ (∀ q ∈ baseFactors b, Nat.Prime q.toNat) ∧
      1 < (baseFactors b).length) ∧
    (∀ (poly : snfs_t) (f : List Int) (st : gen_state) (d : Int) (j : Nat),
      0 < poly.n → poly.form_type = SNFS_BRENT → poly.base2 = 1 →
      poly.n ∣ poly.coeff1 * poly.base1 ^ poly.exp1.toNat + poly.coeff2 →
      (0 ≤ poly.exp1 ∧ poly.exp1 + 6 < 2147483648) →
      (d = 4 ∨ d = 5 ∨ d = 6) →
      j < f.length → f.prod = poly.base1 →
      slot st st.npoly = snfs_init → st.npoly < st.polys.length →
      (-2147483648 < f.getD j 0 ^ (d - poly.exp1 % d).toNat * poly.coeff2 ∧
        f.getD j 0 ^ (d - poly.exp1 % d).toNat * poly.coeff2 < 2147483648) →
      (∀ s, s ≤ f.length →
        (-2147483648 ≤ ∏ k in (Finset.range s).erase j, f.getD k 0 ∧
          ∏ k in (Finset.range s).erase j, f.getD k 0 < 2147483648) ∧
        (-2147483648 < poly.base2 ^ (d - poly.exp1 % d).toNat * poly.coeff1 *
            ∏ k in (Finset.range s).erase j, f.getD k 0 ^ (poly.exp1 % d).toNat ∧
          poly.base2 ^ (d - poly.exp1 % d).toNat * poly.coeff1 *
            ∏ k in (Finset.range s).erase j, f.getD k 0 ^ (poly.exp1 % d).toNat
            < 2147483648)) →
      (compositeStep poly f d st j).npoly = st.npoly + 1 ∧
      getC (slot (compositeStep poly f d st j) st.npoly).c d.toNat =
        poly.base2 ^ (d - poly.exp1 % d).toNat * poly.coeff1 *
          ∏ k in (Finset.range f.length).erase j, f.getD k 0 ^ (poly.exp1 % d).toNat ∧
      getC (slot (compositeStep poly f d st j) st.npoly).c 0 =
        f.getD j 0 ^ (d - poly.exp1 % d).toNat * poly.coeff2 ∧
      (slot (compositeStep poly f d st j) st.npoly).poly.m =
        f.getD j 0 ^ ((poly.exp1 + (d - poly.exp1 % d)) / d).toNat *
          (∏ k in (Finset.range f.length).erase j, f.getD k 0) ^
            ((poly.exp1 - poly.exp1 % d) / d).toNat ∧
      getC (slot (compositeStep poly f d st j) st.npoly).poly.rat.coeff 1 = -1 ∧
      getC (slot (compositeStep poly f d st j) st.npoly).poly.rat.coeff 0 =
        (slot (compositeStep poly f d st j) st.npoly).poly.m ∧
      algValue (slot (compositeStep poly f d st j) st.npoly).c d
          (slot (compositeStep poly f d st j) st.npoly).poly.m =
        f.getD j 0 ^ (d - poly.exp1 % d).toNat *
          (poly.coeff1 * poly.base1 ^ poly.exp1.toNat + poly.coeff2) ∧
      (slot (compositeStep poly f d st j) st.npoly).valid = 1) := by
  constructor
  · intro b h1 h2 hnp
    have hb : ((b.toNat : Nat) : Int) = b := Int.toNat_of_nonneg (by omega)
    have hc := baseFactors_small_check b.toNat (List.mem_range.mpr (by omega)) (by omega)
    rw [hb] at hc
    rcases hc with ⟨_, hp⟩ | ⟨hprod, hall, hlen⟩
    · exact absurd (spSOEprimes_small_prime b hp) hnp
    · exact ⟨hprod, fun q hq => spSOEprimes_small_prime q (hall q hq), hlen⟩
  · intro poly f st d j _hN hf hb2 hdiv he hd hj hprod hslot hlen hc0 hov
    have hf2 : poly.form_type ≠ SNFS_H_CUNNINGHAM := by rw [hf]; decide
    have hone : ∀ x : Nat, ∀ y : Int, poly.base2 ^ x * y = y := by
      intro x y; rw [hb2, one_pow, one_mul]
    have hov0 := (hov 0 (Nat.zero_le _)).2
    simp only [Finset.range_zero, Finset.erase_empty, Finset.prod_empty, mul_one] at hov0
    have hovn := (hov f.length (le_refl _)).2
    have hE := compositeStep_eq poly f d st j hd he ⟨le_of_lt hc0.1, hc0.2⟩
      ⟨le_of_lt hov0.1, hov0.2⟩
      (fun s hs => ⟨(hov s hs).1, le_of_lt (hov s hs).2.1, (hov s hs).2.2⟩)
    have hqP : f.getD j 0 * ∏ k in (Finset.range f.length).erase j, f.getD k 0 =
        poly.base1 := by
      rw [Finset.mul_prod_erase (Finset.range f.length) (fun k => f.getD k 0)
        (Finset.mem_range.mpr hj), prod_range_getD, hprod]
    have hid : poly.base2 ^ (d - poly.exp1 % d).toNat * poly.coeff1 *
          (∏ k in (Finset.range f.length).erase j, f.getD k 0 ^ (poly.exp1 % d).toNat) *
          (f.getD j 0 ^ ((poly.exp1 + (d - poly.exp1 % d)) / d).toNat *
            (∏ k in (Finset.range f.length).erase j, f.getD k 0) ^
              ((poly.exp1 - poly.exp1 % d) / d).toNat) ^ d.toNat +
          f.getD j 0 ^ (d - poly.exp1 % d).toNat * poly.coeff2 =
        f.getD j 0 ^ (d - poly.exp1 % d).toNat *
          (poly.coeff1 * poly.base1 ^ poly.exp1.toNat + poly.coeff2) := by
      rw [hone, Finset.prod_pow, rebalanced_identity _ _ _ _ _ _ hd he.1, hqP]
    have hslot2 : slot ({ st with n := (∏ k in (Finset.range f.length).erase j, f.getD k 0) ^
        ((poly.exp1 - poly.exp1 % d) / d).toNat } : gen_state) st.npoly = snfs_init := hslot
    obtain ⟨a1, _, _, _, _, a6, a7, a8, a9, a10, a11, a12⟩ :=
      emitCandidate_fresh poly
        { st with n := (∏ k in (Finset.range f.length).erase j, f.getD k 0) ^
            ((poly.exp1 - poly.exp1 % d) / d).toNat } d
        (poly.base2 ^ (d - poly.exp1 % d).toNat * poly.coeff1 *
          ∏ k in (Finset.range f.length).erase j, f.getD k 0 ^ (poly.exp1 % d).toNat)
        (f.getD j 0 ^ (d - poly.exp1 % d).toNat * poly.coeff2)
        (f.getD j 0 ^ ((poly.exp1 + (d - poly.exp1 % d)) / d).toNat *
          (∏ k in (Finset.range f.length).erase j, f.getD k 0) ^
            ((poly.exp1 - poly.exp1 % d) / d).toNat)
        ((poly.exp1 + (d - poly.exp1 % d)) / d) hf2 hd hslot2 hlen hovn hc0
        (by rw [hid]; exact Dvd.dvd.mul_left hdiv _)
    rw [← hE] at a1 a6 a7 a8 a9 a10 a11 a12
    refine ⟨a1, a6, a7, a8, a9, by rw [a10, a8], ?_, a12⟩
    rw [a8, a11, hid]

/-- Witness for C19: the base 12 is factored as `2 * 2 * 3`; and for `6^8 + 1` with
`N = 1679617`, factors `2, 3`, degree 5 and `j = 0` the candidate is `27 x^5 + 4` with
`m = 12`. -/
theorem composite_base_rebalancing_witness :
    ((1 : Int) < 12 ∧ (12 : Int) < 100 ∧ ¬ Nat.Prime (12 : Int).toNat ∧
      0 < brent6_8.n ∧ brent6_8.form_type = SNFS_BRENT ∧ brent6_8.base2 = 1 ∧
      brent6_8.n ∣ brent6_8.coeff1 * brent6_8.base1 ^ brent6_8.exp1.toNat + brent6_8.coeff2 ∧
      (baseFactors brent6_8.base1).prod = brent6_8.base1 ∧
      slot freshState freshState.npoly = snfs_init) ∧
    (baseFactors 12).prod = 12 ∧
    (compositeStep brent6_8 (baseFactors brent6_8.base1) 5 freshState 0).npoly
      = freshState.npoly + 1 ∧
    (slot (compositeStep brent6_8 (baseFactors brent6_8.base1) 5 freshState 0)
      freshState.npoly).valid = 1 :=
  ⟨⟨by decide, by decide, by norm_num [Int.toNat], by decide, by decide, by decide,
      by decide, by decide, by decide⟩,
   (composite_base_rebalancing.1 12 (by decide) (by decide) (by norm_num [Int.toNat])).1,
   (composite_base_rebalancing.2 brent6_8 (baseFactors brent6_8.base1) freshState 5 0
      (by decide) (by decide) (by decide) (by decide) (by decide) (by decide) (by decide)
      (by decide) (by decide) (by decide) (by decide) (by decide)).1,
   (composite_base_rebalancing.2 brent6_8 (baseFactors brent6_8.base1) freshState 5 0
      (by decide) (by decide) (by decide) (by decide) (by decide) (by decide) (by decide)
      (by decide) (by decide) (by decide) (by decide) (by decide)).2.2.2.2.2.2.2⟩

/-! ## The branches `exp1 % 6 == 0` and `exp1 % 6 == 3` -/

/-- C21, failing input: the descriptor `2^36 - 1` (`coeff1 = 1`, `coeff2 = -1`,
`36 % 6 == 0`).  `gen_brent_poly` returns the single candidate of the `r = 6` branch,
with `c[4..0] = (1, 0, -1, 0, 1)` and `m = 2^6` whatever the sign; its value
`f(2^6) = 16773121` does not divide `2^36 - 1` (it divides `2^36 + 1`, as
`f(m) * (m^2 + 1) = m^6 + 1` for every `m`), and the candidate is not valid. -/
theorem reduction6_ignores_sign :
    gen_brent_poly brent36 = ([reduction6 brent36], 1) ∧
    [getC (reduction6 brent36).c 4, getC (reduction6 brent36).c 3,
      getC (reduction6 brent36).c 2, getC (reduction6 brent36).c 1,
      getC (reduction6 brent36).c 0] = [1, 0, -1, 0, 1] ∧
    (reduction6 brent36).poly.m = 2 ^ 6 ∧
    algValue (reduction6 brent36).c 4 (2 ^ 6) = 16773121 ∧
    ¬ (algValue (reduction6 brent36).c 4 (2 ^ 6) ∣ 2 ^ 36 - 1) ∧
    algValue (reduction6 brent36).c 4 (2 ^ 6) ∣ 2 ^ 36 + 1 ∧
    (∀ m : Int, algValue (reduction6 brent36).c 4 m * (m ^ 2 + 1) = m ^ 6 + 1) ∧
    (reduction6 brent36).valid = 0 := by
  have hc : (reduction6 brent36).c = [1, 0, -1, 0, 1, 0, 0, 0] := by decide!
  have hval : ∀ m : Int, algValue [1, 0, -1, 0, 1, 0, 0, 0] 4 m = 1 - m ^ 2 + m ^ 4 := by
    intro m
    simp [algValue, Finset.sum_range_succ, getC]
    ring
  refine ⟨by decide!, by rw [hc]; rfl, by decide!, ?_, ?_, ?_, ?_, by decide!⟩
  · rw [hc, hval]; norm_num
  · rw [hc, hval]; norm_num
  · rw [hc, hval]; norm_num
  · intro m
    rw [hc, hval]; ring

/-- With `coeff1 = 1` and an exponent `e ≥ 0` with `e % 6 == 3` that is no multiple of
15 or 21, the branch chain of `gen_brent_poly` reaches the branch `exp1 % 6 == 3`. -/
theorem gen_brent_poly_branch_3 (poly : snfs_t) (h1 : poly.coeff1 = 1)
    (h15 : poly.exp1.tmod 15 ≠ 0) (h21 : poly.exp1.tmod 21 ≠ 0)
    (h3 : poly.exp1.tmod 6 = 3) :
    gen_brent_poly poly = ([reduction3 poly], 1) := by
  have n15 : ¬ (poly.exp1.tmod 15 = 0 ∧ poly.coeff1 = 1) := fun h => h15 h.1
  have n21 : ¬ (poly.exp1.tmod 21 = 0 ∧ poly.coeff1 = 1) := fun h => h21 h.1
  have n6 : ¬ (poly.exp1.tmod 6 = 0 ∧ poly.coeff1 = 1) := by
    intro h; rw [h3] at h; exact absurd h.1 (by decide)
  unfold gen_brent_poly
  rw [if_neg n15, if_neg n21, if_neg n6, if_pos ⟨h3, h1⟩]

/-- C22. Reduction `r = 6` with `e mod 6 = 3` for a non-homogeneous descriptor
`b^e + s` with `coeff1 = 1`, `s = coeff2 = ±1`, `0 ≤ b`, `b^2 < 2^31`, `0 ≤ e` no
multiple of 15 or 21 (so that no earlier branch fires) and `N > 0`: the function
returns the single candidate of that branch; with `k = (e - 3) / 6` its coefficients are
`(c[4], c[3], c[2], c[1], c[0]) = (b^2, 0, -b*s, 0, 1)`, `m = b^k`, and
`f(m) * (b^(2k+1) + s) = b^e + s`. -/
theorem reduction3_spec (poly : snfs_t) (_hN : 0 < poly.n)
    (hf : poly.form_type ≠ SNFS_H_CUNNINGHAM) (h1 : poly.coeff1 = 1)
    (hs : poly.coeff2 = 1 ∨ poly.coeff2 = -1)
    (hb : 0 ≤ poly.base1 ∧ poly.base1 * poly.base1 < 2147483648)
    (he : 0 ≤ poly.exp1 ∧ poly.exp1 < 2147483648)
    (h15 : poly.exp1.tmod 15 ≠ 0) (h21 : poly.exp1.tmod 21 ≠ 0)
    (h3 : poly.exp1.tmod 6 = 3) :
    gen_brent_poly poly = ([reduction3 poly], 1) ∧
    [getC (reduction3 poly).c 4, getC (reduction3 poly).c 3, getC (reduction3 poly).c 2,
      getC (reduction3 poly).c 1, getC (reduction3 poly).c 0] =
      [poly.base1 ^ 2, 0, -(poly.base1 * poly.coeff2), 0, 1] ∧
    (reduction3 poly).poly.m = poly.base1 ^ ((poly.exp1 - 3) / 6).toNat ∧
    algValue (reduction3 poly).c 4 (reduction3 poly).poly.m *
        (poly.base1 ^ (2 * ((poly.exp1 - 3) / 6).toNat + 1) + poly.coeff2) =
      poly.base1 ^ poly.exp1.toNat + poly.coeff2 := by
  obtain ⟨hb0, hb1⟩ := hb
  obtain ⟨he0, he1⟩ := he
  have hm : poly.exp1 % 6 = 3 := by
    rw [← Int.tmod_eq_emod he0 (by norm_num)]; exact h3
  have hbb : poly.base1 < 2147483648 := by nlinarith
  have hw : wrap32 (poly.exp1 - 3) = poly.exp1 - 3 := wrap32_of_range _ (by omega) (by omega)
  have htd : (poly.exp1 - 3).tdiv 6 = (poly.exp1 - 3) / 6 :=
    Int.tdiv_eq_ediv (by omega) (by norm_num)
  have hk0 : 0 ≤ (poly.exp1 - 3) / 6 := by omega
  have hM : mpz_pow_ui (toULong poly.base1) ((poly.exp1 - 3) / 6) =
      poly.base1 ^ ((poly.exp1 - 3) / 6).toNat :=
    mpz_pow_ui_of_nonneg _ _ hb0 (by omega) hk0 (by omega)
  have hexp : poly.exp1.toNat = 6 * ((poly.exp1 - 3) / 6).toNat + 3 := by omega
  have hw4 : wrap32 (poly.base1 * poly.base1) = poly.base1 * poly.base1 :=
    wrap32_of_range _ (by nlinarith) hb1
  have hw2 : wrap32 (poly.base1 * wrap32 (-poly.coeff2)) = -(poly.base1 * poly.coeff2) := by
    rcases hs with h | h <;> rw [h]
    · have : wrap32 (-1) = -1 := by decide
      rw [this, wrap32_of_range _ (by omega) (by omega)]; ring
    · have : wrap32 (- -1) = 1 := by decide
      rw [this, wrap32_of_range _ (by omega) (by omega)]; ring
  have hcs : List.foldl (fun c (iv : Nat × Int) => setC c iv.1 iv.2) zeroCoeffs
      [(4, wrap32 (poly.base1 * poly.base1)),
       (2, wrap32 (poly.base1 * wrap32 (-poly.coeff2))), (0, 1)] =
      [1, 0, -(poly.base1 * poly.coeff2), 0, poly.base1 * poly.base1, 0, 0, 0] := by
    rw [hw4, hw2]; rfl
  have hc := (reductionCandidate_c poly 4 ((wrap32 (poly.exp1 - 3)).tdiv 6)
    [(4, wrap32 (poly.base1 * poly.base1)),
     (2, wrap32 (poly.base1 * wrap32 (-poly.coeff2))), (0, 1)] false).2
  have hrange : ∀ x ∈ List.foldl (fun c (iv : Nat × Int) => setC c iv.1 iv.2) zeroCoeffs
      [(4, wrap32 (poly.base1 * poly.base1)),
       (2, wrap32 (poly.base1 * wrap32 (-poly.coeff2))), (0, 1)],
      -2147483648 < x ∧ x < 2147483648 := by
    rw [hcs]
    intro x hx
    simp only [List.mem_cons, List.mem_singleton, List.not_mem_nil, or_false] at hx
    have hsq : 0 ≤ poly.base1 * poly.base1 := by nlinarith
    rcases hs with h | h <;> rw [h] at hx <;>
      rcases hx with hx | hx | hx | hx | hx | hx | hx | hx <;> subst hx <;> omega
  obtain ⟨sm, -, -, -⟩ := straight_reduction_spec poly 4 ((wrap32 (poly.exp1 - 3)).tdiv 6)
    _ hf hrange
  rw [hw, htd, hM] at sm
  rw [hcs, hw, htd] at hc
  have hval : ∀ m : Int,
      algValue [1, 0, -(poly.base1 * poly.coeff2), 0, poly.base1 * poly.base1, 0, 0, 0] 4 m =
      1 + -(poly.base1 * poly.coeff2) * m ^ 2 + poly.base1 * poly.base1 * m ^ 4 := by
    intro m
    simp [algValue, Finset.sum_range_succ, getC]
  refine ⟨gen_brent_poly_branch_3 poly h1 h15 h21 h3, ?_, ?_, ?_⟩
  · unfold reduction3
    rw [hw, htd, hc]
    simp only [getC, List.getD_cons_succ, List.getD_cons_zero]
    rw [sq]
  · unfold reduction3
    rw [hw, htd]; exact sm
  · unfold reduction3
    rw [hw, htd, hc, sm, hval, hexp]
    rcases hs with h | h <;> rw [h] <;> ring

/-- Witness for C22: the descriptor `2^33 + 1` (`k = 5`, quartic `4 x^4 - 2 x^2 + 1`,
`m = 2^5`). -/
theorem reduction3_spec_witness :
    (0 < brent2_33.n ∧ brent2_33.form_type ≠ SNFS_H_CUNNINGHAM ∧ brent2_33.coeff1 = 1 ∧
      (brent2_33.coeff2 = 1 ∨ brent2_33.coeff2 = -1) ∧
      (0 ≤ brent2_33.base1 ∧ brent2_33.base1 * brent2_33.base1 < 2147483648) ∧
      (0 ≤ brent2_33.exp1 ∧ brent2_33.exp1 < 2147483648) ∧
      brent2_33.exp1.tmod 15 ≠ 0 ∧ brent2_33.exp1.tmod 21 ≠ 0 ∧ brent2_33.exp1.tmod 6 = 3) ∧
    gen_brent_poly brent2_33 = ([reduction3 brent2_33], 1) ∧
    [getC (reduction3 brent2_33).c 4, getC (reduction3 brent2_33).c 3,
      getC (reduction3 brent2_33).c 2, getC (reduction3 brent2_33).c 1,
      getC (reduction3 brent2_33).c 0] =
      [brent2_33.base1 ^ 2, 0, -(brent2_33.base1 * brent2_33.coeff2), 0, 1] :=
  ⟨⟨by decide, by decide, by decide, by decide, by decide, by decide, by decide, by decide,
      by decide⟩,
   (reduction3_spec brent2_33 (by decide) (by decide) (by decide) (by decide) (by decide)
      (by decide) (by decide) (by decide) (by decide)).1,
   (reduction3_spec brent2_33 (by decide) (by decide) (by decide) (by decide) (by decide)
      (by decide) (by decide) (by decide) (by decide)).2.1⟩

/-! ## The halved-degree branches -/

/-- The coefficients written by the four halved-degree branches when `coeff2 = ±1`. -/
theorem halved_coefficients (poly : snfs_t) (hs : poly.coeff2 = 1 ∨ poly.coeff2 = -1) :
    (reduction15 poly).c =
      [1, -4 * poly.coeff2, -4, poly.coeff2, 1, 0, 0, 0] ∧
    (reduction21 poly).c =
      [1, 8 * poly.coeff2, 8, -6 * poly.coeff2, -6, poly.coeff2, 1, 0] ∧
    (reduction11 poly).c =
      [-poly.coeff2, 3, 3 * poly.coeff2, -4, -poly.coeff2, 1, 0, 0] ∧
    (reduction13 poly).c =
      [-1, -3 * poly.coeff2, 6, 4 * poly.coeff2, -5, -poly.coeff2, 1, 0] := by
  unfold reduction15 reduction21 reduction11 reduction13
  simp only [(reductionCandidate_c poly _ _ _ _).2]
  rcases hs with h | h <;> rw [h] <;> exact ⟨rfl, rfl, rfl, rfl⟩

theorem algValueIn_list4 {K : Type} [Field K] (a0 a1 a2 a3 a4 a5 a6 a7 : Int) (x : K) :
    algValueIn [a0, a1, a2, a3, a4, a5, a6, a7] 4 x =
      a0 + a1 * x + a2 * x ^ 2 + a3 * x ^ 3 + a4 * x ^ 4 := by
  simp [algValueIn, Finset.sum_range_succ, getC]

theorem algValueIn_list5 {K : Type} [Field K] (a0 a1 a2 a3 a4 a5 a6 a7 : Int) (x : K) :
    algValueIn [a0, a1, a2, a3, a4, a5, a6, a7] 5 x =
      a0 + a1 * x + a2 * x ^ 2 + a3 * x ^ 3 + a4 * x ^ 4 + a5 * x ^ 5 := by
  simp [algValueIn, Finset.sum_range_succ, getC]

theorem algValueIn_list6 {K : Type} [Field K] (a0 a1 a2 a3 a4 a5 a6 a7 : Int) (x : K) :
    algValueIn [a0, a1, a2, a3, a4, a5, a6, a7] 6 x =
      a0 + a1 * x + a2 * x ^ 2 + a3 * x ^ 3 + a4 * x ^ 4 + a5 * x ^ 5 + a6 * x ^ 6 := by
  simp [algValueIn, Finset.sum_range_succ, getC]

/-- Clearing the denominators of a power of `t + 1/t`. -/
theorem halving_power {K : Type} [Field K] (t : K) (ht : t ≠ 0) (j : Nat) :
    (t + 1 / t) ^ j * t ^ j = (t ^ 2 + 1) ^ j := by
  rw [← mul_pow]
  congr 1
  field_simp
  ring

/-- C24. Halved reductions `r = 15` and `r = 21` with `s = coeff2 = ±1`: the
coefficients of the constructed polynomial `f`, highest first, are `(1, s, -4, -4s, 1)`
resp. `(1, s, -6, -6s, 8, 8s, 1)`, and for every nonzero `t` of a field
`t^4 f(t + 1/t) (t^5 + s) (t^3 + s) = (t^15 + s) (t + s)` resp.
`t^6 f(t + 1/t) (t^7 + s) (t^3 + s) = (t^21 + s) (t + s)`. -/
theorem halved_15_21_identity {K : Type} [Field K] (poly : snfs_t)
    (hs : poly.coeff2 = 1 ∨ poly.coeff2 = -1) (t : K) (ht : t ≠ 0) :
    [getC (reduction15 poly).c 4, getC (reduction15 poly).c 3, getC (reduction15 poly).c 2,
      getC (reduction15 poly).c 1, getC (reduction15 poly).c 0] =
      [1, poly.coeff2, -4, -4 * poly.coeff2, 1] ∧
    t ^ 4 * algValueIn (reduction15 poly).c 4 (t + 1 / t) *
        (t ^ 5 + (poly.coeff2 : K)) * (t ^ 3 + (poly.coeff2 : K)) =
      (t ^ 15 + (poly.coeff2 : K)) * (t + (poly.coeff2 : K)) ∧
    [getC (reduction21 poly).c 6, getC (reduction21 poly).c 5, getC (reduction21 poly).c 4,
      getC (reduction21 poly).c 3, getC (reduction21 poly).c 2, getC (reduction21 poly).c 1,
      getC (reduction21 poly).c 0] =
      [1, poly.coeff2, -6, -6 * poly.coeff2, 8, 8 * poly.coeff2, 1] ∧
    t ^ 6 * algValueIn (reduction21 poly).c 6 (t + 1 / t) *
        (t ^ 7 + (poly.coeff2 : K)) * (t ^ 3 + (poly.coeff2 : K)) =
      (t ^ 21 + (poly.coeff2 : K)) * (t + (poly.coeff2 : K)) := by
  obtain ⟨c15, c21, -, -⟩ := halved_coefficients poly hs
  rw [c15, c21, algValueIn_list4, algValueIn_list6]
  have k1 := halving_power t ht 1
  have k2 := halving_power t ht 2
  have k3 := halving_power t ht 3
  have k4 := halving_power t ht 4
  have k5 := halving_power t ht 5
  have k6 := halving_power t ht 6
  generalize t + 1 / t = y at k1 k2 k3 k4 k5 k6 ⊢
  refine ⟨rfl, ?_, rfl, ?_⟩
  · rcases hs with h | h <;> rw [h] <;> push_cast
    · linear_combination (-4 * t ^ 3 * k1 - 4 * t ^ 2 * k2 + t * k3 + k4) *
        (t ^ 5 + 1) * (t ^ 3 + 1)
    · linear_combination (4 * t ^ 3 * k1 - 4 * t ^ 2 * k2 - t * k3 + k4) *
        (t ^ 5 - 1) * (t ^ 3 - 1)
  · rcases hs with h | h <;> rw [h] <;> push_cast
    · linear_combination (8 * t ^ 5 * k1 + 8 * t ^ 4 * k2 - 6 * t ^ 3 * k3 - 6 * t ^ 2 * k4
        + t * k5 + k6) * (t ^ 7 + 1) * (t ^ 3 + 1)
    · linear_combination (-8 * t ^ 5 * k1 + 8 * t ^ 4 * k2 + 6 * t ^ 3 * k3 - 6 * t ^ 2 * k4
        - t * k5 + k6) * (t ^ 7 - 1) * (t ^ 3 - 1)

/-- Witness for C24: the descriptor `3^165 - 1` (`s = -1`) at `t = 2` in the
rationals. -/
theorem halved_15_21_identity_witness :
    ((brent165.coeff2 = 1 ∨ brent165.coeff2 = -1) ∧ (2 : ℚ) ≠ 0) ∧
    (2 : ℚ) ^ 4 * algValueIn (reduction15 brent165).c 4 ((2 : ℚ) + 1 / 2) *
        ((2 : ℚ) ^ 5 + (brent165.coeff2 : ℚ)) * ((2 : ℚ) ^ 3 + (brent165.coeff2 : ℚ)) =
      ((2 : ℚ) ^ 15 + (brent165.coeff2 : ℚ)) * ((2 : ℚ) + (brent165.coeff2 : ℚ)) :=
  ⟨⟨by decide, by norm_num⟩,
   (halved_15_21_identity brent165 (by decide) (2 : ℚ) (by norm_num)).2.1⟩

/-- The candidate of a halved-degree branch for a non-homogeneous descriptor: with
`t = base1^k` and `u` what `mpz_invert` leaves in the local `m`, the root is `t + u`,
the rational polynomial is `-t x + (t^2 + 1)`, and `valid` is decided by the two
residues. -/
theorem halved_reduction_spec (poly : snfs_t) (deg k : Int) (coeffs : List (Nat × Int))
    (hf : poly.form_type ≠ SNFS_H_CUNNINGHAM) :
    (reductionCandidate poly deg k coeffs true).poly.m =
      mpz_pow_ui (toULong poly.base1) k +
        mpz_invert (toULong poly.base1) (mpz_pow_ui (toULong poly.base1) k) poly.n ∧
    getC (reductionCandidate poly deg k coeffs true).poly.rat.coeff 1 =
      -mpz_pow_ui (toULong poly.base1) k ∧
    getC (reductionCandidate poly deg k coeffs true).poly.rat.coeff 0 =
      mpz_pow_ui (toULong poly.base1) k * mpz_pow_ui (toULong poly.base1) k + 1 ∧
    (reductionCandidate poly deg k coeffs true).n = poly.n ∧
    ((∀ x ∈ coeffs.foldl (fun c iv => setC c iv.1 iv.2) zeroCoeffs,
        -2147483648 < x ∧ x < 2147483648) →
      (reductionCandidate poly deg k coeffs true).valid =
        (if algValue (coeffs.foldl (fun c iv => setC c iv.1 iv.2) zeroCoeffs) deg
              (mpz_pow_ui (toULong poly.base1) k +
                mpz_invert (toULong poly.base1) (mpz_pow_ui (toULong poly.base1) k) poly.n)
              % poly.n = 0 ∧
            (-mpz_pow_ui (toULong poly.base1) k *
              (mpz_pow_ui (toULong poly.base1) k +
                mpz_invert (toULong poly.base1) (mpz_pow_ui (toULong poly.base1) k) poly.n) +
              (mpz_pow_ui (toULong poly.base1) k * mpz_pow_ui (toULong poly.base1) k + 1))
              % poly.n = 0
         then 1 else 0)) := by
  have hlen : 2 ≤ (copyCoeffs poly.poly.rat.degree poly.poly.rat.coeff zeroCoeffs).length := by
    rw [copyCoeffs_length, zeroCoeffs_length]; norm_num
  obtain ⟨g1, g0⟩ := getC_setRat (copyCoeffs poly.poly.rat.degree poly.poly.rat.coeff zeroCoeffs)
    (-mpz_pow_ui (toULong poly.base1) k)
    (mpz_pow_ui (toULong poly.base1) k * mpz_pow_ui (toULong poly.base1) k + 1) hlen
  obtain ⟨cand, hcand⟩ : ∃ cand : snfs_t, cand =
      setM (setRat (setM { setAlgDegree (snfs_copy_poly poly snfs_init) deg with
          c := coeffs.foldl (fun c iv => setC c iv.1 iv.2) zeroCoeffs }
        (mpz_pow_ui (toULong poly.base1) k))
        (-mpz_pow_ui (toULong poly.base1) k)
        (mpz_pow_ui (toULong poly.base1) k * mpz_pow_ui (toULong poly.base1) k + 1))
        (mpz_pow_ui (toULong poly.base1) k +
          mpz_invert (toULong poly.base1) (mpz_pow_ui (toULong poly.base1) k) poly.n) :=
    ⟨_, rfl⟩
  have hred : reductionCandidate poly deg k coeffs true = check_poly cand := by
    subst hcand
    unfold reductionCandidate halvedRat
    simp only [if_true, if_neg hf]
    rfl
  have hcc : cand.c = coeffs.foldl (fun c iv => setC c iv.1 iv.2) zeroCoeffs := by
    rw [hcand]; rfl
  have hcdg : cand.poly.alg.degree = deg := by rw [hcand]; rfl
  have hcm : cand.poly.m = mpz_pow_ui (toULong poly.base1) k +
      mpz_invert (toULong poly.base1) (mpz_pow_ui (toULong poly.base1) k) poly.n := by
    rw [hcand]; rfl
  have hcn : cand.n = poly.n := by rw [hcand]; rfl
  have hcr : cand.poly.rat.coeff = setC (setC (copyCoeffs poly.poly.rat.degree
      poly.poly.rat.coeff zeroCoeffs) 1 (-mpz_pow_ui (toULong poly.base1) k)) 0
      (mpz_pow_ui (toULong poly.base1) k * mpz_pow_ui (toULong poly.base1) k + 1) := by
    rw [hcand]; rfl
  rw [hred, check_poly_m, check_poly_rat, check_poly_n, hcm, hcr, hcn]
  refine ⟨rfl, g1, g0, rfl, ?_⟩
  intro hc
  rw [check_poly_valid, hornerResidue_eq cand (by rw [hcc]; exact hc)]
  unfold ratResidue
  rw [hcc, hcdg, hcm, hcn, hcr, g1, g0]

/-- The rational side of a halved-degree branch with `k = exp1 / r` for a
non-homogeneous descriptor whose base is prime to `N > 1`: `rat[1] = -b^k`,
`rat[0] = b^(2k) + 1`, `m = b^k + u` with `u` the inverse of `b^k` in `[0, N)`, and the
rational residue vanishes. -/
theorem halved_rational_generic (poly : snfs_t) (deg r : Int) (coeffs : List (Nat × Int))
    (hr : 0 < r) (hN : 1 < poly.n) (hf : poly.form_type ≠ SNFS_H_CUNNINGHAM)
    (hg : Int.gcd poly.base1 poly.n = 1)
    (hb : 0 ≤ poly.base1 ∧ poly.base1 < 2147483648)
    (he : 0 ≤ poly.exp1 ∧ poly.exp1 < 2147483648) :
    getC (reductionCandidate poly deg (poly.exp1.tdiv r) coeffs true).poly.rat.coeff 1 =
      -(poly.base1 ^ (poly.exp1 / r).toNat) ∧
    getC (reductionCandidate poly deg (poly.exp1.tdiv r) coeffs true).poly.rat.coeff 0 =
      poly.base1 ^ (2 * (poly.exp1 / r).toNat) + 1 ∧
    (poly.base1 ^ (poly.exp1 / r).toNat *
      ((reductionCandidate poly deg (poly.exp1.tdiv r) coeffs true).poly.m -
        poly.base1 ^ (poly.exp1 / r).toNat)) % poly.n = 1 ∧
    (0 ≤ (reductionCandidate poly deg (poly.exp1.tdiv r) coeffs true).poly.m -
        poly.base1 ^ (poly.exp1 / r).toNat ∧
      (reductionCandidate poly deg (poly.exp1.tdiv r) coeffs true).poly.m -
        poly.base1 ^ (poly.exp1 / r).toNat < poly.n) ∧
    ratValue (reductionCandidate poly deg (poly.exp1.tdiv r) coeffs true).poly.rat.coeff
      (reductionCandidate poly deg (poly.exp1.tdiv r) coeffs true).poly.m % poly.n = 0 ∧
    ratResidue (reductionCandidate poly deg (poly.exp1.tdiv r) coeffs true) = 0 := by
  obtain ⟨hb0, hb1⟩ := hb
  obtain ⟨he0, he1⟩ := he
  have htd : poly.exp1.tdiv r = poly.exp1 / r := Int.tdiv_eq_ediv he0 (le_of_lt hr)
  have hk0 : 0 ≤ poly.exp1 / r := Int.ediv_nonneg he0 (le_of_lt hr)
  have hk1 : poly.exp1 / r ≤ poly.exp1 := Int.ediv_le_self _ he0
  have hT : mpz_pow_ui (toULong poly.base1) (poly.exp1 / r) =
      poly.base1 ^ (poly.exp1 / r).toNat :=
    mpz_pow_ui_of_nonneg _ _ hb0 (by omega) hk0 (by omega)
  have hcop : Int.gcd (poly.base1 ^ (poly.exp1 / r).toNat) poly.n = 1 := by
    rw [← Int.isCoprime_iff_gcd_eq_one] at hg ⊢
    exact hg.pow_left
  obtain ⟨u0, u1, u2⟩ := mpz_invert_spec (toULong poly.base1)
    (poly.base1 ^ (poly.exp1 / r).toNat) poly.n (by omega) hcop
  have habs : |poly.n| = poly.n := abs_of_pos (by omega)
  rw [habs] at u1
  have h1 : (1 : Int) % poly.n = 1 := Int.emod_eq_of_lt (by norm_num) hN
  rw [h1] at u2
  obtain ⟨sm, sr1, sr0, sn, -⟩ := halved_reduction_spec poly deg (poly.exp1.tdiv r) coeffs hf
  rw [htd, hT] at sm sr1 sr0
  rw [htd] at sn
  rw [htd]
  have hdiff : (reductionCandidate poly deg (poly.exp1 / r) coeffs true).poly.m -
      poly.base1 ^ (poly.exp1 / r).toNat =
      mpz_invert (toULong poly.base1) (poly.base1 ^ (poly.exp1 / r).toNat) poly.n := by
    rw [sm]; ring
  have hrv : ratValue (reductionCandidate poly deg (poly.exp1 / r) coeffs true).poly.rat.coeff
      (reductionCandidate poly deg (poly.exp1 / r) coeffs true).poly.m % poly.n = 0 := by
    unfold ratValue
    rw [sr1, sr0, sm]
    apply Int.emod_eq_zero_of_dvd
    have hm : poly.base1 ^ (poly.exp1 / r).toNat *
        mpz_invert (toULong poly.base1) (poly.base1 ^ (poly.exp1 / r).toNat) poly.n
        ≡ 1 [ZMOD poly.n] := by
      unfold Int.ModEq; rw [u2, h1]
    have hd := hm.dvd
    have e : -(poly.base1 ^ (poly.exp1 / r).toNat) *
        (poly.base1 ^ (poly.exp1 / r).toNat +
          mpz_invert (toULong poly.base1) (poly.base1 ^ (poly.exp1 / r).toNat) poly.n) +
        (poly.base1 ^ (poly.exp1 / r).toNat * poly.base1 ^ (poly.exp1 / r).toNat + 1) =
        1 - poly.base1 ^ (poly.exp1 / r).toNat *
          mpz_invert (toULong poly.base1) (poly.base1 ^ (poly.exp1 / r).toNat) poly.n := by
      ring
    rw [e]; exact hd
  refine ⟨sr1, ?_, ?_, ?_, hrv, ?_⟩
  · rw [sr0, two_mul, pow_add]
  · rw [hdiff]; exact u2
  · rw [hdiff]; exact ⟨u0, u1⟩
  · unfold ratResidue
    rw [sn]
    exact hrv

/-- C25. Halved non-homogeneous branches (15, 21, 11, 13), `k = exp1 / r`: for
`N > 1` prime to the base `b` (`0 ≤ b`, `0 ≤ exp1`), each branch sets `rat[1] = -b^k`,
`rat[0] = b^(2k) + 1` and `m = b^k + u` where `u` in `[0, N)` is the inverse of `b^k`
modulo `N`; therefore `rat[1] * m + rat[0]` is `0` modulo `N` and the rational check of
`check_poly` passes. -/
theorem halved_rational_check (poly : snfs_t) (hN : 1 < poly.n)
    (hf : poly.form_type ≠ SNFS_H_CUNNINGHAM) (hg : Int.gcd poly.base1 poly.n = 1)
    (hb : 0 ≤ poly.base1 ∧ poly.base1 < 2147483648)
    (he : 0 ≤ poly.exp1 ∧ poly.exp1 < 2147483648) :
    ∀ cr ∈ [(reduction15 poly, (15 : Int)), (reduction21 poly, 21), (reduction11 poly, 11),
        (reduction13 poly, 13)],
      getC cr.1.poly.rat.coeff 1 = -(poly.base1 ^ (poly.exp1 / cr.2).toNat) ∧
      getC cr.1.poly.rat.coeff 0 = poly.base1 ^ (2 * (poly.exp1 / cr.2).toNat) + 1 ∧
      (poly.base1 ^ (poly.exp1 / cr.2).toNat *
        (cr.1.poly.m - poly.base1 ^ (poly.exp1 / cr.2).toNat)) % poly.n = 1 ∧
      (0 ≤ cr.1.poly.m - poly.base1 ^ (poly.exp1 / cr.2).toNat ∧
        cr.1.poly.m - poly.base1 ^ (poly.exp1 / cr.2).toNat < poly.n) ∧
      ratValue cr.1.poly.rat.coeff cr.1.poly.m % poly.n = 0 ∧
      ratResidue cr.1 = 0 := by
  intro cr hcr
  simp only [List.mem_cons, List.mem_singleton, List.not_mem_nil, or_false] at hcr
  rcases hcr with h | h | h | h <;> subst h
  · exact halved_rational_generic poly 4 15 _ (by norm_num) hN hf hg hb he
  · exact halved_rational_generic poly 6 21 _ (by norm_num) hN hf hg hb he
  · exact halved_rational_generic poly 5 11 _ (by norm_num) hN hf hg hb he
  · exact halved_rational_generic poly 6 13 _ (by norm_num) hN hf hg hb he

/-- Witness for C25: the descriptor `2^11 - 1` with `N = 2047` in the branch `r = 11`:
`rat = -2 x + 5` and `m = 2 + 1024`. -/
theorem halved_rational_check_witness :
    (1 < brent2_11.n ∧ brent2_11.form_type ≠ SNFS_H_CUNNINGHAM ∧
      Int.gcd brent2_11.base1 brent2_11.n = 1 ∧
      (0 ≤ brent2_11.base1 ∧ brent2_11.base1 < 2147483648) ∧
      (0 ≤ brent2_11.exp1 ∧ brent2_11.exp1 < 2147483648)) ∧
    ratValue (reduction11 brent2_11).poly.rat.coeff (reduction11 brent2_11).poly.m
      % brent2_11.n = 0 ∧
    ratResidue (reduction11 brent2_11) = 0 :=
  ⟨⟨by decide, by decide, by decide, by decide, by decide⟩,
   (halved_rational_check brent2_11 (by decide) (by decide) (by decide) (by decide)
      (by decide) (reduction11 brent2_11, 11) (by simp)).2.2.2.2.1,
   (halved_rational_check brent2_11 (by decide) (by decide) (by decide) (by decide)
      (by decide) (reduction11 brent2_11, 11) (by simp)).2.2.2.2.2⟩

theorem algValue_list5 (a0 a1 a2 a3 a4 a5 a6 a7 : Int) (x : Int) :
    algValue [a0, a1, a2, a3, a4, a5, a6, a7] 5 x =
      a0 + a1 * x + a2 * x ^ 2 + a3 * x ^ 3 + a4 * x ^ 4 + a5 * x ^ 5 := by
  simp [algValue, Finset.sum_range_succ, getC]

theorem algValue_list6 (a0 a1 a2 a3 a4 a5 a6 a7 : Int) (x : Int) :
    algValue [a0, a1, a2, a3, a4, a5, a6, a7] 6 x =
      a0 + a1 * x + a2 * x ^ 2 + a3 * x ^ 3 + a4 * x ^ 4 + a5 * x ^ 5 + a6 * x ^ 6 := by
  simp [algValue, Finset.sum_range_succ, getC]

/-- Modulo `N`, with `t u ≡ 1`: `((t + u) t)^j ≡ (t^2 + 1)^j`. -/
theorem halving_power_mod (N t u : Int) (h : N ∣ t * u - 1) (j : Nat) :
    N ∣ ((t + u) * t) ^ j - (t ^ 2 + 1) ^ j := by
  have hm : t ^ 2 + 1 ≡ (t + u) * t [ZMOD N] := by
    apply Int.modEq_iff_dvd.mpr
    have e : (t + u) * t - (t ^ 2 + 1) = t * u - 1 := by ring
    rw [e]; exact h
  exact (hm.pow j).dvd

/-- A factor prime to `N` can be cancelled from a multiple of `N`. -/
theorem coprime_cancel (N t f : Int) (D : Nat) (hg : Int.gcd t N = 1) (h : N ∣ f * t ^ D) :
    N ∣ f := by
  have hc : IsCoprime N (t ^ D) := by
    rw [← Int.isCoprime_iff_gcd_eq_one] at hg
    exact hg.symm.pow_right
  exact hc.dvd_of_dvd_mul_right h

/-- The halved quintic at `t + u`, multiplied by `t^5`, is congruent to the degree-10
cofactor in `t`. -/
theorem halved_value_5 (N t u a0 a1 a2 a3 a4 a5 : Int) (h : N ∣ t * u - 1) :
    N ∣ (a0 + a1 * (t + u) + a2 * (t + u) ^ 2 + a3 * (t + u) ^ 3 + a4 * (t + u) ^ 4
          + a5 * (t + u) ^ 5) * t ^ 5 -
        (a0 * t ^ 5 + a1 * t ^ 4 * (t ^ 2 + 1) + a2 * t ^ 3 * (t ^ 2 + 1) ^ 2
          + a3 * t ^ 2 * (t ^ 2 + 1) ^ 3 + a4 * t * (t ^ 2 + 1) ^ 4 + a5 * (t ^ 2 + 1) ^ 5) := by
  obtain ⟨q1, h1⟩ := halving_power_mod N t u h 1
  obtain ⟨q2, h2⟩ := halving_power_mod N t u h 2
  obtain ⟨q3, h3⟩ := halving_power_mod N t u h 3
  obtain ⟨q4, h4⟩ := halving_power_mod N t u h 4
  obtain ⟨q5, h5⟩ := halving_power_mod N t u h 5
  refine ⟨a1 * t ^ 4 * q1 + a2 * t ^ 3 * q2 + a3 * t ^ 2 * q3 + a4 * t * q4 + a5 * q5, ?_⟩
  linear_combination a1 * t ^ 4 * h1 + a2 * t ^ 3 * h2 + a3 * t ^ 2 * h3 + a4 * t * h4 + a5 * h5

/-- The halved sextic at `t + u`, multiplied by `t^6`, is congruent to the degree-12
cofactor in `t`. -/
theorem halved_value_6 (N t u a0 a1 a2 a3 a4 a5 a6 : Int) (h : N ∣ t * u - 1) :
    N ∣ (a0 + a1 * (t + u) + a2 * (t + u) ^ 2 + a3 * (t + u) ^ 3 + a4 * (t + u) ^ 4
          + a5 * (t + u) ^ 5 + a6 * (t + u) ^ 6) * t ^ 6 -
        (a0 * t ^ 6 + a1 * t ^ 5 * (t ^ 2 + 1) + a2 * t ^ 4 * (t ^ 2 + 1) ^ 2
          + a3 * t ^ 3 * (t ^ 2 + 1) ^ 3 + a4 * t ^ 2 * (t ^ 2 + 1) ^ 4
          + a5 * t * (t ^ 2 + 1) ^ 5 + a6 * (t ^ 2 + 1) ^ 6) := by
  obtain ⟨q1, h1⟩ := halving_power_mod N t u h 1
  obtain ⟨q2, h2⟩ := halving_power_mod N t u h 2
  obtain ⟨q3, h3⟩ := halving_power_mod N t u h 3
  obtain ⟨q4, h4⟩ := halving_power_mod N t u h 4
  obtain ⟨q5, h5⟩ := halving_power_mod N t u h 5
  obtain ⟨q6, h6⟩ := halving_power_mod N t u h 6
  refine ⟨a1 * t ^ 5 * q1 + a2 * t ^ 4 * q2 + a3 * t ^ 3 * q3 + a4 * t ^ 2 * q4
    + a5 * t * q5 + a6 * q6, ?_⟩
  linear_combination a1 * t ^ 5 * h1 + a2 * t ^ 4 * h2 + a3 * t ^ 3 * h3 + a4 * t ^ 2 * h4
    + a5 * t * h5 + a6 * h6

/-- The two field identities of the branches 11 and 13. -/
theorem halved_11_13_field {K : Type} [Field K] (poly : snfs_t)
    (hs : poly.coeff2 = 1 ∨ poly.coeff2 = -1) (t : K) (ht : t ≠ 0) :
    t ^ 5 * algValueIn (reduction11 poly).c 5 (t + 1 / t) * (t + (poly.coeff2 : K)) =
      t ^ 11 + (poly.coeff2 : K) ∧
    t ^ 6 * algValueIn (reduction13 poly).c 6 (t + 1 / t) * (t + (poly.coeff2 : K)) =
      t ^ 13 + (poly.coeff2 : K) := by
  obtain ⟨-, -, c11, c13⟩ := halved_coefficients poly hs
  rw [c11, c13, algValueIn_list5, algValueIn_list6]
  have k1 := halving_power t ht 1
  have k2 := halving_power t ht 2
  have k3 := halving_power t ht 3
  have k4 := halving_power t ht 4
  have k5 := halving_power t ht 5
  have k6 := halving_power t ht 6
  generalize t + 1 / t = y at k1 k2 k3 k4 k5 k6 ⊢
  constructor
  · rcases hs with h | h <;> rw [h] <;> push_cast
    · linear_combination (3 * t ^ 4 * k1 + 3 * t ^ 3 * k2 - 4 * t ^ 2 * k3 - t * k4 + k5) *
        (t + 1)
    · linear_combination (3 * t ^ 4 * k1 - 3 * t ^ 3 * k2 - 4 * t ^ 2 * k3 + t * k4 + k5) *
        (t - 1)
  · rcases hs with h | h <;> rw [h] <;> push_cast
    · linear_combination (-3 * t ^ 5 * k1 + 6 * t ^ 4 * k2 + 4 * t ^ 3 * k3 - 5 * t ^ 2 * k4
        - t * k5 + k6) * (t + 1)
    · linear_combination (3 * t ^ 5 * k1 + 6 * t ^ 4 * k2 - 4 * t ^ 3 * k3 - 5 * t ^ 2 * k4
        + t * k5 + k6) * (t - 1)

/-- The candidate of the branch `r = 11` is valid when `N > 1` is prime to the base and
divides the cofactor `(b^e + s) / (b^k + s)`. -/
theorem reduction11_root (poly : snfs_t) (hs : poly.coeff2 = 1 ∨ poly.coeff2 = -1)
    (hN : 1 < poly.n) (hf : poly.form_type ≠ SNFS_H_CUNNINGHAM)
    (hg : Int.gcd poly.base1 poly.n = 1)
    (hb : 0 ≤ poly.base1 ∧ poly.base1 < 2147483648)
    (he : 0 ≤ poly.exp1 ∧ poly.exp1 < 2147483648) (hr : poly.exp1 % 11 = 0)
    (hne : poly.base1 ^ (poly.exp1 / 11).toNat + poly.coeff2 ≠ 0)
    (hQ : poly.n ∣ (poly.base1 ^ poly.exp1.toNat + poly.coeff2) /
      (poly.base1 ^ (poly.exp1 / 11).toNat + poly.coeff2)) :
    algValue (reduction11 poly).c 5 (reduction11 poly).poly.m % poly.n = 0 ∧
    (reduction11 poly).valid = 1 := by
  obtain ⟨-, -, c11, -⟩ := halved_coefficients poly hs
  obtain ⟨r1, r0, ru, -, rv, -⟩ :=
    halved_rational_generic poly 5 11 [(5, 1), (4, wrap32 (wrap32 (-poly.coeff2) * 1)),
      (3, -4), (2, wrap32 (poly.coeff2 * 3)), (1, 3), (0, wrap32 (-poly.coeff2))]
      (by norm_num) hN hf hg hb he
  obtain ⟨sm, s1, s0, -, sv⟩ := halved_reduction_spec poly 5 (poly.exp1.tdiv 11)
    [(5, 1), (4, wrap32 (wrap32 (-poly.coeff2) * 1)),
      (3, -4), (2, wrap32 (poly.coeff2 * 3)), (1, 3), (0, wrap32 (-poly.coeff2))] hf
  have hcc := (reductionCandidate_c poly 5 (poly.exp1.tdiv 11)
    [(5, 1), (4, wrap32 (wrap32 (-poly.coeff2) * 1)),
      (3, -4), (2, wrap32 (poly.coeff2 * 3)), (1, 3), (0, wrap32 (-poly.coeff2))] true).2
  unfold reduction11 at c11 ⊢
  rw [hcc] at c11
  have hrange : ∀ x ∈ List.foldl (fun c (iv : Nat × Int) => setC c iv.1 iv.2) zeroCoeffs
      [(5, 1), (4, wrap32 (wrap32 (-poly.coeff2) * 1)),
        (3, -4), (2, wrap32 (poly.coeff2 * 3)), (1, 3), (0, wrap32 (-poly.coeff2))],
      -2147483648 < x ∧ x < 2147483648 := by
    rw [c11]
    rcases hs with h | h <;> rw [h] <;> decide
  have hv := sv hrange
  -- the root is `t + u` with `t u ≡ 1`
  have hexp : poly.exp1.toNat = (poly.exp1 / 11).toNat * 11 := by omega
  obtain ⟨u, hu⟩ : ∃ u : Int, u = (reductionCandidate poly 5 (poly.exp1.tdiv 11)
      [(5, 1), (4, wrap32 (wrap32 (-poly.coeff2) * 1)),
        (3, -4), (2, wrap32 (poly.coeff2 * 3)), (1, 3), (0, wrap32 (-poly.coeff2))]
      true).poly.m - poly.base1 ^ (poly.exp1 / 11).toNat := ⟨_, rfl⟩
  rw [← hu] at ru
  have hmu : (reductionCandidate poly 5 (poly.exp1.tdiv 11)
      [(5, 1), (4, wrap32 (wrap32 (-poly.coeff2) * 1)),
        (3, -4), (2, wrap32 (poly.coeff2 * 3)), (1, 3), (0, wrap32 (-poly.coeff2))]
      true).poly.m = poly.base1 ^ (poly.exp1 / 11).toNat + u := by rw [hu]; ring
  have htu : poly.n ∣ poly.base1 ^ (poly.exp1 / 11).toNat * u - 1 := by
    have h1 : (1 : Int) % poly.n = 1 := Int.emod_eq_of_lt (by norm_num) hN
    have hm : (1 : Int) ≡ poly.base1 ^ (poly.exp1 / 11).toNat * u [ZMOD poly.n] := by
      unfold Int.ModEq; rw [ru, h1]
    exact hm.dvd
  have hcop : Int.gcd (poly.base1 ^ (poly.exp1 / 11).toNat) poly.n = 1 := by
    rw [← Int.isCoprime_iff_gcd_eq_one] at hg ⊢
    exact hg.pow_left
  have halg : algValue (List.foldl (fun c (iv : Nat × Int) => setC c iv.1 iv.2) zeroCoeffs
      [(5, 1), (4, wrap32 (wrap32 (-poly.coeff2) * 1)),
        (3, -4), (2, wrap32 (poly.coeff2 * 3)), (1, 3), (0, wrap32 (-poly.coeff2))]) 5
      (poly.base1 ^ (poly.exp1 / 11).toNat + u) % poly.n = 0 := by
    rw [c11, algValue_list5]
    apply Int.emod_eq_zero_of_dvd
    apply coprime_cancel poly.n (poly.base1 ^ (poly.exp1 / 11).toNat) _ 5 hcop
    have hd := halved_value_5 poly.n (poly.base1 ^ (poly.exp1 / 11).toNat) u
      (-poly.coeff2) 3 (3 * poly.coeff2) (-4) (-poly.coeff2) 1 htu
    have hP : (-poly.coeff2 * (poly.base1 ^ (poly.exp1 / 11).toNat) ^ 5
        + 3 * (poly.base1 ^ (poly.exp1 / 11).toNat) ^ 4 *
          ((poly.base1 ^ (poly.exp1 / 11).toNat) ^ 2 + 1)
        + 3 * poly.coeff2 * (poly.base1 ^ (poly.exp1 / 11).toNat) ^ 3 *
          ((poly.base1 ^ (poly.exp1 / 11).toNat) ^ 2 + 1) ^ 2
        + -4 * (poly.base1 ^ (poly.exp1 / 11).toNat) ^ 2 *
          ((poly.base1 ^ (poly.exp1 / 11).toNat) ^ 2 + 1) ^ 3
        + -poly.coeff2 * (poly.base1 ^ (poly.exp1 / 11).toNat) *
          ((poly.base1 ^ (poly.exp1 / 11).toNat) ^ 2 + 1) ^ 4
        + 1 * ((poly.base1 ^ (poly.exp1 / 11).toNat) ^ 2 + 1) ^ 5) *
        (poly.base1 ^ (poly.exp1 / 11).toNat + poly.coeff2) =
        poly.base1 ^ poly.exp1.toNat + poly.coeff2 := by
      rw [hexp, pow_mul]
      rcases hs with h | h <;> rw [h] <;> ring
    rw [← hP, Int.mul_ediv_cancel _ hne] at hQ
    have := dvd_add hd hQ
    simpa using this
  rw [hmu, hcc]
  rw [Int.tdiv_eq_ediv he.1 (by norm_num)] at sm hv ⊢
  rw [mpz_pow_ui_of_nonneg _ _ hb.1 (by omega) (by omega) (by omega)] at sm hv
  rw [hmu] at rv
  have hdiffu : mpz_invert (toULong poly.base1) (poly.base1 ^ (poly.exp1 / 11).toNat) poly.n
      = u := by
    rw [hu, Int.tdiv_eq_ediv he.1 (by norm_num), sm]; ring
  rw [hdiffu] at hv
  refine ⟨halg, ?_⟩
  have hrat : (-poly.base1 ^ (poly.exp1 / 11).toNat *
      (poly.base1 ^ (poly.exp1 / 11).toNat + u) +
      (poly.base1 ^ (poly.exp1 / 11).toNat * poly.base1 ^ (poly.exp1 / 11).toNat + 1))
      % poly.n = 0 := by
    unfold ratValue at rv
    rw [Int.tdiv_eq_ediv he.1 (by norm_num)] at r1 r0 rv
    rw [r1, r0, two_mul, pow_add] at rv
    exact rv
  rw [hv, if_pos ⟨halg, hrat⟩]

/-- The candidate of the branch `r = 13` is valid when `N > 1` is prime to the base and
divides the cofactor `(b^e + s) / (b^k + s)`. -/
theorem reduction13_root (poly : snfs_t) (hs : poly.coeff2 = 1 ∨ poly.coeff2 = -1)
    (hN : 1 < poly.n) (hf : poly.form_type ≠ SNFS_H_CUNNINGHAM)
    (hg : Int.gcd poly.base1 poly.n = 1)
    (hb : 0 ≤ poly.base1 ∧ poly.base1 < 2147483648)
    (he : 0 ≤ poly.exp1 ∧ poly.exp1 < 2147483648) (hr : poly.exp1 % 13 = 0)
    (hne : poly.base1 ^ (poly.exp1 / 13).toNat + poly.coeff2 ≠ 0)
    (hQ : poly.n ∣ (poly.base1 ^ poly.exp1.toNat + poly.coeff2) /
      (poly.base1 ^ (poly.exp1 / 13).toNat + poly.coeff2)) :
    algValue (reduction13 poly).c 6 (reduction13 poly).poly.m % poly.n = 0 ∧
    (reduction13 poly).valid = 1 := by
  obtain ⟨-, -, -, c11⟩ := halved_coefficients poly hs
  obtain ⟨r1, r0, ru, -, rv, -⟩ :=
    halved_rational_generic poly 6 13 [(6, 1), (5, wrap32 (-poly.coeff2)), (4, -5),
      (3, wrap32 (poly.coeff2 * 4)), (2, 6), (1, wrap32 (wrap32 (-poly.coeff2) * 3)), (0, -1)]
      (by norm_num) hN hf hg hb he
  obtain ⟨sm, s1, s0, -, sv⟩ := halved_reduction_spec poly 6 (poly.exp1.tdiv 13)
    [(6, 1), (5, wrap32 (-poly.coeff2)), (4, -5),
      (3, wrap32 (poly.coeff2 * 4)), (2, 6), (1, wrap32 (wrap32 (-poly.coeff2) * 3)), (0, -1)] hf
  have hcc := (reductionCandidate_c poly 6 (poly.exp1.tdiv 13)
    [(6, 1), (5, wrap32 (-poly.coeff2)), (4, -5),
      (3, wrap32 (poly.coeff2 * 4)), (2, 6), (1, wrap32 (wrap32 (-poly.coeff2) * 3)), (0, -1)] true).2
  unfold reduction13 at c11 ⊢
  rw [hcc] at c11
  have hrange : ∀ x ∈ List.foldl (fun c (iv : Nat × Int) => setC c iv.1 iv.2) zeroCoeffs
      [(6, 1), (5, wrap32 (-poly.coeff2)), (4, -5),
        (3, wrap32 (poly.coeff2 * 4)), (2, 6), (1, wrap32 (wrap32 (-poly.coeff2) * 3)), (0, -1)],
      -2147483648 < x ∧ x < 2147483648 := by
    rw [c11]
    rcases hs with h | h <;> rw [h] <;> decide
  have hv := sv hrange
  -- the root is `t + u` with `t u ≡ 1`
  have hexp : poly.exp1.toNat = (poly.exp1 / 13).toNat * 13 := by omega
  obtain ⟨u, hu⟩ : ∃ u : Int, u = (reductionCandidate poly 6 (poly.exp1.tdiv 13)
      [(6, 1), (5, wrap32 (-poly.coeff2)), (4, -5),
        (3, wrap32 (poly.coeff2 * 4)), (2, 6), (1, wrap32 (wrap32 (-poly.coeff2) * 3)), (0, -1)]
      true).poly.m - poly.base1 ^ (poly.exp1 / 13).toNat := ⟨_, rfl⟩
  rw [← hu] at ru
  have hmu : (reductionCandidate poly 6 (poly.exp1.tdiv 13)
      [(6, 1), (5, wrap32 (-poly.coeff2)), (4, -5),
        (3, wrap32 (poly.coeff2 * 4)), (2, 6), (1, wrap32 (wrap32 (-poly.coeff2) * 3)), (0, -1)]
      true).poly.m = poly.base1 ^ (poly.exp1 / 13).toNat + u := by rw [hu]; ring
  have htu : poly.n ∣ poly.base1 ^ (poly.exp1 / 13).toNat * u - 1 := by
    have h1 : (1 : Int) % poly.n = 1 := Int.emod_eq_of_lt (by norm_num) hN
    have hm : (1 : Int) ≡ poly.base1 ^ (poly.exp1 / 13).toNat * u [ZMOD poly.n] := by
      unfold Int.ModEq; rw [ru, h1]
    exact hm.dvd
  have hcop : Int.gcd (poly.base1 ^ (poly.exp1 / 13).toNat) poly.n = 1 := by
    rw [← Int.isCoprime_iff_gcd_eq_one] at hg ⊢
    exact hg.pow_left
  have halg : algValue (List.foldl (fun c (iv : Nat × Int) => setC c iv.1 iv.2) zeroCoeffs
      [(6, 1), (5, wrap32 (-poly.coeff2)), (4, -5),
        (3, wrap32 (poly.coeff2 * 4)), (2, 6), (1, wrap32 (wrap32 (-poly.coeff2) * 3)), (0, -1)]) 6
      (poly.base1 ^ (poly.exp1 / 13).toNat + u) % poly.n = 0 := by
    rw [c11, algValue_list6]
    apply Int.emod_eq_zero_of_dvd
    apply coprime_cancel poly.n (poly.base1 ^ (poly.exp1 / 13).toNat) _ 6 hcop
    have hd := halved_value_6 poly.n (poly.base1 ^ (poly.exp1 / 13).toNat) u
      (-1) (-3 * poly.coeff2) 6 (4 * poly.coeff2) (-5) (-poly.coeff2) 1 htu
    have hP : (-1 * (poly.base1 ^ (poly.exp1 / 13).toNat) ^ 6
        + -3 * poly.coeff2 * (poly.base1 ^ (poly.exp1 / 13).toNat) ^ 5 *
          ((poly.base1 ^ (poly.exp1 / 13).toNat) ^ 2 + 1)
        + 6 * (poly.base1 ^ (poly.exp1 / 13).toNat) ^ 4 *
          ((poly.base1 ^ (poly.exp1 / 13).toNat) ^ 2 + 1) ^ 2
        + 4 * poly.coeff2 * (poly.base1 ^ (poly.exp1 / 13).toNat) ^ 3 *
          ((poly.base1 ^ (poly.exp1 / 13).toNat) ^ 2 + 1) ^ 3
        + -5 * (poly.base1 ^ (poly.exp1 / 13).toNat) ^ 2 *
          ((poly.base1 ^ (poly.exp1 / 13).toNat) ^ 2 + 1) ^ 4
        + -poly.coeff2 * (poly.base1 ^ (poly.exp1 / 13).toNat) *
          ((poly.base1 ^ (poly.exp1 / 13).toNat) ^ 2 + 1) ^ 5
        + 1 * ((poly.base1 ^ (poly.exp1 / 13).toNat) ^ 2 + 1) ^ 6) *
        (poly.base1 ^ (poly.exp1 / 13).toNat + poly.coeff2) =
        poly.base1 ^ poly.exp1.toNat + poly.coeff2 := by
      rw [hexp, pow_mul]
      rcases hs with h | h <;> rw [h] <;> ring
    rw [← hP, Int.mul_ediv_cancel _ hne] at hQ
    have := dvd_add hd hQ
    simpa using this
  rw [hmu, hcc]
  rw [Int.tdiv_eq_ediv he.1 (by norm_num)] at sm hv ⊢
  rw [mpz_pow_ui_of_nonneg _ _ hb.1 (by omega) (by omega) (by omega)] at sm hv
  rw [hmu] at rv
  have hdiffu : mpz_invert (toULong poly.base1) (poly.base1 ^ (poly.exp1 / 13).toNat) poly.n
      = u := by
    rw [hu, Int.tdiv_eq_ediv he.1 (by norm_num), sm]; ring
  rw [hdiffu] at hv
  refine ⟨halg, ?_⟩
  have hrat : (-poly.base1 ^ (poly.exp1 / 13).toNat *
      (poly.base1 ^ (poly.exp1 / 13).toNat + u) +
      (poly.base1 ^ (poly.exp1 / 13).toNat * poly.base1 ^ (poly.exp1 / 13).toNat + 1))
      % poly.n = 0 := by
    unfold ratValue at rv
    rw [Int.tdiv_eq_ediv he.1 (by norm_num)] at r1 r0 rv
    rw [r1, r0, two_mul, pow_add] at rv
    exact rv
  rw [hv, if_pos ⟨halg, hrat⟩]

theorem reduction11_inverse (poly : snfs_t) (hN : 1 < poly.n)
    (hf : poly.form_type ≠ SNFS_H_CUNNINGHAM) (hg : Int.gcd poly.base1 poly.n = 1)
    (hb : 0 ≤ poly.base1 ∧ poly.base1 < 2147483648)
    (he : 0 ≤ poly.exp1 ∧ poly.exp1 < 2147483648) :
    (poly.base1 ^ (poly.exp1 / 11).toNat *
      ((reduction11 poly).poly.m - poly.base1 ^ (poly.exp1 / 11).toNat)) % poly.n = 1 :=
  (halved_rational_generic poly 5 11 _ (by norm_num) hN hf hg hb he).2.2.1

theorem reduction13_inverse (poly : snfs_t) (hN : 1 < poly.n)
    (hf : poly.form_type ≠ SNFS_H_CUNNINGHAM) (hg : Int.gcd poly.base1 poly.n = 1)
    (hb : 0 ≤ poly.base1 ∧ poly.base1 < 2147483648)
    (he : 0 ≤ poly.exp1 ∧ poly.exp1 < 2147483648) :
    (poly.base1 ^ (poly.exp1 / 13).toNat *
      ((reduction13 poly).poly.m - poly.base1 ^ (poly.exp1 / 13).toNat)) % poly.n = 1 :=
  (halved_rational_generic poly 6 13 _ (by norm_num) hN hf hg hb he).2.2.1

/-- C23. Halved reductions `r = 11` and `r = 13` with `s = coeff2 = ±1`: the
coefficients of the constructed polynomial `f`, highest first, are
`(1, -s, -4, 3s, 3, -s)` resp. `(1, -s, -5, 4s, 6, -3s, -1)`; for every nonzero `t` of a
field `t^D f(t + 1/t) (t + s) = t^r + s` (`D = 5` resp. `6`); and for a non-homogeneous
descriptor with `N > 1` prime to the base `b ≥ 0`, `r` dividing `e ≥ 0`, `k = e / r`,
`b^k + s ≠ 0` and `N` dividing `(b^e + s) / (b^k + s)`, the root `m` of the candidate
(congruent to `b^k` plus its inverse) gives `f(m) ≡ 0` modulo `N`, and the candidate is
valid. -/
theorem halved_11_13 (poly : snfs_t) (hs : poly.coeff2 = 1 ∨ poly.coeff2 = -1) :
    [getC (reduction11 poly).c 5, getC (reduction11 poly).c 4, getC (reduction11 poly).c 3,
      getC (reduction11 poly).c 2, getC (reduction11 poly).c 1, getC (reduction11 poly).c 0] =
      [1, -poly.coeff2, -4, 3 * poly.coeff2, 3, -poly.coeff2] ∧
    [getC (reduction13 poly).c 6, getC (reduction13 poly).c 5, getC (reduction13 poly).c 4,
      getC (reduction13 poly).c 3, getC (reduction13 poly).c 2, getC (reduction13 poly).c 1,
      getC (reduction13 poly).c 0] =
      [1, -poly.coeff2, -5, 4 * poly.coeff2, 6, -3 * poly.coeff2, -1] ∧
    (∀ (K : Type) [Field K] (t : K), t ≠ 0 →
      t ^ 5 * algValueIn (reduction11 poly).c 5 (t + 1 / t) * (t + (poly.coeff2 : K)) =
        t ^ 11 + (poly.coeff2 : K) ∧
      t ^ 6 * algValueIn (reduction13 poly).c 6 (t + 1 / t) * (t + (poly.coeff2 : K)) =
        t ^ 13 + (poly.coeff2 : K)) ∧
    (1 < poly.n → poly.form_type ≠ SNFS_H_CUNNINGHAM → Int.gcd poly.base1 poly.n = 1 →
      (0 ≤ poly.base1 ∧ poly.base1 < 2147483648) →
      (0 ≤ poly.exp1 ∧ poly.exp1 < 2147483648) →
      (poly.exp1 % 11 = 0 → poly.base1 ^ (poly.exp1 / 11).toNat + poly.coeff2 ≠ 0 →
        poly.n ∣ (poly.base1 ^ poly.exp1.toNat + poly.coeff2) /
          (poly.base1 ^ (poly.exp1 / 11).toNat + poly.coeff2) →
        (poly.base1 ^ (poly.exp1 / 11).toNat *
          ((reduction11 poly).poly.m - poly.base1 ^ (poly.exp1 / 11).toNat)) % poly.n = 1 ∧
        algValue (reduction11 poly).c 5 (reduction11 poly).poly.m % poly.n = 0 ∧
        (reduction11 poly).valid = 1) ∧
      (poly.exp1 % 13 = 0 → poly.base1 ^ (poly.exp1 / 13).toNat + poly.coeff2 ≠ 0 →
        poly.n ∣ (poly.base1 ^ poly.exp1.toNat + poly.coeff2) /
          (poly.base1 ^ (poly.exp1 / 13).toNat + poly.coeff2) →
        (poly.base1 ^ (poly.exp1 / 13).toNat *
          ((reduction13 poly).poly.m - poly.base1 ^ (poly.exp1 / 13).toNat)) % poly.n = 1 ∧
        algValue (reduction13 poly).c 6 (reduction13 poly).poly.m % poly.n = 0 ∧
        (reduction13 poly).valid = 1)) := by
  obtain ⟨-, -, c11, c13⟩ := halved_coefficients poly hs
  refine ⟨by rw [c11]; simp [getC], by rw [c13]; simp [getC],
    fun K _ t ht => halved_11_13_field poly hs t ht, ?_⟩
  intro hN hf hg hb he
  constructor
  · intro hr hne hQ
    obtain ⟨h1, h2⟩ := reduction11_root poly hs hN hf hg hb he hr hne hQ
    exact ⟨(reduction11_inverse poly hN hf hg hb he), h1, h2⟩
  · intro hr hne hQ
    obtain ⟨h1, h2⟩ := reduction13_root poly hs hN hf hg hb he hr hne hQ
    exact ⟨(reduction13_inverse poly hN hf hg hb he), h1, h2⟩

/-- Witness for C23: the descriptor `2^11 - 1` with `N = 2047 = (2^11 - 1) / (2 - 1)`:
the root is `m = 2 + 1024` and the candidate of the branch `r = 11` is valid. -/
theorem halved_11_13_witness :
    ((brent2_11.coeff2 = 1 ∨ brent2_11.coeff2 = -1) ∧ 1 < brent2_11.n ∧
      brent2_11.form_type ≠ SNFS_H_CUNNINGHAM ∧ Int.gcd brent2_11.base1 brent2_11.n = 1 ∧
      brent2_11.exp1 % 11 = 0 ∧
      brent2_11.base1 ^ (brent2_11.exp1 / 11).toNat + brent2_11.coeff2 ≠ 0 ∧
      brent2_11.n ∣ (brent2_11.base1 ^ brent2_11.exp1.toNat + brent2_11.coeff2) /
        (brent2_11.base1 ^ (brent2_11.exp1 / 11).toNat + brent2_11.coeff2)) ∧
    algValue (reduction11 brent2_11).c 5 (reduction11 brent2_11).poly.m % brent2_11.n = 0 ∧
    (reduction11 brent2_11).valid = 1 :=
  ⟨⟨by decide, by decide, by decide, by decide, by decide, by decide, by decide⟩,
   (((halved_11_13 brent2_11 (by decide)).2.2.2 (by decide) (by decide) (by decide)
      (by decide) (by decide)).1 (by decide) (by decide) (by decide)).2⟩

/-! ## The homogeneous halved-degree branches -/

/-- The function `mpz_sqrt` on a perfect square. -/
theorem mpz_sqrt_sq (x : Int) (hx : 0 ≤ x) : mpz_sqrt (x * x) = x := by
  obtain ⟨n, rfl⟩ := Int.eq_ofNat_of_zero_le hx
  unfold mpz_sqrt
  have hab : ((n : Int) * (n : Int)).natAbs = n * n := by
    rw [Int.natAbs_mul]; simp
  rw [hab]
  obtain ⟨h1, h2⟩ := natRoot_spec (n * n) 2 (by norm_num)
  have e1 : natRoot (n * n) 2 ≤ n := by
    by_contra hc
    have : n + 1 ≤ natRoot (n * n) 2 := by omega
    have := Nat.pow_le_pow_left this 2
    nlinarith
  have e2 : n ≤ natRoot (n * n) 2 := by
    by_contra hc
    have : natRoot (n * n) 2 + 1 ≤ n := by omega
    have := Nat.pow_le_pow_left this 2
    nlinarith
  have : natRoot (n * n) 2 = n := by omega
  rw [this]

/-- With `B n3 ≡ 1`, the linear polynomial `-(T B) x + (T^2 + B^2)` at `x = T n3 mod N`
leaves the residue `B^2`. -/
theorem hcunn_rational_residue (N T B n3 : Int) (h : (B * n3) % N = 1 % N) :
    -(T * B) * ((T * n3) % N) + (T * T + B * B) ≡ B * B [ZMOD N] := by
  have h1 : (T * n3) % N ≡ T * n3 [ZMOD N] := Int.mod_modEq _ _
  have h2 : B * n3 ≡ 1 [ZMOD N] := h
  have h3 : -(T * B) * ((T * n3) % N) + (T * T + B * B) ≡
      -(T * B) * (T * n3) + (T * T + B * B) [ZMOD N] :=
    (h1.mul_left _).add_right _
  have h4 : -(T * B) * (T * n3) + (T * T + B * B) = -(T * T) * (B * n3) + (T * T + B * B) := by
    ring
  have h5 : -(T * T) * (B * n3) + (T * T + B * B) ≡ -(T * T) * 1 + (T * T + B * B) [ZMOD N] :=
    (h2.mul_left _).add_right _
  have h6 : -(T * T) * 1 + (T * T + B * B) = B * B := by ring
  rw [h4] at h3
  rw [h6] at h5
  exact h3.trans h5

/-- The candidate of a halved-degree branch for a homogeneous descriptor with
`N > 1` prime to `base2`: the rational polynomial is `-(b1 b2)^k x + (b1^(2k) + b2^(2k))`,
the root is `b1^k` times the inverse of `b2^k`, and the rational residue is congruent to
`b2^(2k)`, which is not `0` modulo `N`; so the candidate is never valid. -/
theorem halved_hcunn_residue (poly : snfs_t) (deg k : Int) (coeffs : List (Nat × Int))
    (hf : poly.form_type = SNFS_H_CUNNINGHAM) (hN : 1 < poly.n)
    (hg : Int.gcd poly.base2 poly.n = 1)
    (hb1 : 0 ≤ poly.base1 ∧ poly.base1 < 2147483648)
    (hb2 : 0 ≤ poly.base2 ∧ poly.base2 < 2147483648)
    (hbb : poly.base2 * poly.base1 < 2147483648)
    (hk : 0 ≤ k ∧ k < 2147483648) :
    getC (reductionCandidate poly deg k coeffs true).poly.rat.coeff 1 =
      -((poly.base1 * poly.base2) ^ k.toNat) ∧
    getC (reductionCandidate poly deg k coeffs true).poly.rat.coeff 0 =
      poly.base1 ^ (2 * k.toNat) + poly.base2 ^ (2 * k.toNat) ∧
    ((reductionCandidate poly deg k coeffs true).poly.m * poly.base2 ^ k.toNat) % poly.n =
      poly.base1 ^ k.toNat % poly.n ∧
    ratValue (reductionCandidate poly deg k coeffs true).poly.rat.coeff
        (reductionCandidate poly deg k coeffs true).poly.m ≡
      poly.base2 ^ (2 * k.toNat) [ZMOD poly.n] ∧
    ratResidue (reductionCandidate poly deg k coeffs true) ≠ 0 ∧
    (reductionCandidate poly deg k coeffs true).valid = 0 := by
  obtain ⟨hk0, hk1⟩ := hk
  have hT : mpz_pow_ui (toULong poly.base1) k = poly.base1 ^ k.toNat :=
    mpz_pow_ui_of_nonneg _ _ hb1.1 (by omega) hk0 (by omega)
  have hB2 : mpz_pow_ui (toULong poly.base2) (2 * k) = poly.base2 ^ (2 * k).toNat :=
    mpz_pow_ui_of_nonneg _ _ hb2.1 (by omega) (by omega) (by omega)
  have h2k : (2 * k).toNat = 2 * k.toNat := by omega
  have hw : wrap32 (poly.base2 * poly.base1) = poly.base2 * poly.base1 :=
    wrap32_of_range _ (by nlinarith [hb1.1, hb2.1]) hbb
  have hR : mpz_pow_ui (wrap32 (poly.base2 * poly.base1)) k =
      (poly.base1 * poly.base2) ^ k.toNat := by
    rw [hw, mpz_pow_ui_of_exp _ _ hk0 (by omega), mul_comm]
  have hBB : poly.base2 ^ (2 * k.toNat) = poly.base2 ^ k.toNat * poly.base2 ^ k.toNat := by
    rw [two_mul, pow_add]
  have hsq : mpz_sqrt (poly.base2 ^ (2 * k.toNat)) = poly.base2 ^ k.toNat := by
    rw [hBB]; exact mpz_sqrt_sq _ (pow_nonneg hb2.1 _)
  have hcop : Int.gcd (poly.base2 ^ k.toNat) poly.n = 1 := by
    rw [← Int.isCoprime_iff_gcd_eq_one] at hg ⊢
    exact hg.pow_left
  obtain ⟨-, -, u2⟩ := mpz_invert_spec (poly.base2 ^ k.toNat) (poly.base2 ^ k.toNat) poly.n
    (by omega) hcop
  have hlen : 2 ≤ (copyCoeffs poly.poly.rat.degree poly.poly.rat.coeff zeroCoeffs).length := by
    rw [copyCoeffs_length, zeroCoeffs_length]; norm_num
  obtain ⟨g1, g0⟩ := getC_setRat (copyCoeffs poly.poly.rat.degree poly.poly.rat.coeff zeroCoeffs)
    (-((poly.base1 * poly.base2) ^ k.toNat))
    (poly.base1 ^ k.toNat * poly.base1 ^ k.toNat + poly.base2 ^ (2 * k.toNat)) hlen
  obtain ⟨cand, hcand⟩ : ∃ cand : snfs_t, cand =
      setM (setRat (setM { setAlgDegree (snfs_copy_poly poly snfs_init) deg with
          c := coeffs.foldl (fun c iv => setC c iv.1 iv.2) zeroCoeffs }
        (poly.base1 ^ k.toNat))
        (-((poly.base1 * poly.base2) ^ k.toNat))
        (poly.base1 ^ k.toNat * poly.base1 ^ k.toNat + poly.base2 ^ (2 * k.toNat)))
        ((poly.base1 ^ k.toNat *
          mpz_invert (poly.base2 ^ k.toNat) (poly.base2 ^ k.toNat) poly.n) % poly.n) :=
    ⟨_, rfl⟩
  have hred : reductionCandidate poly deg k coeffs true = check_poly cand := by
    subst hcand
    unfold reductionCandidate halvedRat
    simp only [if_true, if_pos hf]
    rw [hT, hR, hB2, h2k, hsq]
    rfl
  have hcm : cand.poly.m = (poly.base1 ^ k.toNat *
      mpz_invert (poly.base2 ^ k.toNat) (poly.base2 ^ k.toNat) poly.n) % poly.n := by
    rw [hcand]; rfl
  have hcn : cand.n = poly.n := by rw [hcand]; rfl
  have hcr : cand.poly.rat.coeff = setC (setC (copyCoeffs poly.poly.rat.degree
      poly.poly.rat.coeff zeroCoeffs) 1 (-((poly.base1 * poly.base2) ^ k.toNat))) 0
      (poly.base1 ^ k.toNat * poly.base1 ^ k.toNat + poly.base2 ^ (2 * k.toNat)) := by
    rw [hcand]; rfl
  have hres := hcunn_rational_residue poly.n (poly.base1 ^ k.toNat) (poly.base2 ^ k.toNat)
    (mpz_invert (poly.base2 ^ k.toNat) (poly.base2 ^ k.toNat) poly.n) u2
  have hrv : ratValue cand.poly.rat.coeff cand.poly.m ≡
      poly.base2 ^ (2 * k.toNat) [ZMOD poly.n] := by
    unfold ratValue
    rw [hcr, g1, g0, hcm, mul_pow, hBB]
    exact hres
  have hnz : ratValue cand.poly.rat.coeff cand.poly.m % poly.n ≠ 0 := by
    intro h0
    have hd : poly.n ∣ poly.base2 ^ (2 * k.toNat) := by
      have := hrv.symm
      unfold Int.ModEq at this
      rw [h0] at this
      exact Int.dvd_of_emod_eq_zero this
    have hc2 : IsCoprime (poly.base2 ^ (2 * k.toNat)) poly.n := by
      rw [← Int.isCoprime_iff_gcd_eq_one] at hg
      exact hg.pow_left
    have hunit : IsUnit poly.n := hc2.symm.isUnit_of_dvd hd
    rcases Int.isUnit_iff.mp hunit with h | h <;> omega
  have hrr : ratResidue cand = ratValue cand.poly.rat.coeff cand.poly.m % poly.n := by
    unfold ratResidue ratValue; rw [hcn]
  rw [hred, check_poly_m, check_poly_rat, check_poly_valid]
  have hrc : ratResidue (check_poly cand) = ratResidue cand := by
    unfold ratResidue
    rw [check_poly_m, check_poly_rat, check_poly_n]
  rw [hrc, hrr]
  refine ⟨by rw [hcr]; exact g1, ?_, ?_, hrv, hnz, ?_⟩
  · rw [hcr, g0]; ring
  · rw [hcm]
    have h1 : (poly.base1 ^ k.toNat *
        mpz_invert (poly.base2 ^ k.toNat) (poly.base2 ^ k.toNat) poly.n) % poly.n *
        poly.base2 ^ k.toNat ≡ poly.base1 ^ k.toNat * 1 [ZMOD poly.n] := by
      have ha : (poly.base1 ^ k.toNat *
          mpz_invert (poly.base2 ^ k.toNat) (poly.base2 ^ k.toNat) poly.n) % poly.n ≡
          poly.base1 ^ k.toNat *
          mpz_invert (poly.base2 ^ k.toNat) (poly.base2 ^ k.toNat) poly.n [ZMOD poly.n] :=
        Int.mod_modEq _ _
      have hb : poly.base2 ^ k.toNat *
          mpz_invert (poly.base2 ^ k.toNat) (poly.base2 ^ k.toNat) poly.n ≡ 1 [ZMOD poly.n] := u2
      have hc := ha.mul_right (poly.base2 ^ k.toNat)
      have e : poly.base1 ^ k.toNat *
          mpz_invert (poly.base2 ^ k.toNat) (poly.base2 ^ k.toNat) poly.n *
          poly.base2 ^ k.toNat = poly.base1 ^ k.toNat * (poly.base2 ^ k.toNat *
          mpz_invert (poly.base2 ^ k.toNat) (poly.base2 ^ k.toNat) poly.n) := by ring
      rw [e] at hc
      exact hc.trans (hb.mul_left _)
    rw [mul_one] at h1
    exact h1
  · rw [if_neg]
    intro h
    exact hnz h.2

/-- The scan on `3^22 + 2^22` stops at `i = 3`, `j = 2`, `k = 22` with the `+` test. -/
theorem hcunnScan_n3_2_22 :
    hcunnScan n3_2_22 = some { base1 := 3, base2 := 2, exp1 := 22, coeff1 := 1 } := by
  decide!

/-- C26, failing input `N = 3^22 + 2^22` (`N > 1`, prime to `3 * 2`): `find_hcunn_form`
yields the homogeneous descriptor with bases 3 and 2 and exponent 22,
`gen_brent_poly` takes the branch `r = 11` (`k = 2`) and builds the rational polynomial
`-(3*2)^2 x + (3^4 + 2^4)` with `m = 3^2 * (2^2)^(-1) mod N`; then
`rat[1] * m + rat[0]` is `16 = 2^4` modulo `N`, not `0`: the rational check of
`check_poly` fails and the candidate is not valid. -/
theorem halved_hcunn_rational_fails :
    n3_2_22 = 3 ^ 22 + 2 ^ 22 ∧
    find_hcunn_form n3_2_22 snfs_init = hcunn3_2_22 ∧
    Int.gcd (hcunn3_2_22.base1 * hcunn3_2_22.base2) hcunn3_2_22.n = 1 ∧
    gen_brent_poly hcunn3_2_22 = ([reduction11 hcunn3_2_22], 1) ∧
    getC (reduction11 hcunn3_2_22).poly.rat.coeff 1 = -((3 * 2) ^ 2) ∧
    getC (reduction11 hcunn3_2_22).poly.rat.coeff 0 = 3 ^ 4 + 2 ^ 4 ∧
    ((reduction11 hcunn3_2_22).poly.m * 2 ^ 2) % n3_2_22 = 3 ^ 2 ∧
    ratValue (reduction11 hcunn3_2_22).poly.rat.coeff (reduction11 hcunn3_2_22).poly.m
      % n3_2_22 = 16 ∧
    ratResidue (reduction11 hcunn3_2_22) = 16 ∧
    (reduction11 hcunn3_2_22).valid = 0 := by
  refine ⟨by norm_num [n3_2_22], ?_, by decide!, by decide!, by decide!, by decide!,
    by decide!, by decide!, by decide!, by decide!⟩
  rw [find_hcunn_form_of_some _ _ _ hcunnScan_n3_2_22]
  rfl

/-! ## The comparator -/

/-- C27. The comparator `qcomp_snfs_sdifficulty` returns the difference
`d = x.sdifficulty - y.sdifficulty` truncated toward zero, for `d` within the range of
`int`: it returns 0 whenever `|d| < 1` (also for unequal values), a positive value when
`d ≥ 1` and a negative value when `d ≤ -1`.  So "compares equal" is not transitive:
`0.0` and `0.6` compare equal, `0.6` and `1.2` compare equal, `0.0` and `1.2`
do not. -/
theorem qcomp_snfs_sdifficulty_spec {α : Type} [LinearOrderedField α] [FloorRing α]
    (x y : snfs_cand α)
    (hr : -2147483648 < x.sdifficulty - y.sdifficulty ∧
      x.sdifficulty - y.sdifficulty < 2147483648) :
    qcomp_snfs_sdifficulty x y =
      (if 0 ≤ x.sdifficulty - y.sdifficulty then ⌊x.sdifficulty - y.sdifficulty⌋
       else ⌈x.sdifficulty - y.sdifficulty⌉) ∧
    (|x.sdifficulty - y.sdifficulty| < 1 → qcomp_snfs_sdifficulty x y = 0) ∧
    (1 ≤ x.sdifficulty - y.sdifficulty → 0 < qcomp_snfs_sdifficulty x y) ∧
    (x.sdifficulty - y.sdifficulty ≤ -1 → qcomp_snfs_sdifficulty x y < 0) ∧
    (qcomp_snfs_sdifficulty (candOfSd 0) (candOfSd (3 / 5)) = 0 ∧
      qcomp_snfs_sdifficulty (candOfSd (3 / 5)) (candOfSd (6 / 5)) = 0 ∧
      qcomp_snfs_sdifficulty (candOfSd 0) (candOfSd (6 / 5)) ≠ 0) := by
  obtain ⟨hlo, hhi⟩ := hr
  unfold qcomp_snfs_sdifficulty truncToInt
  generalize x.sdifficulty - y.sdifficulty = d at hlo hhi ⊢
  have hrange : doubleToInt (if 0 ≤ d then ⌊d⌋ else ⌈d⌉) = if 0 ≤ d then ⌊d⌋ else ⌈d⌉ := by
    unfold doubleToInt
    apply if_pos
    split_ifs with h
    · constructor
      · apply Int.le_floor.mpr
        push_cast
        linarith
      · apply Int.floor_lt.mpr
        push_cast
        exact hhi
    · have hneg : d ≤ 0 := le_of_lt (not_le.mp h)
      constructor
      · have : (-2147483649 : Int) < ⌈d⌉ := by
          apply Int.lt_ceil.mpr
          push_cast
          linarith
        omega
      · have : ⌈d⌉ ≤ 0 := Int.ceil_le.mpr (by push_cast; exact hneg)
        omega
  refine ⟨hrange, ?_, ?_, ?_, ?_⟩
  · intro habs
    rw [abs_lt] at habs
    rw [hrange]
    split_ifs with h
    · exact Int.floor_eq_zero_iff.mpr ⟨h, habs.2⟩
    · exact Int.ceil_eq_zero_iff.mpr ⟨habs.1, le_of_lt (not_le.mp h)⟩
  · intro h1
    have h0 : 0 ≤ d := by linarith
    rw [hrange, if_pos h0]
    have : (1 : Int) ≤ ⌊d⌋ := Int.le_floor.mpr (by push_cast; exact h1)
    omega
  · intro h1
    have h0 : ¬ 0 ≤ d := by
      intro h; linarith
    rw [hrange, if_neg h0]
    have : ⌈d⌉ ≤ -1 := Int.ceil_le.mpr (by push_cast; exact h1)
    omega
  · refine ⟨by decide!, by decide!, by decide!⟩

/-- Witness for C27: the candidates with `sdifficulty` 12.5 and 10 compare as `2`. -/
theorem qcomp_snfs_sdifficulty_spec_witness :
    ((-2147483648 : ℚ) < (candOfSd (25 / 2)).sdifficulty - (candOfSd 10).sdifficulty ∧
      (candOfSd (25 / 2)).sdifficulty - (candOfSd 10).sdifficulty < 2147483648) ∧
    0 < qcomp_snfs_sdifficulty (candOfSd (25 / 2)) (candOfSd 10) :=
  have hr : (-2147483648 : ℚ) < (candOfSd (25 / 2)).sdifficulty - (candOfSd 10).sdifficulty ∧
      (candOfSd (25 / 2)).sdifficulty - (candOfSd 10).sdifficulty < 2147483648 := by
    constructor <;> simp [candOfSd] <;> norm_num
  ⟨hr, (qcomp_snfs_sdifficulty_spec (candOfSd (25 / 2)) (candOfSd 10) hr).2.2.1
    (by simp [candOfSd]; norm_num)⟩

/-! ## Order and exactness of the grid scan -/

/-- A hit of the exponent loop of the grid scan is the first exponent whose test
succeeds. -/
theorem brentExpLoop_some (n i : Int) (cnt : Nat) :
    ∀ (e : Nat) (h : brent_hit),
      brentExpLoop n i cnt ((e : Int) + 1) (i ^ e) = some h →
      ∃ k : Nat, e < k ∧ k ≤ e + cnt ∧ brentTest n i (k : Int) (i ^ k) = some h ∧
        ∀ k2 : Nat, e < k2 → k2 < k → brentTest n i (k2 : Int) (i ^ k2) = none := by
  induction cnt with
  | zero => intro e h hh; simp [brentExpLoop] at hh
  | succ cnt ih =>
    intro e h hh
    rw [brentExpLoop] at hh
    rw [← pow_succ] at hh
    have hcast : ((e : Int) + 1) = ((e + 1 : Nat) : Int) := by push_cast; ring
    rw [hcast] at hh
    cases ht : brentTest n i ((e + 1 : Nat) : Int) (i ^ (e + 1)) with
    | some s =>
      rw [ht] at hh
      simp only [Option.some.injEq] at hh
      subst hh
      refine ⟨e + 1, by omega, by omega, ht, ?_⟩
      intro k2 h1 h2
      omega
    | none =>
      rw [ht] at hh
      simp only [] at hh
      obtain ⟨k, hk1, hk2, htest, hfirst⟩ := ih (e + 1) h hh
      refine ⟨k, by omega, by omega, htest, ?_⟩
      intro k2 h1 h2
      by_cases hk : k2 = e + 1
      · subst hk; exact ht
      · exact hfirst k2 (by omega) h2

/-- When the exponent loop of the grid scan finds nothing, every test of its range
fails. -/
theorem brentExpLoop_none (n i : Int) (cnt : Nat) :
    ∀ (e : Nat), brentExpLoop n i cnt ((e : Int) + 1) (i ^ e) = none →
      ∀ k2 : Nat, e < k2 → k2 ≤ e + cnt → brentTest n i (k2 : Int) (i ^ k2) = none := by
  induction cnt with
  | zero => intro e _ k2 h1 h2; omega
  | succ cnt ih =>
    intro e hh k2 h1 h2
    rw [brentExpLoop] at hh
    rw [← pow_succ] at hh
    have hcast : ((e : Int) + 1) = ((e + 1 : Nat) : Int) := by push_cast; ring
    rw [hcast] at hh
    cases ht : brentTest n i ((e + 1 : Nat) : Int) (i ^ (e + 1)) with
    | some s => rw [ht] at hh; simp at hh
    | none =>
      rw [ht] at hh
      simp only [] at hh
      by_cases hk : k2 = e + 1
      · subst hk; exact ht
      · exact ih (e + 1) hh k2 (by omega) (by omega)

/-- The exponent loop as the base loop starts it, for a base `i`. -/
theorem brentExpLoop_start (n : Int) (i : Nat) :
    brentExpLoop n (i : Int) (expLimit (i : Int) - 32).toNat 32 (mpz_pow_ui (i : Int) 31) =
      brentExpLoop n (i : Int) (expLimit (i : Int) - 32).toNat (((31 : Nat) : Int) + 1)
        ((i : Int) ^ 31) := by
  have h := mpz_pow_ui_nat (i : Int) 31 (by norm_num)
  have h31 : ((31 : Nat) : Int) = 31 := by norm_num
  rw [h31] at h
  rw [h, h31]
  norm_num

/-- A hit of the grid scan is the first pair, base ascending and exponent ascending,
whose test succeeds. -/
theorem brentBaseLoop_some (n : Int) (cnt : Nat) :
    ∀ (i0 : Nat) (h : brent_hit), brentBaseLoop n cnt (i0 : Int) = some h →
      ∃ i k : Nat, i0 ≤ i ∧ i < i0 + cnt ∧ skipBase (i : Int) = false ∧
        32 ≤ k ∧ (k : Int) < expLimit (i : Int) ∧
        brentTest n (i : Int) (k : Int) ((i : Int) ^ k) = some h ∧
        (∀ k2 : Nat, 32 ≤ k2 → k2 < k →
          brentTest n (i : Int) (k2 : Int) ((i : Int) ^ k2) = none) ∧
        (∀ i2 : Nat, i0 ≤ i2 → i2 < i → skipBase (i2 : Int) = false →
          ∀ k2 : Nat, 32 ≤ k2 → (k2 : Int) < expLimit (i2 : Int) →
            brentTest n (i2 : Int) (k2 : Int) ((i2 : Int) ^ k2) = none) := by
  induction cnt with
  | zero => intro i0 h hh; simp [brentBaseLoop] at hh
  | succ cnt ih =>
    intro i0 h hh
    rw [brentBaseLoop] at hh
    have hcast : ((i0 : Int) + 1) = ((i0 + 1 : Nat) : Int) := by push_cast; ring
    by_cases hskip : skipBase (i0 : Int) = true
    · rw [if_pos hskip, hcast] at hh
      obtain ⟨i, k, hi1, hi2, hs, hk1, hk2, ht, hf1, hf2⟩ := ih (i0 + 1) h hh
      refine ⟨i, k, by omega, by omega, hs, hk1, hk2, ht, hf1, ?_⟩
      intro i2 h1 h2 hs2 k2 hk21 hk22
      by_cases hi : i2 = i0
      · subst hi; rw [hskip] at hs2; exact absurd hs2 (by decide)
      · exact hf2 i2 (by omega) h2 hs2 k2 hk21 hk22
    · rw [if_neg hskip, brentExpLoop_start] at hh
      have hskip2 : skipBase (i0 : Int) = false := by
        cases hb : skipBase (i0 : Int) with
        | true => exact absurd hb hskip
        | false => rfl
      cases hp : brentExpLoop n (i0 : Int) (expLimit (i0 : Int) - 32).toNat
          (((31 : Nat) : Int) + 1) ((i0 : Int) ^ 31) with
      | some h2 =>
        rw [hp] at hh
        simp only [Option.some.injEq] at hh
        subst hh
        obtain ⟨k, hk1, hk2, ht, hfirst⟩ := brentExpLoop_some n (i0 : Int) _ 31 h2 hp
        refine ⟨i0, k, le_refl _, by omega, hskip2, by omega, by omega, ht, ?_, ?_⟩
        · intro k2 h1 h2; exact hfirst k2 (by omega) h2
        · intro i2 h1 h2; omega
      | none =>
        rw [hp] at hh
        simp only [] at hh
        rw [hcast] at hh
        obtain ⟨i, k, hi1, hi2, hs, hk1, hk2, ht, hf1, hf2⟩ := ih (i0 + 1) h hh
        refine ⟨i, k, by omega, by omega, hs, hk1, hk2, ht, hf1, ?_⟩
        intro i2 h1 h2 hs2 k2 hk21 hk22
        by_cases hi : i2 = i0
        · subst hi
          exact brentExpLoop_none n (i2 : Int) _ 31 hp k2 (by omega) (by omega)
        · exact hf2 i2 (by omega) h2 hs2 k2 hk21 hk22

/-- What a successful test says: the residue is small, the division is exact, the
leading coefficient is below `2^31` and not divisible by the base, and the hit records
the base and the exponent. -/
theorem brentTest_some (n i j p : Int) (h : brent_hit) (ht : brentTest n i j p = some h) :
    bitsAtMost ((n + brentOffset) % p) 32 = true ∧
    (brentShifted n ((n + brentOffset) % p)).tmod p = 0 ∧
    bitsAtMost ((brentShifted n ((n + brentOffset) % p)).tdiv p) 31 = true ∧
    h.coeff1 = wrap32 (mpz_get_ui ((brentShifted n ((n + brentOffset) % p)).tdiv p)) ∧
    h.coeff1.tmod i ≠ 0 ∧ h.base1 = i ∧ h.exp1 = j ∧
    h.coeff2 = (if brentSign ((n + brentOffset) % p) ≠ 0
      then wrap32 (-(brentC2 ((n + brentOffset) % p)))
      else brentC2 ((n + brentOffset) % p)) := by
  unfold brentTest at ht
  simp only [] at ht
  by_cases h1 : bitsAtMost ((n + brentOffset) % p) 32 = true
  · rw [if_pos h1] at ht
    by_cases h2 : (brentShifted n ((n + brentOffset) % p)).tmod p ≠ 0
    · rw [if_pos h2] at ht; exact absurd ht (by simp)
    · rw [if_neg h2] at ht
      by_cases h3 : ¬ bitsAtMost ((brentShifted n ((n + brentOffset) % p)).tdiv p) 31 = true
      · rw [if_pos h3] at ht; exact absurd ht (by simp)
      · rw [if_neg h3] at ht
        by_cases h4 : (wrap32 (mpz_get_ui
            ((brentShifted n ((n + brentOffset) % p)).tdiv p))).tmod i = 0
        · rw [if_pos h4] at ht; exact absurd ht (by simp)
        · rw [if_neg h4] at ht
          simp only [Option.some.injEq] at ht
          have e1 : h.coeff1 = wrap32 (mpz_get_ui
              ((brentShifted n ((n + brentOffset) % p)).tdiv p)) := by rw [← ht]
          have e2 : h.base1 = i := by rw [← ht]
          have e3 : h.exp1 = j := by rw [← ht]
          have e4 : h.coeff2 = (if brentSign ((n + brentOffset) % p) ≠ 0
              then wrap32 (-(brentC2 ((n + brentOffset) % p)))
              else brentC2 ((n + brentOffset) % p)) := by rw [← ht]
          rw [← e1] at h4
          exact ⟨h1, not_not.mp h2, not_not.mp h3, e1, h4, e2, e3, e4⟩
  · rw [if_neg h1] at ht; exact absurd ht (by simp)

/-- Decoding a residue `0 ≤ r < 2^30 + 2^31`: the value subtracted from `n` is
`r - 2^30` and the stored constant is `r - 2^30`, whatever the sign branch. -/
theorem brent_decode (n r : Int) (hr0 : 0 ≤ r) (hr1 : r < 3221225472) :
    brentShifted n r = n + brentOffset - r ∧
    (if brentSign r ≠ 0 then wrap32 (-(brentC2 r)) else brentC2 r) = r - brentOffset := by
  have habs : ((r.natAbs : Nat) : Int) = r := Int.natAbs_of_nonneg hr0
  unfold brentShifted brentSign brentC2 mpz_get_ui toULong toUInt32 wrap32 brentOffset
    POSITIVE NEGATIVE
  simp only [habs]
  constructor
  · split_ifs <;> omega
  · split_ifs <;> omega

/-- An accepted test determines `n` exactly: `n = coeff1 * p + coeff2`. -/
theorem brentTest_exact (n i j p : Int) (h : brent_hit) (hn : 0 < n) (hi : 0 < i)
    (hp : 4294967296 ≤ p) (ht : brentTest n i j p = some h)
    (hov : (n + brentOffset) % p < 3221225472) :
    n = h.coeff1 * p + h.coeff2 ∧ 1 ≤ h.coeff1 ∧ h.coeff1 < 2147483648 ∧
    ¬ (i ∣ h.coeff1) ∧ h.coeff2 = (n + brentOffset) % p - brentOffset ∧
    h.base1 = i ∧ h.exp1 = j := by
  obtain ⟨-, -, t3, t4, t5, t6, t7, t8⟩ := brentTest_some n i j p h ht
  have hp0 : 0 < p := lt_of_lt_of_le (by norm_num) hp
  have hr0 : 0 ≤ (n + brentOffset) % p := Int.emod_nonneg _ (ne_of_gt hp0)
  obtain ⟨d1, d2⟩ := brent_decode n ((n + brentOffset) % p) hr0 hov
  rw [d2] at t8
  rw [d1] at t3 t4
  have hsplit : (n + brentOffset) % p + p * ((n + brentOffset) / p) = n + brentOffset :=
    Int.emod_add_ediv _ _
  have hB : (0 : Int) ≤ brentOffset := by unfold brentOffset; norm_num
  have hq0 : 0 ≤ (n + brentOffset) / p :=
    Int.ediv_nonneg (by linarith) (le_of_lt hp0)
  have hS : n + brentOffset - (n + brentOffset) % p = p * ((n + brentOffset) / p) := by
    linarith
  rw [hS] at t3 t4
  have hdiv : (p * ((n + brentOffset) / p)).tdiv p = (n + brentOffset) / p := by
    rw [Int.tdiv_eq_ediv (mul_nonneg (le_of_lt hp0) hq0) (le_of_lt hp0)]
    exact Int.mul_ediv_cancel_left _ (ne_of_gt hp0)
  rw [hdiv] at t3 t4
  generalize (n + brentOffset) / p = q at hsplit hq0 t3 t4
  generalize (n + brentOffset) % p = r at hsplit hr0 t8 hov ⊢
  clear d1 d2 hS hdiv ht
  have hqa : ((q.natAbs : Nat) : Int) = q := Int.natAbs_of_nonneg hq0
  have hq1 : q < 2147483648 := by
    unfold bitsAtMost at t3
    simp only [decide_eq_true_eq] at t3
    have h2 : ((q.natAbs : Nat) : Int) < ((2 ^ 31 : Nat) : Int) := by exact_mod_cast t3
    rw [hqa] at h2
    norm_num at h2
    exact h2
  have hc1 : h.coeff1 = q := by
    rw [t4]
    unfold mpz_get_ui
    rw [hqa, toULong_of_range q hq0 (by linarith), wrap32_of_range q (by linarith) hq1]
  have hc1ne : h.coeff1 ≠ 0 := by
    intro h0
    rw [h0] at t5
    exact t5 (Int.zero_tmod i)
  have hc1pos : 1 ≤ h.coeff1 := by
    rw [hc1] at hc1ne ⊢
    rcases lt_or_eq_of_le hq0 with hlt | heq
    · exact hlt
    · exact absurd heq.symm hc1ne
  have hnd : ¬ (i ∣ h.coeff1) := by
    intro hd
    apply t5
    rw [Int.tmod_eq_emod (by linarith) (le_of_lt hi)]
    exact Int.emod_eq_zero_of_dvd hd
  refine ⟨?_, hc1pos, by rw [hc1]; exact hq1, hnd, t8, t6, t7⟩
  rw [hc1, t8]
  linarith

/-- The grid scan on `3^165 - 1` stops at base 3, exponent 165. -/
theorem brentGridScan_n3_165 :
    brentGridScan n3_165 = some { coeff1 := 1, base1 := 3, exp1 := 165, coeff2 := -1 } := by
  decide!

/-- The bases skipped by the grid scan. -/
theorem skipBase_iff (i : Int) :
    skipBase i = true ↔ i ∈ [4, 8, 9, 16, 25, 27, 32, 36, 49, 64, 81] := by
  unfold skipBase
  simp only [Bool.or_eq_true, decide_eq_true_eq, List.mem_cons, List.mem_singleton,
    List.not_mem_nil, or_false]
  constructor
  · intro h
    rcases h with (((((((((h | h) | h) | h) | h) | h) | h) | h) | h) | h) | h <;> simp [h]
  · intro h
    rcases h with h | h | h | h | h | h | h | h | h | h | h <;> simp [h]

/-- The first-hit property of the grid scan. -/
theorem brentGridScan_first (N : Int) (h : brent_hit) (hs : brentGridScan N = some h) :
    ∃ i k : Nat, 2 ≤ i ∧ i < 100 ∧ skipBase (i : Int) = false ∧
      32 ≤ k ∧ (k : Int) < expLimit (i : Int) ∧
      h.base1 = (i : Int) ∧ h.exp1 = (k : Int) ∧
      brentTest N (i : Int) (k : Int) ((i : Int) ^ k) = some h ∧
      (∀ k2 : Nat, 32 ≤ k2 → k2 < k →
        brentTest N (i : Int) (k2 : Int) ((i : Int) ^ k2) = none) ∧
      (∀ i2 : Nat, 2 ≤ i2 → i2 < i → skipBase (i2 : Int) = false →
        ∀ k2 : Nat, 32 ≤ k2 → (k2 : Int) < expLimit (i2 : Int) →
          brentTest N (i2 : Int) (k2 : Int) ((i2 : Int) ^ k2) = none) := by
  unfold brentGridScan at hs
  have h2 : ((2 : Nat) : Int) = 2 := by norm_num
  rw [← h2] at hs
  obtain ⟨i, k, hi1, hi2, hsk, hk1, hk2, ht, hf1, hf2⟩ := brentBaseLoop_some N 98 2 h hs
  obtain ⟨-, -, -, -, -, t6, t7, -⟩ := brentTest_some N _ _ _ h ht
  exact ⟨i, k, hi1, by omega, hsk, hk1, hk2, t6, t7, ht, hf1, hf2⟩

/-- C28. Grid-scan order of `find_brent_form`.  For `N = 3^165 - 1` the result on a fresh
descriptor is BRENT(1, 3, 165, -1), no pair with base 2 is accepted and no exponent
below 165 with base 3.  In general, when the grid scan hits, the returned
`(base1, exp1)` is a pair `(i, k)` with `2 ≤ i < 100`, `i` not in the skip list
`{4, 8, 9, 16, 25, 27, 32, 36, 49, 64, 81}` and `32 ≤ k < maxb(i)`, that passes the
acceptance test (residue of at most 32 bits, exact division, leading coefficient below
`2^31` and not divisible by the base), and every pair before it, in the order base
ascending and then exponent ascending, fails the test. -/
theorem find_brent_form_grid_order :
    (find_brent_form n3_165 snfs_init = brent165 ∧
      (∀ k2 : Nat, 32 ≤ k2 → (k2 : Int) < expLimit 2 →
        brentTest n3_165 2 (k2 : Int) (2 ^ k2) = none) ∧
      (∀ k2 : Nat, 32 ≤ k2 → k2 < 165 → brentTest n3_165 3 (k2 : Int) (3 ^ k2) = none)) ∧
    (∀ i : Int, skipBase i = true ↔ i ∈ [4, 8, 9, 16, 25, 27, 32, 36, 49, 64, 81]) ∧
    (∀ (N : Int) (form : snfs_t) (h : brent_hit), brentGridScan N = some h →
      ∃ i k : Nat, 2 ≤ i ∧ i < 100 ∧ skipBase (i : Int) = false ∧
        32 ≤ k ∧ (k : Int) < expLimit (i : Int) ∧
        (find_brent_form N form).base1 = (i : Int) ∧
        (find_brent_form N form).exp1 = (k : Int) ∧
        brentTest N (i : Int) (k : Int) ((i : Int) ^ k) = some h ∧
        bitsAtMost ((N + brentOffset) % (i : Int) ^ k) 32 = true ∧
        (brentShifted N ((N + brentOffset) % (i : Int) ^ k)).tmod ((i : Int) ^ k) = 0 ∧
        bitsAtMost ((brentShifted N ((N + brentOffset) % (i : Int) ^ k)).tdiv
          ((i : Int) ^ k)) 31 = true ∧
        (find_brent_form N form).coeff1.tmod (i : Int) ≠ 0 ∧
        (∀ k2 : Nat, 32 ≤ k2 → k2 < k →
          brentTest N (i : Int) (k2 : Int) ((i : Int) ^ k2) = none) ∧
        (∀ i2 : Nat, 2 ≤ i2 → i2 < i → skipBase (i2 : Int) = false →
          ∀ k2 : Nat, 32 ≤ k2 → (k2 : Int) < expLimit (i2 : Int) →
            brentTest N (i2 : Int) (k2 : Int) ((i2 : Int) ^ k2) = none)) := by
  refine ⟨?_, skipBase_iff, ?_⟩
  · obtain ⟨i, k, hi1, hi2, hsk, hk1, hk2, hb, he, ht, hf1, hf2⟩ :=
      brentGridScan_first n3_165 _ brentGridScan_n3_165
    have hi3 : i = 3 := by
      have : (3 : Int) = (i : Int) := hb
      omega
    have hk165 : k = 165 := by
      have : (165 : Int) = (k : Int) := he
      omega
    subst hi3
    subst hk165
    refine ⟨?_, ?_, ?_⟩
    · rw [find_brent_form_of_grid _ _ _ brentGridScan_n3_165]
      rfl
    · intro k2 h1 h2
      have := hf2 2 (le_refl _) (by norm_num) (by decide) k2 h1 (by exact_mod_cast h2)
      exact_mod_cast this
    · intro k2 h1 h2
      have := hf1 k2 h1 h2
      exact_mod_cast this
  · intro N form h hs
    obtain ⟨i, k, hi1, hi2, hsk, hk1, hk2, hb, he, ht, hf1, hf2⟩ :=
      brentGridScan_first N h hs
    obtain ⟨t1, t2, t3, -, t5, -, -, -⟩ := brentTest_some N _ _ _ h ht
    rw [find_brent_form_of_grid N form h hs]
    exact ⟨i, k, hi1, hi2, hsk, hk1, hk2, hb, he, ht, t1, t2, t3, t5, hf1, hf2⟩

/-- Witness for C28: the scan on `2^256 - 1`, which stops at base 2, exponent 256. -/
theorem find_brent_form_grid_order_witness :
    brentGridScan mersenne256 =
      some { coeff1 := 1, base1 := 2, exp1 := 256, coeff2 := -1 } ∧
    ∃ i k : Nat, 2 ≤ i ∧ i < 100 ∧ skipBase (i : Int) = false ∧
      32 ≤ k ∧ (k : Int) < expLimit (i : Int) ∧
      (find_brent_form mersenne256 snfs_init).base1 = (i : Int) ∧
      (find_brent_form mersenne256 snfs_init).exp1 = (k : Int) :=
  ⟨brentGridScan_mersenne256,
    match find_brent_form_grid_order.2.2 mersenne256 snfs_init _ brentGridScan_mersenne256 with
    | ⟨i, k, h1, h2, h3, h4, h5, h6, h7, _⟩ => ⟨i, k, h1, h2, h3, h4, h5, h6, h7⟩⟩

/-- C29. Grid-scan exactness of `find_brent_form`: when the grid scan accepts a pair
`(b, e)` for `N > 0` and the residue `r = (N + 2^30) mod b^e` is below `2^30 + 2^31`
(the decoding `r - 2^30` fits an `int`), the stored fields satisfy the exact equality
`N = coeff1 * b^e + coeff2` with `1 ≤ coeff1 < 2^31`, `b` not dividing `coeff1`,
`base2 = 1`, and `coeff2 = r - 2^30`: positive (sign `+`, magnitude `r - 2^30`) when
`r > 2^30`, and `-(2^30 - r)` (sign `-`) otherwise. -/
theorem find_brent_form_exact (N : Int) (form : snfs_t) (h : brent_hit) (hN : 0 < N)
    (hs : brentGridScan N = some h)
    (hov : (N + brentOffset) % (h.base1 ^ h.exp1.toNat) < 3221225472) :
    N = (find_brent_form N form).coeff1 *
        (find_brent_form N form).base1 ^ (find_brent_form N form).exp1.toNat +
      (find_brent_form N form).coeff2 ∧
    1 ≤ (find_brent_form N form).coeff1 ∧ (find_brent_form N form).coeff1 < 2147483648 ∧
    ¬ ((find_brent_form N form).base1 ∣ (find_brent_form N form).coeff1) ∧
    (find_brent_form N form).base2 = 1 ∧
    (find_brent_form N form).form_type = SNFS_BRENT ∧
    (find_brent_form N form).coeff2 =
      (N + brentOffset) % ((find_brent_form N form).base1 ^
        (find_brent_form N form).exp1.toNat) - brentOffset ∧
    (brentOffset < (N + brentOffset) % ((find_brent_form N form).base1 ^
        (find_brent_form N form).exp1.toNat) → 0 < (find_brent_form N form).coeff2) ∧
    ((N + brentOffset) % ((find_brent_form N form).base1 ^
        (find_brent_form N form).exp1.toNat) ≤ brentOffset →
      (find_brent_form N form).coeff2 ≤ 0) := by
  obtain ⟨i, k, hi1, -, -, hk1, -, hb, he, ht, -, -⟩ := brentGridScan_first N h hs
  have hpow : h.base1 ^ h.exp1.toNat = (i : Int) ^ k := by
    rw [hb, he, Int.toNat_natCast]
  rw [hpow] at hov
  have hi0 : (0 : Int) < (i : Int) := by exact_mod_cast (by omega : 0 < i)
  have hp : (4294967296 : Int) ≤ (i : Int) ^ k := by
    have h1 : (2 : Int) ^ 32 ≤ (2 : Int) ^ k := pow_le_pow_right₀ (by norm_num) hk1
    have h2 : (2 : Int) ^ k ≤ (i : Int) ^ k :=
      pow_le_pow_left₀ (by norm_num) (by exact_mod_cast hi1) k
    have h3 : (2 : Int) ^ 32 = 4294967296 := by norm_num
    linarith
  obtain ⟨e1, e2, e3, e4, e5, -, -⟩ :=
    brentTest_exact N (i : Int) (k : Int) ((i : Int) ^ k) h hN hi0 hp ht hov
  rw [find_brent_form_of_grid N form h hs]
  simp only [hpow]
  refine ⟨e1, e2, e3, ?_, trivial, trivial, e5, ?_, ?_⟩
  · rw [hb]; exact e4
  · intro hgt
    rw [e5]; linarith
  · intro hle
    rw [e5]; linarith

/-- Witness for C29: `N = 2^256 - 1`, accepted at `(2, 256)` with residue `2^30 - 1`. -/
theorem find_brent_form_exact_witness :
    (0 < mersenne256 ∧
      brentGridScan mersenne256 =
        some { coeff1 := 1, base1 := 2, exp1 := 256, coeff2 := -1 } ∧
      (mersenne256 + brentOffset) % ((2 : Int) ^ (256 : Int).toNat) < 3221225472) ∧
    mersenne256 = (find_brent_form mersenne256 snfs_init).coeff1 *
        (find_brent_form mersenne256 snfs_init).base1 ^
          (find_brent_form mersenne256 snfs_init).exp1.toNat +
      (find_brent_form mersenne256 snfs_init).coeff2 :=
  have hN : 0 < mersenne256 := by decide
  have hov : (mersenne256 + brentOffset) % ((2 : Int) ^ (256 : Int).toNat) < 3221225472 := by
    decide!
  ⟨⟨hN, brentGridScan_mersenne256, hov⟩,
    (find_brent_form_exact mersenne256 snfs_init _ hN brentGridScan_mersenne256 hov).1⟩

/-! ## From the homogeneous recognizer to the synthesizer -/

/-- The scan on `3^32 + 2^32` stops at `i = 3`, `j = 2`, `k = 32` with the `+` test. -/
theorem hcunnScan_n3_2_32 :
    hcunnScan n3_2_32 = some { base1 := 3, base2 := 2, exp1 := 32, coeff1 := 1 } := by
  decide!

/-- C30, failing inputs `N = 2^97 + 3^97` and `N = 3^32 + 2^32` (both `> 1` and prime to
`3 * 2`).  `find_hcunn_form` on a fresh descriptor stores `coeff1 = 1` and the bases and
leaves `coeff2 = 0`; on that descriptor `gen_brent_poly` returns `*npolys = 0`: every
slot is rejected and re-initialised, also the exact-fit candidate of degree 4 for the
exponent 32 (`x^4 + 0` at `m = 3^8 * (2^8)^(-1) mod N`).  With `coeff2 = 1` in the same
descriptors the function returns 6 resp. 5 valid candidates. -/
theorem hcunn_descriptor_no_valid_candidate :
    (n3_2_32 = 3 ^ 32 + 2 ^ 32 ∧ 1 < n2_3_97 ∧ 1 < n3_2_32 ∧
      Int.gcd (3 * 2) n2_3_97 = 1 ∧ Int.gcd (3 * 2) n3_2_32 = 1) ∧
    (find_hcunn_form n2_3_97 snfs_init = hcunn3_2_97 ∧
      (gen_brent_poly hcunn3_2_97).2 = 0 ∧
      (∀ p ∈ (gen_brent_poly hcunn3_2_97).1, p.valid = 0) ∧
      (gen_brent_poly { hcunn3_2_97 with coeff2 := 1 }).2 = 6) ∧
    (find_hcunn_form n3_2_32 snfs_init = hcunn3_2_32 ∧
      (gen_brent_poly hcunn3_2_32).2 = 0 ∧
      (∀ p ∈ (gen_brent_poly hcunn3_2_32).1, p.valid = 0) ∧
      (exactFit hcunn3_2_32 freshState 4).npoly = 0 ∧
      (gen_brent_poly { hcunn3_2_32 with coeff2 := 1 }).2 = 5) := by
  refine ⟨⟨by norm_num [n3_2_32], by decide, by decide, by decide, by decide⟩,
    ⟨?_, by decide!, by decide!, by decide!⟩,
    ⟨?_, by decide!, by decide!, by decide!, by decide!⟩⟩
  · rw [find_hcunn_form_of_some _ _ _ hcunnScan_n2_3_97]
    rfl
  · rw [find_hcunn_form_of_some _ _ _ hcunnScan_n3_2_32]
    rfl

/-! ## Capacity of the candidate array -/

/-- One emission moves `npoly` by at most one and keeps the length of the array. -/
theorem emitCandidate_npoly (poly : snfs_t) (st : gen_state) (i cd c0 m ratExp : Int) :
    st.npoly ≤ (emitCandidate poly st i cd c0 m ratExp).npoly ∧
    (emitCandidate poly st i cd c0 m ratExp).npoly ≤ st.npoly + 1 ∧
    (emitCandidate poly st i cd c0 m ratExp).polys.length = st.polys.length := by
  unfold emitCandidate
  simp only []
  split_ifs <;> simp

theorem compositeStep_npoly (poly : snfs_t) (f : List Int) (i : Int) (st : gen_state)
    (j : Nat) :
    st.npoly ≤ (compositeStep poly f i st j).npoly ∧
    (compositeStep poly f i st j).npoly ≤ st.npoly + 1 ∧
    (compositeStep poly f i st j).polys.length = st.polys.length := by
  have key : ∀ (n1 cd c0 m me : Int),
      st.npoly ≤ (emitCandidate poly { st with n := n1 } i cd c0 m me).npoly ∧
      (emitCandidate poly { st with n := n1 } i cd c0 m me).npoly ≤ st.npoly + 1 ∧
      (emitCandidate poly { st with n := n1 } i cd c0 m me).polys.length = st.polys.length :=
    fun n1 cd c0 m me => emitCandidate_npoly poly { st with n := n1 } i cd c0 m me
  unfold compositeStep
  simp only []
  exact key _ _ _ _ _

/-- The loop over the factors: every slot written lies in `[npoly, npoly + #js)`, and
the count grows by at most `#js`. -/
theorem compositeWrites_bound (poly : snfs_t) (f : List Int) (i : Int) (js : List Nat) :
    ∀ st : gen_state,
      (∀ k ∈ compositeWrites poly f i st js, st.npoly ≤ k ∧ k < st.npoly + js.length) ∧
      st.npoly ≤ (js.foldl (compositeStep poly f i) st).npoly ∧
      (js.foldl (compositeStep poly f i) st).npoly ≤ st.npoly + js.length ∧
      (js.foldl (compositeStep poly f i) st).polys.length = st.polys.length := by
  induction js with
  | nil =>
    intro st
    refine ⟨?_, le_refl _, by simp, rfl⟩
    intro k hk
    simp [compositeWrites] at hk
  | cons j js ih =>
    intro st
    obtain ⟨c1, c2, c3⟩ := compositeStep_npoly poly f i st j
    obtain ⟨h1, h2, h3, h4⟩ := ih (compositeStep poly f i st j)
    refine ⟨?_, ?_, ?_, ?_⟩
    · intro k hk
      simp only [compositeWrites, List.mem_cons] at hk
      rcases hk with hk | hk
      · subst hk
        simp only [List.length_cons]
        omega
      · have := h1 k hk
        simp only [List.length_cons]
        omega
    · simp only [List.foldl_cons]; omega
    · simp only [List.foldl_cons, List.length_cons]; omega
    · simp only [List.foldl_cons]; rw [h4, c3]

/-- One round of the degree loop writes at most `2 + numf` slots (`numf > 1`) resp. 2,
all in `[npoly, npoly + that)`, and the count grows by at most that. -/
theorem degreeWrites_bound (poly : snfs_t) (f : List Int) (st : gen_state) (i : Int) :
    (∀ k ∈ degreeWrites poly f st i,
      st.npoly ≤ k ∧ k < st.npoly + (if f.length > 1 then f.length + 2 else 2)) ∧
    st.npoly ≤ (degreeStep poly f st i).npoly ∧
    (degreeStep poly f st i).npoly ≤
      st.npoly + (if f.length > 1 then f.length + 2 else 2) ∧
    (degreeStep poly f st i).polys.length = st.polys.length := by
  have hE := emitCandidate_npoly
  rw [degreeStep_eq]
  unfold degreeWrites
  by_cases h0 : poly.exp1.tmod i = 0
  · rw [if_pos h0, if_pos h0]
    obtain ⟨e1, e2, e3⟩ : st.npoly ≤ (exactFit poly st i).npoly ∧
        (exactFit poly st i).npoly ≤ st.npoly + 1 ∧
        (exactFit poly st i).polys.length = st.polys.length := by
      unfold exactFit; exact hE _ _ _ _ _ _ _
    refine ⟨?_, e1, ?_, e3⟩
    · intro k hk
      simp only [List.mem_singleton] at hk
      subst hk
      split_ifs <;> omega
    · split_ifs <;> omega
  · rw [if_neg h0, if_neg h0]
    obtain ⟨u1, u2, u3⟩ : st.npoly ≤ (roundUp poly st i).npoly ∧
        (roundUp poly st i).npoly ≤ st.npoly + 1 ∧
        (roundUp poly st i).polys.length = st.polys.length := by
      unfold roundUp; exact hE _ _ _ _ _ _ _
    obtain ⟨d1, d2, d3⟩ : (roundUp poly st i).npoly ≤
          (roundDown poly (roundUp poly st i) i).npoly ∧
        (roundDown poly (roundUp poly st i) i).npoly ≤ (roundUp poly st i).npoly + 1 ∧
        (roundDown poly (roundUp poly st i) i).polys.length =
          (roundUp poly st i).polys.length := by
      unfold roundDown; exact hE _ _ _ _ _ _ _
    by_cases hf : f.length > 1
    · simp only [if_pos hf]
      obtain ⟨w1, w2, w3, w4⟩ := compositeWrites_bound poly f i (List.range f.length)
        (roundDown poly (roundUp poly st i) i)
      rw [List.length_range] at w1 w3
      refine ⟨?_, by omega, by omega, by rw [w4, d3, u3]⟩
      intro k hk
      simp only [List.mem_cons] at hk
      rcases hk with hk | hk | hk
      · subst hk; omega
      · subst hk; omega
      · have := w1 k hk
        omega
    · simp only [if_neg hf]
      refine ⟨?_, by omega, by omega, by rw [d3, u3]⟩
      intro k hk
      simp only [List.mem_cons, List.not_mem_nil, or_false] at hk
      rcases hk with hk | hk
      · subst hk; omega
      · subst hk; omega

/-- The loop over the degrees `ds`: every slot written lies below
`npoly + #ds * (slots per round)`, and so does the final count. -/
theorem loopWrites_bound (poly : snfs_t) (f : List Int) (ds : List Int) :
    ∀ st : gen_state,
      (∀ k ∈ loopWrites poly f st ds,
        k < st.npoly + ds.length * (if f.length > 1 then f.length + 2 else 2)) ∧
      (ds.foldl (degreeStep poly f) st).npoly ≤
        st.npoly + ds.length * (if f.length > 1 then f.length + 2 else 2) ∧
      (ds.foldl (degreeStep poly f) st).polys.length = st.polys.length := by
  induction ds with
  | nil =>
    intro st
    refine ⟨?_, by simp, rfl⟩
    intro k hk
    simp [loopWrites] at hk
  | cons d ds ih =>
    intro st
    obtain ⟨g1, g2, g3, g4⟩ := degreeWrites_bound poly f st d
    obtain ⟨h1, h2, h3⟩ := ih (degreeStep poly f st d)
    have hmul : (ds.length + 1) * (if f.length > 1 then f.length + 2 else 2) =
        ds.length * (if f.length > 1 then f.length + 2 else 2) +
          (if f.length > 1 then f.length + 2 else 2) := by ring
    refine ⟨?_, ?_, ?_⟩
    · intro k hk
      simp only [loopWrites, List.mem_append] at hk
      simp only [List.length_cons]
      rw [hmul]
      rcases hk with hk | hk
      · have := (g1 k hk).2
        have hnn : 0 ≤ ds.length * (if f.length > 1 then f.length + 2 else 2) :=
          Nat.zero_le _
        omega
      · have := h1 k hk
        omega
    · simp only [List.foldl_cons, List.length_cons]
      rw [hmul]
      omega
    · simp only [List.foldl_cons]
      rw [h3, g4]

/-- C31. Candidate-array capacity in the no-reduction branch of `gen_brent_poly`.  With
`apoly = (numf + 2) * 3` when `numf > 1` and `6` otherwise, for every descriptor and
every list `f` of collected factors (`numf` its length): every slot index `npoly` at
which the loop over the degrees 4, 5, 6 writes a candidate is below `apoly`, the final
count is at most `apoly`, and the array keeps its `apoly` slots.  In particular this
holds for the factors `gen_brent_poly` collects itself, and the count written to
`*npolys` is at most `apoly`. -/
theorem candidate_array_capacity (poly : snfs_t) :
    (∀ f : List Int,
      (∀ k ∈ loopWrites poly f
          { polys := List.replicate (if f.length > 1 then (f.length + 2) * 3 else 6) snfs_init,
            npoly := 0, n := 0 } [4, 5, 6],
        k < (if f.length > 1 then (f.length + 2) * 3 else 6)) ∧
      ([4, 5, 6].foldl (degreeStep poly f)
          { polys := List.replicate (if f.length > 1 then (f.length + 2) * 3 else 6) snfs_init,
            npoly := 0, n := 0 }).npoly ≤
        (if f.length > 1 then (f.length + 2) * 3 else 6) ∧
      ([4, 5, 6].foldl (degreeStep poly f)
          { polys := List.replicate (if f.length > 1 then (f.length + 2) * 3 else 6) snfs_init,
            npoly := 0, n := 0 }).polys.length =
        (if f.length > 1 then (f.length + 2) * 3 else 6)) ∧
    (∀ k ∈ noReductionWrites poly,
      k < (if (baseFactors poly.base1).length > 1
        then ((baseFactors poly.base1).length + 2) * 3 else 6)) ∧
    (0 ≤ (noReduction poly).2 ∧
      (noReduction poly).2 ≤ ((if (baseFactors poly.base1).length > 1
        then ((baseFactors poly.base1).length + 2) * 3 else 6 : Nat) : Int)) ∧
    (noReduction poly).1.length = (if (baseFactors poly.base1).length > 1
        then ((baseFactors poly.base1).length + 2) * 3 else 6) := by
  have key : ∀ f : List Int,
      (∀ k ∈ loopWrites poly f
          { polys := List.replicate (if f.length > 1 then (f.length + 2) * 3 else 6) snfs_init,
            npoly := 0, n := 0 } [4, 5, 6],
        k < (if f.length > 1 then (f.length + 2) * 3 else 6)) ∧
      ([4, 5, 6].foldl (degreeStep poly f)
          { polys := List.replicate (if f.length > 1 then (f.length + 2) * 3 else 6) snfs_init,
            npoly := 0, n := 0 }).npoly ≤
        (if f.length > 1 then (f.length + 2) * 3 else 6) ∧
      ([4, 5, 6].foldl (degreeStep poly f)
          { polys := List.replicate (if f.length > 1 then (f.length + 2) * 3 else 6) snfs_init,
            npoly := 0, n := 0 }).polys.length =
        (if f.length > 1 then (f.length + 2) * 3 else 6) := by
    intro f
    obtain ⟨h1, h2, h3⟩ := loopWrites_bound poly f [4, 5, 6]
      { polys := List.replicate (if f.length > 1 then (f.length + 2) * 3 else 6) snfs_init,
        npoly := 0, n := 0 }
    have hcap : (0 : Nat) + ([4, 5, 6] : List Int).length *
        (if f.length > 1 then f.length + 2 else 2) =
        (if f.length > 1 then (f.length + 2) * 3 else 6) := by
      simp only [List.length_cons, List.length_nil]
      split_ifs <;> omega
    simp only [hcap] at h1 h2
    refine ⟨h1, h2, ?_⟩
    rw [h3, List.length_replicate]
  obtain ⟨k1, k2, k3⟩ := key (baseFactors poly.base1)
  refine ⟨key, k1, ⟨?_, ?_⟩, k3⟩
  · unfold noReduction
    exact Int.natCast_nonneg _
  · unfold noReduction
    simp only []
    exact Int.ofNat_le.mpr k2

/-- Witness for C31: the descriptor `6^8 + 1` (factors 2 and 3, `apoly = 12`): the
branch writes the slots `0` to `8` in turn and returns 9 candidates. -/
theorem candidate_array_capacity_witness :
    noReductionWrites brent6_8 = [0, 1, 2, 3, 4, 5, 6, 7, 8] ∧
    (8 ∈ noReductionWrites brent6_8 ∧
      8 < (if (baseFactors brent6_8.base1).length > 1
        then ((baseFactors brent6_8.base1).length + 2) * 3 else 6)) ∧
    (noReduction brent6_8).2 ≤ ((if (baseFactors brent6_8.base1).length > 1
        then ((baseFactors brent6_8.base1).length + 2) * 3 else 6 : Nat) : Int) :=
  have hw : noReductionWrites brent6_8 = [0, 1, 2, 3, 4, 5, 6, 7, 8] := by decide!
  have hm : 8 ∈ noReductionWrites brent6_8 := by rw [hw]; decide
  ⟨hw, ⟨hm, (candidate_array_capacity brent6_8).2.1 8 hm⟩,
    (candidate_array_capacity brent6_8).2.2.1.2⟩

end Snfs
